import Mathlib

/-!
# Digital-Design-Lab: I2C engine, scheduler, sleep routines, LEUART, circular buffer

Shallow embedding of

* `DW_Energy_Mode_Lab/src/Source_files/scheduler.c`
* `DW_Energy_Mode_Lab/src/Source_files/sleep_routines.c`
* `DW_Energy_Mode_Lab/src/Source_files/app.c` (`scheduled_letimer0_uf_evt`)
* `DW_Coarse_Project/src/Source_files/i2c.c` (with `Header_files/i2c.h`)
* `DW_Coarse_Project/src/Source_files/ble.c` (the circular buffer, with `Header_files/ble.h`)
* `DW_Coarse_Project/src/Source_files/leuart.c` (the transmit state machine)
* `DW_Coarse_Project/src/Source_files/SI7021.c` (the resolution bits, with
  `Header_files/SI7021.h`)

Conventions of the embedding.

* `uint32_t` / `unsigned int` values are `Nat`, reduced modulo `2^32` wherever the C
  operation can leave the 32-bit range; `int` values are `Int`, wrapped by `wrap32s`.
* `EFM_ASSERT` is the fatal path: a function returns `Except World World`, where
  `.error w` is "halted in an assertion with the state `w` reached so far" and `.ok w`
  is a normal return.
* Writes to the peripheral registers `CMD` and `TXDATA` are appended to a log, and so
  are the calls made into the sleep routines and the scheduler.
-/

namespace DDL

/-! ## Machine arithmetic -/

/-- Two-complement wrap of an integer into the range of a 32-bit `int`. -/
def wrap32s (x : Int) : Int := (x + 2147483648) % 4294967296 - 2147483648

/-- Bitwise complement of a `uint32_t`. -/
def not32 (x : Nat) : Nat := 4294967295 ^^^ (x % 4294967296)

/-- Left shift of a 32-bit value by an `int` amount. For an amount in `[0, 32)` this is
the C shift truncated to 32 bits. C leaves other amounts undefined; the model follows the
register shift of the Cortex-M target (low byte of the amount, result `0` from 32 on). -/
def shl32 (x : Nat) (s : Int) : Nat :=
  let k := (s % 256).toNat
  if k < 32 then (x <<< k) % 4294967296 else 0

/-- Logical right shift of a 32-bit value by an `int` amount (same convention as
`shl32` for amounts outside `[0, 32)`). -/
def shr32 (x : Nat) (s : Int) : Nat :=
  let k := (s % 256).toNat
  if k < 32 then (x % 4294967296) >>> k else 0

/-! ## scheduler.c -/

/-- `scheduler_open`: `event_scheduled &= ~event_scheduled;` -/
def scheduler_open (event_scheduled : Nat) : Nat :=
  event_scheduled &&& not32 event_scheduled

/-- `add_scheduled_event`: `event_scheduled |= event;` (between `__disable_irq` and
`__enable_irq`). -/
def add_scheduled_event (event : Nat) (event_scheduled : Nat) : Nat :=
  (event_scheduled ||| event) % 4294967296

/-- `remove_scheduled_event`: `event_scheduled &= ~event;` -/
def remove_scheduled_event (event : Nat) (event_scheduled : Nat) : Nat :=
  event_scheduled &&& not32 event

/-- `get_scheduled_event`: `return event_scheduled;` -/
def get_scheduled_event (event_scheduled : Nat) : Nat := event_scheduled

/-- A call of the scheduler's mutating interface. -/
inductive SchedOp where
  | add (event : Nat)
  | remove (event : Nat)
  deriving DecidableEq, Repr

/-- The effect of one scheduler call on `event_scheduled`. -/
def SchedOp.apply : SchedOp → Nat → Nat
  | .add e, s => add_scheduled_event e s
  | .remove e, s => remove_scheduled_event e s

/-- The effect of a sequence of scheduler calls, first call first. -/
def runSched : List SchedOp → Nat → Nat
  | [], s => s
  | op :: ops, s => runSched ops (op.apply s)

/-- A scheduler call leaves every bit of `e` alone: it is an `add`, or a `remove` whose
argument has no bit in common with `e`. -/
def SchedOp.keeps (e : Nat) : SchedOp → Prop
  | .add _ => True
  | .remove r => r &&& e = 0

/-! ## sleep_routines.c -/

/-- The part of `sleep_routines.h` that `sleep_routines.c` and `i2c.h` use. The header is
not among the sources, so its macros are parameters of the embedding. `BLOCKED` and
`UNBLOCKED` are the expressions assigned by `lowest_energy_mode[EM] = BLOCKED;` and
`lowest_energy_mode[EM] = UNBLOCKED;`: they are evaluated where the table and `EM` are in
scope, so they are functions of both. -/
structure SleepRoutinesH where
  MAX_ENERGY_MODES : Nat
  EM0 : Nat
  EM1 : Nat
  EM2 : Nat
  EM3 : Nat
  EM4 : Nat
  BLOCKED : (Nat → Int) → Nat → Int
  UNBLOCKED : (Nat → Int) → Nat → Int

/-- Modelled from the spec: the macros of `sleep_routines.h`, which is missing from the
sources. The hold table is "indexed by power level (shallowest to deepest)" with five
levels (the loop bound of `sleep_open`), `block(level)` "increments the hold counter for
level" and `unblock(level)` "decrements the hold counter for level". -/
def specH : SleepRoutinesH where
  MAX_ENERGY_MODES := 5
  EM0 := 0
  EM1 := 1
  EM2 := 2
  EM3 := 3
  EM4 := 4
  BLOCKED := fun t em => wrap32s (t em + 1)
  UNBLOCKED := fun t em => wrap32s (t em - 1)

/-- Array store `t[i] = v`. -/
def setEntry (t : Nat → Int) (i : Nat) (v : Int) : Nat → Int :=
  fun j => if j = i then v else t j

/-- `sleep_open`: `for(int i = 0; i < 5; i++) lowest_energy_mode[i] = 0;` -/
def sleep_open (t : Nat → Int) : Nat → Int :=
  (List.range 5).foldl (fun acc i => setEntry acc i 0) t

/-- `sleep_block_mode`: assign `BLOCKED`, then `EFM_ASSERT(lowest_energy_mode[EM] < 10)`. -/
def sleep_block_mode (H : SleepRoutinesH) (EM : Nat) (t : Nat → Int) :
    Except (Nat → Int) (Nat → Int) :=
  let t1 := setEntry t EM (H.BLOCKED t EM)
  if t1 EM < 10 then .ok t1 else .error t1

/-- `sleep_unblock_mode`: assign `UNBLOCKED`, then
`EFM_ASSERT(lowest_energy_mode[EM] >= 0)`. -/
def sleep_unblock_mode (H : SleepRoutinesH) (EM : Nat) (t : Nat → Int) :
    Except (Nat → Int) (Nat → Int) :=
  let t1 := setEntry t EM (H.UNBLOCKED t EM)
  if t1 EM ≥ 0 then .ok t1 else .error t1

/-- What `enter_sleep` asks of the energy management unit. -/
inductive EMU_Call where
  | stay
  | EnterEM1
  | EnterEM2
  | EnterEM3
  deriving DecidableEq, Repr

/-- `enter_sleep`: the `if / else if` chain over `lowest_energy_mode[EM0..EM3]`. -/
def enter_sleep (H : SleepRoutinesH) (t : Nat → Int) : EMU_Call :=
  if t H.EM0 > 0 then .stay
  else if t H.EM1 > 0 then .stay
  else if t H.EM2 > 0 then .EnterEM1
  else if t H.EM3 > 0 then .EnterEM2
  else .EnterEM3

/-- The `while(i < MAX_ENERGY_MODES)` loop of `current_block_energy_mode`, started at
index `i`; `fuel` bounds the number of iterations. -/
def current_block_energy_mode_loop (H : SleepRoutinesH) (t : Nat → Int) :
    Nat → Nat → Nat
  | 0, _ => H.MAX_ENERGY_MODES - 1
  | fuel + 1, i =>
    if i < H.MAX_ENERGY_MODES then
      if t i ≠ 0 then i else current_block_energy_mode_loop H t fuel (i + 1)
    else H.MAX_ENERGY_MODES - 1

/-- `current_block_energy_mode`: the loop from `i = 0`, which makes at most
`MAX_ENERGY_MODES` iterations. -/
def current_block_energy_mode (H : SleepRoutinesH) (t : Nat → Int) : Nat :=
  current_block_energy_mode_loop H t H.MAX_ENERGY_MODES 0

/-- A call of the sleep arbiter's hold interface. -/
inductive SleepOp where
  | block (EM : Nat)
  | unblock (EM : Nat)
  deriving DecidableEq, Repr

/-- A sequence of `sleep_block_mode` / `sleep_unblock_mode` calls, first call first; a
failed assertion halts the run. -/
def runSleep (H : SleepRoutinesH) : List SleepOp → (Nat → Int) →
    Except (Nat → Int) (Nat → Int)
  | [], t => .ok t
  | .block em :: ops, t =>
    match sleep_block_mode H em t with
    | .ok t1 => runSleep H ops t1
    | .error t1 => .error t1
  | .unblock em :: ops, t =>
    match sleep_unblock_mode H em t with
    | .ok t1 => runSleep H ops t1
    | .error t1 => .error t1

/-! ## i2c.h / i2c.c -/

/-- `eI2C_States` of `i2c.h`. -/
inductive eI2C_States where
  | start
  | master_cmd
  | request_data
  | handle_data
  | stop
  deriving DecidableEq, Repr

/-- The `I2C_PAYLOAD` struct of `i2c.h`. `i2c` is the peripheral handle and `data` the
address of the caller's data word. -/
structure I2C_PAYLOAD where
  state : eI2C_States
  i2c : Nat
  device_address : Nat
  device_register : Nat
  data : Nat
  bytes : Int
  busy : Bool
  read : Bool
  write : Bool
  event : Nat
  deriving DecidableEq, Repr

/-- The commands of the `CMD` register that `i2c.c` writes (`I2C_CMD_START`, ...). -/
inductive I2C_CMD where
  | START
  | STOP
  | ACK
  | NACK
  | ABORT
  deriving DecidableEq, Repr

/-- One write to a register of the peripheral `i2c`. -/
inductive RegWrite where
  | CMD (i2c : Nat) (c : I2C_CMD)
  | TXDATA (i2c : Nat) (v : Nat)
  deriving DecidableEq, Repr

/-- One call from `i2c.c` into the sleep routines or the scheduler. -/
inductive Call where
  | sleep_block_mode (EM : Nat)
  | sleep_unblock_mode (EM : Nat)
  | add_scheduled_event (event : Nat)
  deriving DecidableEq, Repr

/-- `_I2C_STATE_STATE_MASK` of the device header (bits 7..5 of `STATE`). -/
def I2C_STATE_STATE_MASK : Nat := 0xE0

/-- `I2C_STATE_STATE_IDLE` of the device header. -/
def I2C_STATE_STATE_IDLE : Nat := 0

/-- `#define I2C_EM_BLOCK EM2` -/
def I2C_EM_BLOCK (H : SleepRoutinesH) : Nat := H.EM2

/-- `#define I2C_ADDR_W(x) (x << 1) & ~(0x01)` -/
def I2C_ADDR_W (x : Nat) : Nat := shl32 x 1 &&& not32 1

/-- `#define I2C_ADDR_R(x) (x << 1) | (0x01)` -/
def I2C_ADDR_R (x : Nat) : Nat := shl32 x 1 ||| 1

/-- Everything the three modules read and write.

* `payload`: the static descriptor of `i2c.c`;
* `mem`: the 32-bit words of caller memory, by address (`*payload.data` is
  `mem payload.data`);
* `STATE`: the value read from the `STATE` register of each peripheral;
* `lowest_energy_mode`: the static table of `sleep_routines.c`;
* `event_scheduled`: the static word of `scheduler.c`;
* `regs`: the register writes so far, oldest first;
* `calls`: the calls into the sleep routines and the scheduler so far, oldest first. -/
structure World where
  payload : I2C_PAYLOAD
  mem : Nat → Nat
  STATE : Nat → Nat
  lowest_energy_mode : Nat → Int
  event_scheduled : Nat
  regs : List RegWrite
  calls : List Call

/-- Memory store `*p = v`. -/
def setMem (m : Nat → Nat) (p : Nat) (v : Nat) : Nat → Nat :=
  fun q => if q = p then v else m q

/-- A call of `sleep_block_mode(EM)` made from the transfer engine. -/
def call_sleep_block_mode (H : SleepRoutinesH) (EM : Nat) (w : World) :
    Except World World :=
  let w1 := { w with calls := w.calls ++ [Call.sleep_block_mode EM] }
  match sleep_block_mode H EM w.lowest_energy_mode with
  | .ok t => .ok { w1 with lowest_energy_mode := t }
  | .error t => .error { w1 with lowest_energy_mode := t }

/-- A call of `sleep_unblock_mode(EM)` made from the transfer engine. -/
def call_sleep_unblock_mode (H : SleepRoutinesH) (EM : Nat) (w : World) :
    Except World World :=
  let w1 := { w with calls := w.calls ++ [Call.sleep_unblock_mode EM] }
  match sleep_unblock_mode H EM w.lowest_energy_mode with
  | .ok t => .ok { w1 with lowest_energy_mode := t }
  | .error t => .error { w1 with lowest_energy_mode := t }

/-- A call of `add_scheduled_event(event)` made from the transfer engine. -/
def call_add_scheduled_event (event : Nat) (w : World) : World :=
  { w with
    calls := w.calls ++ [Call.add_scheduled_event event]
    event_scheduled := add_scheduled_event event w.event_scheduled }

/-- `payload.i2c->CMD = c;` -/
def writeCMD (c : I2C_CMD) (w : World) : World :=
  { w with regs := w.regs ++ [RegWrite.CMD w.payload.i2c c] }

/-- `payload.i2c->TXDATA = v;` -/
def writeTXDATA (v : Nat) (w : World) : World :=
  { w with regs := w.regs ++ [RegWrite.TXDATA w.payload.i2c v] }

/-- The byte `(*payload.data & (0xFF << (8 * bytes))) >> (8 * bytes)` sent by `i2c_ack`. -/
def txByte (d : Nat) (bytes : Int) : Nat :=
  shr32 (d &&& shl32 0xFF (wrap32s (8 * bytes))) (wrap32s (8 * bytes))

/-- The data word after `*payload.data &= ~(0xFF << (bytes * 8));` and
`*payload.data |= (RXDATA << (bytes * 8));` of `i2c_rxdatav`. -/
def rxStore (d : Nat) (bytes : Int) (rxdata : Nat) : Nat :=
  (d &&& not32 (shl32 0xFF (wrap32s (bytes * 8)))) ||| shl32 rxdata (wrap32s (bytes * 8))

/-- `i2c_start`. -/
def i2c_start (H : SleepRoutinesH) (i2c device_address device_register data : Nat)
    (bytes : Int) (read : Bool) (event : Nat) (w : World) : Except World World :=
  let p0 : I2C_PAYLOAD :=
    if read then { w.payload with read := true, write := false }
    else { w.payload with write := true, read := false }
  let p1 : I2C_PAYLOAD :=
    { p0 with
      i2c := i2c
      device_address := device_address
      bytes := bytes
      device_register := device_register
      data := data
      busy := true
      event := event }
  let w1 : World := { w with payload := p1 }
  if (w1.STATE i2c &&& I2C_STATE_STATE_MASK) = I2C_STATE_STATE_IDLE then
    match call_sleep_block_mode H (I2C_EM_BLOCK H) w1 with
    | .error w2 => .error w2
    | .ok w2 =>
      let w3 : World := { w2 with payload := { w2.payload with state := .start } }
      let w4 := writeCMD .START w3
      .ok (writeTXDATA (I2C_ADDR_W w4.payload.device_address) w4)
  else .error w1

/-- `i2c_busy`: `return payload.busy;` (the argument is not used). -/
def i2c_busy (_i2c : Nat) (w : World) : Bool := w.payload.busy

/-- `i2c_ack`. -/
def i2c_ack (w : World) : Except World World :=
  match w.payload.state with
  | .start =>
    let w1 : World := { w with payload := { w.payload with state := .master_cmd } }
    .ok (writeTXDATA w1.payload.device_register w1)
  | .master_cmd =>
    if w.payload.read then
      let w1 : World := { w with payload := { w.payload with state := .request_data } }
      let w2 := writeCMD .START w1
      .ok (writeTXDATA (I2C_ADDR_R w2.payload.device_address) w2)
    else if w.payload.write then
      let w1 : World :=
        { w with payload :=
          { w.payload with state := .handle_data, bytes := wrap32s (w.payload.bytes - 1) } }
      .ok (writeTXDATA (txByte (w1.mem w1.payload.data) w1.payload.bytes) w1)
    else .error w
  | .request_data =>
    .ok { w with payload := { w.payload with state := .handle_data } }
  | .handle_data =>
    if w.payload.write then
      if w.payload.bytes > 0 then
        let w1 : World :=
          { w with payload := { w.payload with bytes := wrap32s (w.payload.bytes - 1) } }
        .ok (writeTXDATA (txByte (w1.mem w1.payload.data) w1.payload.bytes) w1)
      else
        let w1 := writeCMD .STOP w
        .ok { w1 with payload := { w1.payload with state := .stop } }
    else .error w
  | .stop => .error w

/-- `i2c_nack`. -/
def i2c_nack (w : World) : Except World World :=
  match w.payload.state with
  | .start => .error w
  | .master_cmd => .error w
  | .request_data =>
    let w1 : World := { w with payload := { w.payload with state := .request_data } }
    let w2 := writeCMD .START w1
    .ok (writeTXDATA (I2C_ADDR_R w2.payload.device_address) w2)
  | .handle_data => .error w
  | .stop => .error w

/-- `i2c_rxdatav`; `rxdata` is the value read from `payload.i2c->RXDATA`. -/
def i2c_rxdatav (rxdata : Nat) (w : World) : Except World World :=
  match w.payload.state with
  | .start => .error w
  | .master_cmd => .error w
  | .request_data => .error w
  | .handle_data =>
    if w.payload.read then
      let b := wrap32s (w.payload.bytes - 1)
      let w1 : World :=
        { w with
          payload := { w.payload with bytes := b }
          mem := setMem w.mem w.payload.data (rxStore (w.mem w.payload.data) b rxdata) }
      if b > 0 then .ok (writeCMD .ACK w1)
      else if b = 0 then
        let w2 := writeCMD .STOP (writeCMD .NACK w1)
        .ok { w2 with payload := { w2.payload with state := .stop } }
      else .ok w1
    else .error w
  | .stop => .error w

/-- `i2c_mstop`. -/
def i2c_mstop (H : SleepRoutinesH) (w : World) : Except World World :=
  match w.payload.state with
  | .start => .error w
  | .master_cmd => .error w
  | .request_data => .error w
  | .handle_data => .error w
  | .stop =>
    match call_sleep_unblock_mode H (I2C_EM_BLOCK H) w with
    | .error w1 => .error w1
    | .ok w1 =>
      let w2 := call_add_scheduled_event w1.payload.event w1
      .ok { w2 with payload := { w2.payload with busy := false, state := .stop } }

/-- The interrupt causes enabled by `i2c_open`; `RXDATAV` carries the received value. -/
inductive Irq where
  | ACK
  | NACK
  | RXDATAV (rxdata : Nat)
  | MSTOP
  deriving DecidableEq, Repr

/-- The handler that the interrupt request handler calls for one cause. -/
def irq (H : SleepRoutinesH) : Irq → World → Except World World
  | .ACK, w => i2c_ack w
  | .NACK, w => i2c_nack w
  | .RXDATAV rx, w => i2c_rxdatav rx w
  | .MSTOP, w => i2c_mstop H w

/-- A sequence of interrupts, first one first; a fatal assertion halts the run. -/
def irqs (H : SleepRoutinesH) : List Irq → World → Except World World
  | [], w => .ok w
  | i :: is, w =>
    match irq H i w with
    | .ok w1 => irqs H is w1
    | .error w1 => .error w1

/-- `i2c_start` followed by a sequence of interrupts. -/
def transfer (H : SleepRoutinesH) (i2c device_address device_register data : Nat)
    (bytes : Int) (read : Bool) (event : Nat) (is : List Irq) (w : World) :
    Except World World :=
  match i2c_start H i2c device_address device_register data bytes read event w with
  | .ok w1 => irqs H is w1
  | .error w1 => .error w1

/-- The values written to `TXDATA`, in order. -/
def txValues : List RegWrite → List Nat
  | [] => []
  | .TXDATA _ v :: rest => v :: txValues rest
  | .CMD _ _ :: rest => txValues rest

/-- The interrupts of a transfer of `n` data bytes with a slave that acknowledges every
byte: for a write, the acknowledges of the address and of the register, one acknowledge
per data byte, and the stop; for a read, the acknowledges of the address, of the register
and of the read address, one received byte per element of `rx`, and the stop. -/
def ackingSlave (read : Bool) (rx : List Nat) (n : Nat) : List Irq :=
  if read then
    [Irq.ACK, Irq.ACK, Irq.ACK] ++ rx.map Irq.RXDATAV ++ [Irq.MSTOP]
  else
    [Irq.ACK, Irq.ACK] ++ List.replicate n Irq.ACK ++ [Irq.MSTOP]

/-- The hold that `i2c_start` takes passes the assertion of `sleep_block_mode`, and its
release by `i2c_mstop` passes the assertion of `sleep_unblock_mode`. -/
def holdPasses (H : SleepRoutinesH) (t : Nat → Int) : Bool :=
  match sleep_block_mode H (I2C_EM_BLOCK H) t with
  | .ok t1 =>
    match sleep_unblock_mode H (I2C_EM_BLOCK H) t1 with
    | .ok _ => true
    | .error _ => false
  | .error _ => false

/-- The state after reset and initialisation: the zero-initialised static descriptor, the
hold table left by `sleep_open`, an idle bus, every word of caller memory equal to `buf`,
and the pending set `pending`. -/
def bootWorld (buf pending : Nat) : World where
  payload :=
    { state := .start, i2c := 0, device_address := 0, device_register := 0, data := 0,
      bytes := 0, busy := false, read := false, write := false, event := 0 }
  mem := fun _ => buf
  STATE := fun _ => 0
  lowest_energy_mode := sleep_open (fun _ => 0)
  event_scheduled := pending
  regs := []
  calls := []

/-- A descriptor in the data phase of a transfer with device `0x40`, register `0xF3`,
data word at address `100` and completion event `8`, in the state after initialisation
otherwise: `read` is the direction, `bytes` the remaining count and `buf` the content of
every word of caller memory. -/
def dataPhaseWorld (buf : Nat) (read : Bool) (bytes : Int) : World :=
  { bootWorld buf 0 with
    payload :=
      { state := .handle_data, i2c := 0, device_address := 0x40, device_register := 0xF3,
        data := 100, bytes := bytes, busy := true, read := read, write := !read,
        event := 8 } }

/-- The state in which a run ends, returned or halted. -/
def finalWorld : Except World World → World
  | .ok w => w
  | .error w => w

/-- The invariant of the remaining byte count: it is a non-negative `int`, the direction
flags are complementary, and it is at least one before the data phase and during the data
phase of a read. -/
def bytesInv (p : I2C_PAYLOAD) : Prop :=
  0 ≤ p.bytes ∧ p.bytes < 2147483648 ∧ p.write = !p.read ∧
  match p.state with
  | .stop => True
  | .handle_data => p.read = true → 1 ≤ p.bytes
  | _ => 1 ≤ p.bytes

/-- The state of the two-byte read of register `0xF3` of device `0x40`, started from the
state after initialisation, once the address phases are over and `k` of the bytes `0x66`,
`0x1A` have been received. -/
def dataPhaseWorldAfter (k : Nat) : World :=
  finalWorld
    (transfer specH 0 0x40 0xF3 100 2 true 8
      ([Irq.ACK, Irq.ACK, Irq.ACK] ++ ([Irq.RXDATAV 0x66, Irq.RXDATAV 0x1A].take k))
      (bootWorld 0 0))

/-- The value of a phase as an enumerator of `eI2C_States`. -/
def phaseRank : eI2C_States → Nat
  | .start => 0
  | .master_cmd => 1
  | .request_data => 2
  | .handle_data => 3
  | .stop => 4

/-- The handle `I2C0` of the device header (the base address of the first peripheral). -/
def I2C0 : Nat := 0x4000C000

/-- The handle `I2C1` of the device header (the base address of the second peripheral). -/
def I2C1 : Nat := 0x4000C400

/-! ## ble.h / ble.c: the circular buffer -/

/-- `#define CSIZE 64` -/
def CSIZE : Nat := 64

/-- `#define CIRC_TEST true` -/
def CIRC_TEST : Bool := true

/-- `#define CIRC_OPER false` -/
def CIRC_OPER : Bool := false

/-- The struct `BLE_CIRCULAR_BUF` of `ble.h`: `cbuf` gives the character at each index,
`size_mask` is a `uint8_t`, the other fields are `uint32_t`. -/
structure BLE_CIRCULAR_BUF where
  cbuf : Nat → Nat
  size_mask : Nat
  size : Nat
  read_ptr : Nat
  write_ptr : Nat

/-- What `ble.c` reads and writes in its circular buffer functions.

* `ble_cbuf`: the global buffer;
* `result_str`: the array `test_struct.result_str`, by C index;
* `leuart_busy`: the value that `leuart_tx_busy(LEUART0)` returns (the busy flag of the
  descriptor of `leuart.c`);
* `leuart_started`: the strings passed to `leuart_start` so far, oldest first. -/
structure BleState where
  ble_cbuf : BLE_CIRCULAR_BUF
  result_str : Int → Nat
  leuart_busy : Bool
  leuart_started : List (List Nat)

/-- Subtraction of two `uint32_t` values. -/
def sub32 (a b : Nat) : Nat :=
  (a % 4294967296 + 4294967296 - b % 4294967296) % 4294967296

/-- Array store `a[i] = v` for the character buffer. -/
def setByte (a : Nat → Nat) (i : Nat) (v : Nat) : Nat → Nat :=
  fun j => if j = i then v else a j

/-- Array store `a[i] = v` for `result_str`, whose index is an `int`. -/
def setChar (a : Int → Nat) (i : Int) (v : Nat) : Int → Nat :=
  fun j => if j = i then v else a j

/-- `ble_circ_init`. -/
def ble_circ_init (b : BLE_CIRCULAR_BUF) : BLE_CIRCULAR_BUF :=
  { b with read_ptr := 0, write_ptr := 0, size := CSIZE, size_mask := (CSIZE - 1) % 256 }

/-- `ble_circ_space`: `data_length = (write_ptr - read_ptr) & size_mask` and
`free_space = size - data_length`, both stored in a `uint8_t`. -/
def ble_circ_space (b : BLE_CIRCULAR_BUF) : Nat :=
  let data_length := (sub32 b.write_ptr b.read_ptr &&& b.size_mask) % 256
  sub32 b.size data_length % 256

/-- `update_circ_wrtindex`. -/
def update_circ_wrtindex (b : BLE_CIRCULAR_BUF) (update_by : Nat) : BLE_CIRCULAR_BUF :=
  { b with write_ptr := ((b.write_ptr + update_by) % 4294967296) &&& b.size_mask }

/-- `update_circ_readindex`. -/
def update_circ_readindex (b : BLE_CIRCULAR_BUF) (update_by : Nat) : BLE_CIRCULAR_BUF :=
  { b with read_ptr := ((b.read_ptr + update_by) % 4294967296) &&& b.size_mask }

/-- The body of the loops of `ble_circ_push`, run for each character of a list:
`cbuf[write_ptr] = c; update_circ_wrtindex(&ble_cbuf, 1);` -/
def ble_circ_push_loop (b : BLE_CIRCULAR_BUF) : List Nat → BLE_CIRCULAR_BUF
  | [] => b
  | c :: cs =>
    ble_circ_push_loop
      (update_circ_wrtindex { b with cbuf := setByte b.cbuf b.write_ptr c } 1) cs

/-- `ble_circ_push`. The argument is the list of the characters of the C string before
its terminating zero, so that `strlen` is its length. -/
def ble_circ_push (string : List Nat) (s : BleState) : Except BleState BleState :=
  let string_size : Int := wrap32s string.length
  let space : Int := ble_circ_space s.ble_cbuf
  let packet_length : Int := wrap32s (string_size + 1)
  if packet_length > space then .error s
  else
    let b1 := update_circ_wrtindex
      { s.ble_cbuf with
        cbuf := setByte s.ble_cbuf.cbuf s.ble_cbuf.write_ptr (packet_length % 256).toNat } 1
    .ok { s with ble_cbuf := ble_circ_push_loop b1 string }

/-- The copy loop of `ble_circ_pop` with `n` iterations left and loop index `i`:
`result_str[i] = cbuf[read_ptr]; update_circ_readindex(&ble_cbuf, 1);` -/
def ble_circ_pop_loop : Nat → Nat → BleState → BleState
  | 0, _, s => s
  | n + 1, i, s =>
    ble_circ_pop_loop n (i + 1)
      { s with
        result_str := setChar s.result_str i (s.ble_cbuf.cbuf s.ble_cbuf.read_ptr)
        ble_cbuf := update_circ_readindex s.ble_cbuf 1 }

/-- The characters of the C string in `m` from index `i` on, before its first zero;
`fuel` bounds the number of characters read. -/
def c_str (m : Int → Nat) : Nat → Nat → List Nat
  | 0, _ => []
  | fuel + 1, i => if m i = 0 then [] else m i :: c_str m fuel (i + 1)

/-- `ble_circ_pop`: the returned value and the state left. The call of `leuart_start`
made when `test` is false is recorded with the string it is given (read within the 64
characters of `result_str`) and sets the busy flag of the LEUART descriptor. -/
def ble_circ_pop (test : Bool) (s : BleState) : Bool × BleState :=
  if ble_circ_space s.ble_cbuf = CSIZE then (true, s)
  else if !s.leuart_busy then
    let string_length : Int := (s.ble_cbuf.cbuf s.ble_cbuf.read_ptr : Int) - 1
    let s1 : BleState := { s with ble_cbuf := update_circ_readindex s.ble_cbuf 1 }
    let s2 := ble_circ_pop_loop string_length.toNat 0 s1
    let s3 : BleState := { s2 with result_str := setChar s2.result_str string_length 0 }
    let s4 : BleState :=
      if !test then
        { s3 with
          leuart_busy := true
          leuart_started := s3.leuart_started ++ [c_str s3.result_str 64 0] }
      else s3
    (false, s4)
  else (true, s)

/-- A sequence of `ble_circ_push` calls, first one first; a fatal assertion halts it. -/
def pushAll : List (List Nat) → BleState → Except BleState BleState
  | [], s => .ok s
  | x :: xs, s => (ble_circ_push x s).bind (pushAll xs)

/-- A sequence of `n` calls of `ble_circ_pop`: for each call the value returned and the
string left in `result_str`, and the state after the last call. -/
def popAll (test : Bool) : Nat → BleState → List (Bool × List Nat) × BleState
  | 0, s => ([], s)
  | n + 1, s =>
    let r := ble_circ_pop test s
    let rest := popAll test n r.2
    ((r.1, c_str r.2.result_str 64 0) :: rest.1, rest.2)

/-- The character at index `n` of a list, `0` past its end. -/
def byteAt : List Nat → Nat → Nat
  | [], _ => 0
  | x :: _, 0 => x
  | _ :: xs, n + 1 => byteAt xs n

/-- The bytes that a queue of strings occupies in the buffer: for each string its packet
length (the header) and then its characters. -/
def wire : List (List Nat) → List Nat
  | [] => []
  | x :: q => (x.length + 1) :: (x ++ wire q)

/-- The buffer holds the queue `q` of strings, oldest first: it has the geometry set by
`ble_circ_init`, and the bytes of `q` lie between the read and the write pointer. -/
def Holds (b : BLE_CIRCULAR_BUF) (q : List (List Nat)) : Prop :=
  b.size = 64 ∧ b.size_mask = 63 ∧ b.read_ptr < 64 ∧ (wire q).length < 64 ∧
  b.write_ptr = (b.read_ptr + (wire q).length) % 64 ∧
  ∀ j, j < (wire q).length → b.cbuf ((b.read_ptr + j) % 64) = byteAt (wire q) j

/-- A state of `ble.c` before `ble_circ_init`: every character is `fill`, the pointers
and sizes are `junk`, and the LEUART is idle. -/
def bleBoot (fill junk : Nat) : BleState where
  ble_cbuf := { cbuf := fun _ => fill, size_mask := junk % 256, size := junk,
                read_ptr := junk, write_ptr := junk }
  result_str := fun _ => fill
  leuart_busy := false
  leuart_started := []

/-- The state after `ble_circ_init`. -/
def bleInit (fill junk : Nat) : BleState :=
  { bleBoot fill junk with ble_cbuf := ble_circ_init (bleBoot fill junk).ble_cbuf }

/-! ## SI7021.h / SI7021.c: the resolution bits of the user register -/

/-- `#define Si7021_U1_DEFAULT 0x3A` -/
def Si7021_U1_DEFAULT : Nat := 0x3A

/-- `#define Si7021_RES_MASK 0x81` -/
def Si7021_RES_MASK : Nat := 0x81

/-- `#define Si7021_RES_SET 0x80` -/
def Si7021_RES_SET : Nat := 0x80

/-- `#define Si7021_TARGET_U1 0xBA` -/
def Si7021_TARGET_U1 : Nat := 0xBA

/-- The value of `write_data` after the two statements
`write_data = read_data & ~Si7021_RES_MASK;` and `write_data |= Si7021_RES_SET;` of
`si7021_i2c_test` and of `change_si7021_resolution`; both variables are `uint32_t`. -/
def resolution_write_data (read_data : Nat) : Nat :=
  let write_data := (read_data % 4294967296) &&& not32 Si7021_RES_MASK
  write_data ||| Si7021_RES_SET

/-! ## ble.c: sequences of calls and the indices of `cbuf` they use -/

/-- One call of the circular buffer interface of `ble.c`. -/
inductive BleOp where
  | push (string : List Nat)
  | pop (test : Bool)

/-- The effect of one call; the value returned by `ble_circ_pop` is dropped. -/
def BleOp.run : BleOp → BleState → Except BleState BleState
  | .push string, s => ble_circ_push string s
  | .pop test, s => .ok (ble_circ_pop test s).2

/-- A sequence of calls, first one first; a fatal assertion halts it. -/
def runBle : List BleOp → BleState → Except BleState BleState
  | [], s => .ok s
  | op :: ops, s => (op.run s).bind (runBle ops)

/-- The state in which a sequence of calls ends, returned or halted. -/
def finalBle : Except BleState BleState → BleState
  | .ok s => s
  | .error s => s

/-- The indices of `cbuf` that the loop `ble_circ_push_loop` stores to, in order: the
value of `write_ptr` at each `cbuf[write_ptr] = c`. -/
def ble_circ_push_loop_indices (b : BLE_CIRCULAR_BUF) : List Nat → List Nat
  | [] => []
  | c :: cs =>
    b.write_ptr ::
      ble_circ_push_loop_indices
        (update_circ_wrtindex { b with cbuf := setByte b.cbuf b.write_ptr c } 1) cs

/-- The indices of `cbuf` that one call of `ble_circ_push` stores to: none when the
assertion halts it, else the index of the header and those of the characters. -/
def ble_circ_push_indices (string : List Nat) (s : BleState) : List Nat :=
  let string_size : Int := wrap32s string.length
  let space : Int := ble_circ_space s.ble_cbuf
  let packet_length : Int := wrap32s (string_size + 1)
  if packet_length > space then []
  else
    s.ble_cbuf.write_ptr ::
      ble_circ_push_loop_indices
        (update_circ_wrtindex
          { s.ble_cbuf with
            cbuf := setByte s.ble_cbuf.cbuf s.ble_cbuf.write_ptr
              (packet_length % 256).toNat } 1)
        string

/-- The indices of `cbuf` that the copy loop of `ble_circ_pop` reads with `n` iterations
left: the value of `read_ptr` at each `cbuf[read_ptr]`. -/
def ble_circ_pop_loop_indices : Nat → BLE_CIRCULAR_BUF → List Nat
  | 0, _ => []
  | n + 1, b => b.read_ptr :: ble_circ_pop_loop_indices n (update_circ_readindex b 1)

/-- The indices of `cbuf` that one call of `ble_circ_pop` reads: none when it returns
true, else the index of the header and those of the characters. -/
def ble_circ_pop_indices (s : BleState) : List Nat :=
  if ble_circ_space s.ble_cbuf = CSIZE then []
  else if !s.leuart_busy then
    let string_length : Int := (s.ble_cbuf.cbuf s.ble_cbuf.read_ptr : Int) - 1
    s.ble_cbuf.read_ptr ::
      ble_circ_pop_loop_indices string_length.toNat (update_circ_readindex s.ble_cbuf 1)
  else []

/-- The pointers of the circular buffer are indices of `cbuf`, and `size_mask` is the
value set by `ble_circ_init`. -/
def PtrInv (b : BLE_CIRCULAR_BUF) : Prop :=
  b.size_mask = CSIZE - 1 ∧ b.read_ptr < CSIZE ∧ b.write_ptr < CSIZE

/-- The value `abs(ble_cbuf.write_ptr - ble_cbuf.read_ptr)` asserted in
`circular_buff_test`: the `uint32_t` difference, read as an `int` by `abs`. -/
def ptr_distance (b : BLE_CIRCULAR_BUF) : Nat :=
  (wrap32s (sub32 b.write_ptr b.read_ptr)).natAbs

/-! ## i2c.c: runs of `RXDATAV` interrupts -/

/-- The data word after the `RXDATAV` interrupts of the data phase of a read have stored
the bytes `rx`, first received first, into the word `d`: the byte received with `k` bytes
still to come is stored by `rxStore` with the count `k`. -/
def rxFold : Nat → List Nat → Nat
  | d, [] => d
  | d, r :: rs => rxFold (rxStore d (rs.length : Int) r) rs

/-- The number of `RXDATAV` interrupts after which the remaining byte count `bytes` of a
read in the data phase becomes zero: `bytes` itself when it is positive, and otherwise
the way down to the least `int` and, after the wrap of the decrement, from the greatest
`int` down to zero. -/
def rxdatavToStop (bytes : Int) : Int :=
  if bytes ≤ 0 then bytes + 4294967296 else bytes

/-! ## app.c of the Energy Mode Lab -/

/-- What the theorems about `scheduled_letimer0_uf_evt` use of `sleep_routines.h`: five
energy modes numbered `EM0 = 0` to `EM4 = 4`; `BLOCKED` stores `v` in an entry that is 0,
where `v` is not 0 and passes the assertion of `sleep_block_mode`; and `UNBLOCKED` stores
0 in an entry that is `v`. The counting macros (`specH`) are such a header with `v = 1`,
and so are constant macros `BLOCKED = v` and `UNBLOCKED = 0`. -/
def blocksWith (H : SleepRoutinesH) (v : Int) : Prop :=
  H.MAX_ENERGY_MODES = 5 ∧ H.EM0 = 0 ∧ H.EM4 = 4 ∧ v ≠ 0 ∧ v < 10 ∧
  (∀ (t : Nat → Int) (j : Nat), t j = 0 → H.BLOCKED t j = v) ∧
  (∀ (t : Nat → Int) (j : Nat), t j = v → H.UNBLOCKED t j = 0)

/-- The number of ACK commands among register writes. -/
def ackCount : List RegWrite → Nat
  | [] => 0
  | .CMD _ .ACK :: rest => ackCount rest + 1
  | _ :: rest => ackCount rest

/-- A run of `RXDATAV` interrupts with the received values `rx` that the peripheral can
deliver from the state `w` in which the data phase of a read begins. The slave sends one
byte after the read address and one more after each ACK command of the master, so the
interrupt number `k + 1` is delivered only when, in the state reached by the first `k`,
fewer than one plus the number of ACK commands written since `w` have been delivered. -/
def Receivable (H : SleepRoutinesH) (w : World) (rx : List Nat) : Prop :=
  ∀ k wk, k < rx.length → irqs H ((rx.take k).map Irq.RXDATAV) w = .ok wk →
    k < 1 + (ackCount wk.regs - ackCount w.regs)

/-- The states of the transmit state machine that `leuart.c` names. Their `enum` is
declared in `leuart.h`, which is not among the sources. -/
inductive LEUART_States where
  | LEUART_Start
  | Transmit_data
  | Wait_finish
  | Transmission_end
  deriving DecidableEq, Repr

/-- The fields of the static `LEUART_PAYLOAD payload` that `leuart.c` uses. The struct is
declared in `leuart.h`, which is not among the sources: `message_length` and `index` are
taken to be `uint32_t` like the argument `string_len` that is stored in the first, and
`message` gives the character at each index of the array. -/
structure LEUART_PAYLOAD where
  state : LEUART_States
  leuart : Nat
  message : Nat → Nat
  message_length : Nat
  index : Nat
  busy : Bool

/-- The part of `leuart.h` that the transmit path of `leuart.c` uses besides the payload
type: the energy mode that a transmission blocks. The header is not among the sources, so
the macro is a parameter of the embedding. -/
structure LeuartH where
  LEUART_TX_EM : Nat

/-- `LEUART_IEN_TXC` of the device header (bit 0 of `IEN`). -/
def LEUART_IEN_TXC : Nat := 0x1

/-- `LEUART_IEN_TXBL` of the device header (bit 1 of `IEN`). -/
def LEUART_IEN_TXBL : Nat := 0x2

/-- `LEUART_IFC_TXC` of the device header (bit 0 of `IFC`). -/
def LEUART_IFC_TXC : Nat := 0x1

/-- Everything the transmit path of `leuart.c` reads and writes.

* `payload`, `tx_done_evt`: the static variables of `leuart.c`;
* `IEN`: the interrupt enable register of each peripheral, by handle;
* `IFC`: the values written to the interrupt flag clear register, with the handle;
* `TXDATA`: the values written to `LEUART0->TXDATA`, oldest first;
* `lowest_energy_mode`, `event_scheduled`: the static variables of `sleep_routines.c`
  and `scheduler.c`;
* `calls`: the calls into the sleep routines and the scheduler so far, oldest first. -/
structure LeuartWorld where
  payload : LEUART_PAYLOAD
  tx_done_evt : Nat
  IEN : Nat → Nat
  IFC : List (Nat × Nat)
  TXDATA : List Nat
  lowest_energy_mode : Nat → Int
  event_scheduled : Nat
  calls : List Call

/-- `LEUART_IntEnable(leuart, flags)` of the vendor library: `leuart->IEN |= flags;` -/
def LEUART_IntEnable (leuart flags : Nat) (w : LeuartWorld) : LeuartWorld :=
  { w with IEN := fun l => if l = leuart then (w.IEN l ||| flags) % 4294967296 else w.IEN l }

/-- `LEUART_IntDisable(leuart, flags)` of the vendor library: `leuart->IEN &= ~flags;` -/
def LEUART_IntDisable (leuart flags : Nat) (w : LeuartWorld) : LeuartWorld :=
  { w with IEN := fun l => if l = leuart then w.IEN l &&& not32 flags else w.IEN l }

/-- `LEUART_IntClear(leuart, flags)` of the vendor library: `leuart->IFC = flags;` -/
def LEUART_IntClear (leuart flags : Nat) (w : LeuartWorld) : LeuartWorld :=
  { w with IFC := w.IFC ++ [(leuart, flags)] }

/-- The array after `strcpy(dst, src)`: the characters of `src` before its first zero,
then a zero; the rest of `dst` is unchanged. `src` lists the characters of the source
string. -/
def strcpy (dst : Nat → Nat) (src : List Nat) : Nat → Nat :=
  let s := src.takeWhile (fun c => decide (c ≠ 0))
  fun i => if i < s.length then s.getD i 0 else if i = s.length then 0 else dst i

/-- `leuart_start`. -/
def leuart_start (H : SleepRoutinesH) (L : LeuartH) (leuart : Nat) (string : List Nat)
    (string_len : Nat) (w : LeuartWorld) : Except LeuartWorld LeuartWorld :=
  let w1 : LeuartWorld := { w with calls := w.calls ++ [Call.sleep_block_mode L.LEUART_TX_EM] }
  match sleep_block_mode H L.LEUART_TX_EM w.lowest_energy_mode with
  | .error t => .error { w1 with lowest_energy_mode := t }
  | .ok t =>
    let w2 := LEUART_IntClear leuart LEUART_IFC_TXC { w1 with lowest_energy_mode := t }
    let w3 : LeuartWorld :=
      { w2 with
        payload :=
          { busy := true
            state := .Transmit_data
            message_length := string_len % 4294967296
            message := strcpy w2.payload.message string
            leuart := leuart
            index := 0 } }
    .ok (LEUART_IntEnable leuart LEUART_IEN_TXBL w3)

/-- `leuart_tx_busy`: `return payload.busy;` (the argument is not used). -/
def leuart_tx_busy (_leuart : Nat) (w : LeuartWorld) : Bool := w.payload.busy

/-- `LEUART0->TXDATA = payload.message[payload.index];` -/
def leuart_write_txdata (w : LeuartWorld) : LeuartWorld :=
  { w with TXDATA := w.TXDATA ++ [w.payload.message w.payload.index] }

/-- `leuart_txbl`. -/
def leuart_txbl (w : LeuartWorld) : Except LeuartWorld LeuartWorld :=
  match w.payload.state with
  | .LEUART_Start => .error w
  | .Transmit_data =>
    if w.payload.index < sub32 w.payload.message_length 1 then
      let w1 := leuart_write_txdata w
      .ok { w1 with payload := { w1.payload with index := (w1.payload.index + 1) % 4294967296 } }
    else
      let w1 := leuart_write_txdata w
      let w2 : LeuartWorld := { w1 with payload := { w1.payload with state := .Wait_finish } }
      let w3 := LEUART_IntDisable w2.payload.leuart LEUART_IEN_TXBL w2
      .ok (LEUART_IntEnable w3.payload.leuart LEUART_IEN_TXC w3)
  | .Wait_finish => .error w
  | .Transmission_end => .error w

/-- `leuart_txc`. -/
def leuart_txc (H : SleepRoutinesH) (L : LeuartH) (w : LeuartWorld) :
    Except LeuartWorld LeuartWorld :=
  match w.payload.state with
  | .LEUART_Start => .error w
  | .Transmit_data => .error w
  | .Wait_finish =>
    let w1 : LeuartWorld := { w with payload := { w.payload with state := .Transmission_end } }
    let w2 := LEUART_IntDisable w1.payload.leuart LEUART_IEN_TXC w1
    let w3 : LeuartWorld :=
      { w2 with calls := w2.calls ++ [Call.sleep_unblock_mode L.LEUART_TX_EM] }
    match sleep_unblock_mode H L.LEUART_TX_EM w3.lowest_energy_mode with
    | .error t => .error { w3 with lowest_energy_mode := t }
    | .ok t =>
      let w4 : LeuartWorld :=
        { w3 with lowest_energy_mode := t, payload := { w3.payload with busy := false } }
      .ok
        { w4 with
          calls := w4.calls ++ [Call.add_scheduled_event w4.tx_done_evt]
          event_scheduled := add_scheduled_event w4.tx_done_evt w4.event_scheduled }
  | .Transmission_end => .error w

/-- The interrupt causes that `LEUART0_IRQHandler` services. -/
inductive LeuartIrq where
  | TXBL
  | TXC
  deriving DecidableEq, Repr

/-- The handler that `LEUART0_IRQHandler` calls for one cause. -/
def leuart_irq (H : SleepRoutinesH) (L : LeuartH) : LeuartIrq → LeuartWorld →
    Except LeuartWorld LeuartWorld
  | .TXBL, w => leuart_txbl w
  | .TXC, w => leuart_txc H L w

/-- A sequence of LEUART interrupts, first one first; a fatal assertion halts the run. -/
def leuart_irqs (H : SleepRoutinesH) (L : LeuartH) : List LeuartIrq → LeuartWorld →
    Except LeuartWorld LeuartWorld
  | [], w => .ok w
  | i :: is, w => (leuart_irq H L i w).bind (leuart_irqs H L is)

/-- A state of `leuart.c` before any transmission: the zero-initialised static payload,
the completion event `tx_done_evt` stored by `leuart_open`, no interrupt enabled, the hold
table left by `sleep_open` and the pending set `pending`. -/
def leuartBoot (tx_done_evt pending : Nat) : LeuartWorld where
  payload :=
    { state := .LEUART_Start, leuart := 0, message := fun _ => 0, message_length := 0,
      index := 0, busy := false }
  tx_done_evt := tx_done_evt
  IEN := fun _ => 0
  IFC := []
  TXDATA := []
  lowest_energy_mode := sleep_open (fun _ => 0)
  event_scheduled := pending
  calls := []

/-! ## Bit-level facts about the machine arithmetic -/

theorem testBit_not32 (x i : Nat) :
    (not32 x).testBit i = (decide (i < 32) && !x.testBit i) := by
  have h : (4294967295 : Nat) = 2 ^ 32 - 1 := by norm_num
  have h2 : (4294967296 : Nat) = 2 ^ 32 := by norm_num
  unfold not32
  rw [h, h2, Nat.testBit_xor, Nat.testBit_two_pow_sub_one, Nat.testBit_mod_two_pow]
  cases decide (i < 32) <;> cases x.testBit i <;> rfl

theorem testBit_high_of_lt (x i : Nat) (hx : x < 4294967296) (hi : 32 ≤ i) :
    x.testBit i = false := by
  apply Nat.testBit_lt_two_pow
  calc x < 2 ^ 32 := by norm_num; exact hx
    _ ≤ 2 ^ i := Nat.pow_le_pow_right (by norm_num) hi

theorem testBit_mod32 (x i : Nat) :
    (x % 4294967296).testBit i = (decide (i < 32) && x.testBit i) := by
  have h2 : (4294967296 : Nat) = 2 ^ 32 := by norm_num
  rw [h2, Nat.testBit_mod_two_pow]

theorem mod32_of_lt (x : Nat) (hx : x < 4294967296) : x % 4294967296 = x :=
  Nat.mod_eq_of_lt hx

theorem not32_lt (x : Nat) : not32 x < 4294967296 := by
  have h2 : (4294967296 : Nat) = 2 ^ 32 := by norm_num
  rw [h2]
  apply Nat.lt_pow_two_of_testBit
  intro i hi
  rw [testBit_not32]
  have : ¬ i < 32 := by omega
  simp [this]

/-! ## scheduler.c: theorems -/

theorem add_scheduled_event_lt (e p : Nat) : add_scheduled_event e p < 4294967296 :=
  Nat.mod_lt _ (by norm_num)

theorem remove_scheduled_event_lt (e p : Nat) :
    remove_scheduled_event e p < 4294967296 :=
  Nat.lt_of_le_of_lt Nat.and_le_right (not32_lt e)

theorem SchedOp_keeps_step (e : Nat) (he : e < 4294967296) (op : SchedOp)
    (hop : op.keeps e) (s : Nat) (hs : s &&& e = e) : op.apply s &&& e = e := by
  apply Nat.eq_of_testBit_eq
  intro i
  have hsi := congrArg (fun n => Nat.testBit n i) hs
  simp only [Nat.testBit_and] at hsi
  cases op with
  | add a =>
    simp only [SchedOp.apply, add_scheduled_event, Nat.testBit_and, testBit_mod32,
      Nat.testBit_or]
    by_cases hi : i < 32
    · simp only [hi, decide_True, Bool.true_and]
      cases hse : s.testBit i <;> cases hee : e.testBit i <;> simp_all
    · rw [testBit_high_of_lt e i he (by omega)]
      simp
  | remove r =>
    have hr : r &&& e = 0 := hop
    have hri := congrArg (fun n => Nat.testBit n i) hr
    simp only [Nat.testBit_and, Nat.zero_testBit] at hri
    simp only [SchedOp.apply, remove_scheduled_event, Nat.testBit_and, testBit_not32]
    by_cases hi : i < 32
    · simp only [hi, decide_True, Bool.true_and]
      cases hse : s.testBit i <;> cases hee : e.testBit i <;> simp_all
    · rw [testBit_high_of_lt e i he (by omega)]
      simp

theorem runSched_keeps (e : Nat) (he : e < 4294967296) (ops : List SchedOp)
    (hops : ∀ op ∈ ops, op.keeps e) (s : Nat) (hs : s &&& e = e) :
    runSched ops s &&& e = e := by
  induction ops generalizing s with
  | nil => exact hs
  | cons op ops ih =>
    simp only [runSched]
    apply ih
    · intro o ho
      exact hops o (List.mem_cons_of_mem _ ho)
    · exact SchedOp_keeps_step e he op (hops op (List.mem_cons_self _ _)) s hs

/-- C7: removing an event twice leaves the pending set as removing it once does, and
adding an event twice leaves it as adding it once does, for every pending set and every
event mask. -/
theorem C7_add_remove_idempotent (p e : Nat) :
    remove_scheduled_event e (remove_scheduled_event e p) = remove_scheduled_event e p ∧
    add_scheduled_event e (add_scheduled_event e p) = add_scheduled_event e p := by
  constructor
  · unfold remove_scheduled_event
    rw [Nat.and_assoc, Nat.and_self]
  · apply Nat.eq_of_testBit_eq
    intro i
    simp only [add_scheduled_event, testBit_mod32, Nat.testBit_or]
    cases decide (i < 32) <;> cases p.testBit i <;> cases e.testBit i <;> rfl

/-- C8: after `add_scheduled_event(e)` the pending set read by `get_scheduled_event` is
the previous set OR `e`, and every bit of `e` is still set after any later sequence of
`add_scheduled_event` calls and of `remove_scheduled_event` calls whose arguments share
no bit with `e`. -/
theorem C8_add_is_or_and_persists (p e : Nat) (hp : p < 4294967296) (he : e < 4294967296)
    (ops : List SchedOp) (hops : ∀ op ∈ ops, op.keeps e) :
    get_scheduled_event (add_scheduled_event e p) = p ||| e ∧
    get_scheduled_event (runSched ops (add_scheduled_event e p)) &&& e = e := by
  have hor : add_scheduled_event e p = p ||| e := by
    unfold add_scheduled_event
    apply Nat.mod_eq_of_lt
    have h2 : (4294967296 : Nat) = 2 ^ 32 := by norm_num
    rw [h2] at hp he ⊢
    exact Nat.or_lt_two_pow hp he
  refine ⟨hor, ?_⟩
  unfold get_scheduled_event
  apply runSched_keeps e he ops hops
  rw [hor]
  apply Nat.eq_of_testBit_eq
  intro i
  simp only [Nat.testBit_and, Nat.testBit_or]
  cases p.testBit i <;> cases e.testBit i <;> rfl

/-- Witness of C8: the event `4` added to the pending set `3`, followed by the removal of
event `1` and the addition of event `8`. -/
theorem C8_add_is_or_and_persists_witness :
    get_scheduled_event (add_scheduled_event 4 3) = 3 ||| 4 ∧
    get_scheduled_event
      (runSched [SchedOp.remove 1, SchedOp.add 8] (add_scheduled_event 4 3)) &&& 4 = 4 :=
  C8_add_is_or_and_persists 3 4 (by decide) (by decide) [SchedOp.remove 1, SchedOp.add 8]
    (by
      intro op hop
      simp only [List.mem_cons, List.mem_singleton, List.not_mem_nil, or_false] at hop
      rcases hop with rfl | rfl
      · show (1 &&& 4 : Nat) = 0
        decide
      · trivial)

/-- C9: `remove_scheduled_event(e)` leaves `pending AND NOT e`: every bit of `e` is clear
afterwards and every bit outside `e` keeps its previous value. -/
theorem C9_remove_is_and_not (p e : Nat) (hp : p < 4294967296) :
    remove_scheduled_event e p = p &&& not32 e ∧
    remove_scheduled_event e p &&& e = 0 ∧
    (∀ i, e.testBit i = true → (remove_scheduled_event e p).testBit i = false) ∧
    (∀ i, e.testBit i = false →
      (remove_scheduled_event e p).testBit i = p.testBit i) := by
  refine ⟨rfl, ?_, ?_, ?_⟩
  · apply Nat.eq_of_testBit_eq
    intro i
    simp only [remove_scheduled_event, Nat.testBit_and, testBit_not32, Nat.zero_testBit]
    cases decide (i < 32) <;> cases p.testBit i <;> cases e.testBit i <;> rfl
  · intro i hi
    simp only [remove_scheduled_event, Nat.testBit_and, testBit_not32, hi]
    simp
  · intro i hi
    simp only [remove_scheduled_event, Nat.testBit_and, testBit_not32, hi]
    by_cases h32 : i < 32
    · simp [h32]
    · rw [testBit_high_of_lt p i hp (by omega)]
      simp

/-- Witness of C9: event `6` removed from the pending set `7`. -/
theorem C9_remove_is_and_not_witness :
    remove_scheduled_event 6 7 = 7 &&& not32 6 ∧
    remove_scheduled_event 6 7 &&& 6 = 0 ∧
    (∀ i, Nat.testBit 6 i = true → (remove_scheduled_event 6 7).testBit i = false) ∧
    (∀ i, Nat.testBit 6 i = false →
      (remove_scheduled_event 6 7).testBit i = Nat.testBit 7 i) :=
  C9_remove_is_and_not 7 6 (by decide)

/-! ## sleep_routines.c: theorems -/

theorem wrap32s_of_range (x : Int) (h1 : -2147483648 ≤ x) (h2 : x < 2147483648) :
    wrap32s x = x := by
  unfold wrap32s
  omega

theorem sleep_open_apply (t : Nat → Int) (i : Nat) :
    sleep_open t i = if i < 5 then 0 else t i := by
  have h : List.range 5 = [0, 1, 2, 3, 4] := by decide
  simp only [sleep_open, h, List.foldl, setEntry]
  split_ifs <;> first | rfl | omega

theorem setEntry_same (t : Nat → Int) (i : Nat) (v : Int) : setEntry t i v i = v := by
  simp [setEntry]

theorem sleep_block_mode_counting (t : Nat → Int) (L : Nat) (h1 : 0 ≤ t L)
    (h2 : t L < 9) : sleep_block_mode specH L t = .ok (setEntry t L (t L + 1)) := by
  have hw : wrap32s (t L + 1) = t L + 1 := wrap32s_of_range _ (by omega) (by omega)
  have hlt : t L + 1 < 10 := by omega
  simp only [sleep_block_mode, specH, setEntry_same, hw, hlt, if_true]

theorem sleep_unblock_mode_counting (t : Nat → Int) (L : Nat) (h1 : 0 < t L)
    (h2 : t L < 10) : sleep_unblock_mode specH L t = .ok (setEntry t L (t L - 1)) := by
  have hw : wrap32s (t L - 1) = t L - 1 := wrap32s_of_range _ (by omega) (by omega)
  have hge : t L - 1 ≥ 0 := by omega
  simp only [sleep_unblock_mode, specH, setEntry_same, hw, hge, if_true]

theorem current_block_energy_mode_single (t : Nat → Int) (L : Nat) (v : Int) (hL : L < 5)
    (hv : v ≠ 0) (ht : ∀ i, i < 5 → t i = if i = L then v else 0) :
    current_block_energy_mode specH t = L := by
  have e0 := ht 0 (by omega)
  have e1 := ht 1 (by omega)
  have e2 := ht 2 (by omega)
  have e3 := ht 3 (by omega)
  have e4 := ht 4 (by omega)
  have hcases : L = 0 ∨ L = 1 ∨ L = 2 ∨ L = 3 ∨ L = 4 := by omega
  rcases hcases with rfl | rfl | rfl | rfl | rfl <;>
    simp_all [current_block_energy_mode, current_block_energy_mode_loop, specH]

theorem enter_sleep_single (t : Nat → Int) (L : Nat) (hL : L < 5)
    (ht : ∀ i, i < 5 → t i = if i = L then 1 else 0) :
    enter_sleep specH t =
      (if L ≤ 1 then EMU_Call.stay else if L = 2 then EMU_Call.EnterEM1
       else if L = 3 then EMU_Call.EnterEM2 else EMU_Call.EnterEM3) := by
  have e0 := ht 0 (by omega)
  have e1 := ht 1 (by omega)
  have e2 := ht 2 (by omega)
  have e3 := ht 3 (by omega)
  have hcases : L = 0 ∨ L = 1 ∨ L = 2 ∨ L = 3 ∨ L = 4 := by omega
  rcases hcases with rfl | rfl | rfl | rfl | rfl <;>
    simp_all [enter_sleep, specH]

theorem sleep_all_zero (t : Nat → Int) (ht : ∀ i, i < 5 → t i = 0) :
    current_block_energy_mode specH t = 4 ∧ enter_sleep specH t = EMU_Call.EnterEM3 := by
  have e0 := ht 0 (by omega)
  have e1 := ht 1 (by omega)
  have e2 := ht 2 (by omega)
  have e3 := ht 3 (by omega)
  have e4 := ht 4 (by omega)
  simp_all [current_block_energy_mode, current_block_energy_mode_loop, enter_sleep, specH]

/-- The macros decide whether holds are counted: with a header whose `BLOCKED` and
`UNBLOCKED` are constants `b < 10` and `u ≥ 0`, no call fails and the entry is `u` after
block, block, unblock and still `u` after a further unblock. -/
theorem constant_macros_do_not_count (H : SleepRoutinesH) (b u : Int)
    (hB : H.BLOCKED = fun _ _ => b) (hU : H.UNBLOCKED = fun _ _ => u)
    (hb : b < 10) (hu : 0 ≤ u) (t : Nat → Int) (L : Nat) :
    ∃ t3 t4,
      runSleep H [.block L, .block L, .unblock L] t = .ok t3 ∧ t3 L = u ∧
      sleep_unblock_mode H L t3 = .ok t4 ∧ t4 L = u := by
  have hu2 : u ≥ 0 := hu
  refine ⟨setEntry (setEntry (setEntry t L b) L b) L u,
    setEntry (setEntry (setEntry (setEntry t L b) L b) L u) L u, ?_, setEntry_same _ _ _, ?_,
    setEntry_same _ _ _⟩
  · simp only [runSleep, sleep_block_mode, sleep_unblock_mode, hB, hU, setEntry_same, hb,
      hu2, if_true]
  · simp only [sleep_unblock_mode, hU, setEntry_same, hu2, if_true]

/-- C5: with the counting macros, from the table left by `sleep_open` and for every level
`L`, the calls block, block, unblock on `L` pass their assertions and leave the entry of
`L` non-zero, so that `current_block_energy_mode` returns `L` and `enter_sleep` enters
no mode as deep as `L`; one further unblock passes its assertion and leaves the entry
zero, after which `current_block_energy_mode` finds no hold and `enter_sleep` enters
EM3. -/
theorem C5_holds_are_counted (t0 : Nat → Int) (L : Nat) (hL : L < 5) :
    ∃ t3 t4,
      runSleep specH [.block L, .block L, .unblock L] (sleep_open t0) = .ok t3 ∧
      t3 L = 1 ∧ t3 L ≠ 0 ∧
      current_block_energy_mode specH t3 = L ∧
      enter_sleep specH t3 =
        (if L ≤ 1 then EMU_Call.stay else if L = 2 then EMU_Call.EnterEM1
         else if L = 3 then EMU_Call.EnterEM2 else EMU_Call.EnterEM3) ∧
      sleep_unblock_mode specH L t3 = .ok t4 ∧
      t4 L = 0 ∧ (∀ i, i < 5 → t4 i = 0) ∧
      current_block_energy_mode specH t4 = 4 ∧
      enter_sleep specH t4 = EMU_Call.EnterEM3 := by
  have hz : ∀ i, i < 5 → sleep_open t0 i = 0 := by
    intro i hi
    rw [sleep_open_apply, if_pos hi]
  have hzL := hz L hL
  have b1 : sleep_block_mode specH L (sleep_open t0) = .ok (setEntry (sleep_open t0) L 1) := by
    rw [sleep_block_mode_counting _ _ (by omega) (by omega), hzL]
    rfl
  have b2 : sleep_block_mode specH L (setEntry (sleep_open t0) L 1) =
      .ok (setEntry (setEntry (sleep_open t0) L 1) L 2) := by
    rw [sleep_block_mode_counting _ _ (by rw [setEntry_same]; omega)
      (by rw [setEntry_same]; omega), setEntry_same]
    rfl
  have u3 : sleep_unblock_mode specH L (setEntry (setEntry (sleep_open t0) L 1) L 2) =
      .ok (setEntry (setEntry (setEntry (sleep_open t0) L 1) L 2) L 1) := by
    rw [sleep_unblock_mode_counting _ _ (by rw [setEntry_same]; omega)
      (by rw [setEntry_same]; omega), setEntry_same]
    rfl
  have u4 : sleep_unblock_mode specH L
      (setEntry (setEntry (setEntry (sleep_open t0) L 1) L 2) L 1) =
      .ok (setEntry (setEntry (setEntry (setEntry (sleep_open t0) L 1) L 2) L 1) L 0) := by
    rw [sleep_unblock_mode_counting _ _ (by rw [setEntry_same]; omega)
      (by rw [setEntry_same]; omega), setEntry_same]
    rfl
  have ht3 : ∀ i, i < 5 →
      setEntry (setEntry (setEntry (sleep_open t0) L 1) L 2) L 1 i =
        if i = L then 1 else 0 := by
    intro i hi
    by_cases h : i = L
    · subst h
      simp [setEntry]
    · simp [setEntry, h, hz i hi]
  have ht4 : ∀ i, i < 5 →
      setEntry (setEntry (setEntry (setEntry (sleep_open t0) L 1) L 2) L 1) L 0 i = 0 := by
    intro i hi
    by_cases h : i = L
    · subst h
      simp [setEntry]
    · simp [setEntry, h, hz i hi]
  refine ⟨_, _, ?_, ?_, ?_, ?_, ?_, u4, ?_, ht4, ?_, ?_⟩
  · simp only [runSleep, b1, b2, u3]
  · exact setEntry_same _ _ _
  · rw [setEntry_same]
    decide
  · exact current_block_energy_mode_single _ L 1 hL (by decide) ht3
  · exact enter_sleep_single _ L hL ht3
  · exact setEntry_same _ _ _
  · exact (sleep_all_zero _ ht4).1
  · exact (sleep_all_zero _ ht4).2

/-- Witness of C5: level EM2 from an arbitrary table. -/
theorem C5_holds_are_counted_witness :
    ∃ t3 t4,
      runSleep specH [.block 2, .block 2, .unblock 2] (sleep_open (fun _ => 7)) = .ok t3 ∧
      t3 2 = 1 ∧ t3 2 ≠ 0 ∧
      current_block_energy_mode specH t3 = 2 ∧
      enter_sleep specH t3 =
        (if 2 ≤ 1 then EMU_Call.stay else if 2 = 2 then EMU_Call.EnterEM1
         else if 2 = 3 then EMU_Call.EnterEM2 else EMU_Call.EnterEM3) ∧
      sleep_unblock_mode specH 2 t3 = .ok t4 ∧
      t4 2 = 0 ∧ (∀ i, i < 5 → t4 i = 0) ∧
      current_block_energy_mode specH t4 = 4 ∧
      enter_sleep specH t4 = EMU_Call.EnterEM3 :=
  C5_holds_are_counted (fun _ => 7) 2 (by decide)

/-- C6: with the counting macros, `sleep_unblock_mode(L)` on a level whose hold counter is
zero stores `-1` and halts in its assertion. -/
theorem C6_unblock_without_block_is_fatal (t : Nat → Int) (L : Nat) (h : t L = 0) :
    sleep_unblock_mode specH L t = .error (setEntry t L (-1)) := by
  have w : wrap32s (0 - 1) = -1 := by decide
  have hneg : ¬ ((-1 : Int) ≥ 0) := by decide
  simp only [sleep_unblock_mode, specH, setEntry_same, h, w, hneg, if_false]

/-- Witness of C6: level EM2 of the table left by `sleep_open`. -/
theorem C6_unblock_without_block_is_fatal_witness :
    sleep_open (fun _ => 7) 2 = 0 ∧
    sleep_unblock_mode specH 2 (sleep_open (fun _ => 7)) =
      .error (setEntry (sleep_open (fun _ => 7)) 2 (-1)) :=
  ⟨by decide, C6_unblock_without_block_is_fatal (sleep_open (fun _ => 7)) 2 (by decide)⟩

/-! ## i2c.c: single calls -/

theorem i2c_start_ok (H : SleepRoutinesH) (w : World)
    (i2c device_address device_register data : Nat) (bytes : Int) (read : Bool)
    (event : Nat)
    (hidle : (w.STATE i2c &&& I2C_STATE_STATE_MASK) = I2C_STATE_STATE_IDLE)
    (t1 : Nat → Int)
    (hblock : sleep_block_mode H (I2C_EM_BLOCK H) w.lowest_energy_mode = .ok t1) :
    i2c_start H i2c device_address device_register data bytes read event w =
      .ok
        { payload :=
            { state := .start, i2c := i2c, device_address := device_address,
              device_register := device_register, data := data, bytes := bytes,
              busy := true, read := read, write := !read, event := event }
          mem := w.mem
          STATE := w.STATE
          lowest_energy_mode := t1
          event_scheduled := w.event_scheduled
          regs := w.regs ++
            [RegWrite.CMD i2c I2C_CMD.START, RegWrite.TXDATA i2c (I2C_ADDR_W device_address)]
          calls := w.calls ++ [Call.sleep_block_mode (I2C_EM_BLOCK H)] } := by
  cases read <;>
    simp [i2c_start, hidle, call_sleep_block_mode, hblock, writeCMD, writeTXDATA]

theorem i2c_mstop_ok (H : SleepRoutinesH) (w : World) (hs : w.payload.state = .stop)
    (t2 : Nat → Int)
    (hun : sleep_unblock_mode H (I2C_EM_BLOCK H) w.lowest_energy_mode = .ok t2) :
    i2c_mstop H w =
      .ok
        { payload := { w.payload with busy := false, state := .stop }
          mem := w.mem
          STATE := w.STATE
          lowest_energy_mode := t2
          event_scheduled := add_scheduled_event w.payload.event w.event_scheduled
          regs := w.regs
          calls := w.calls ++
            [Call.sleep_unblock_mode (I2C_EM_BLOCK H),
             Call.add_scheduled_event w.payload.event] } := by
  simp [i2c_mstop, hs, call_sleep_unblock_mode, hun, call_add_scheduled_event]

theorem holdPasses_elim (H : SleepRoutinesH) (t : Nat → Int) (h : holdPasses H t = true) :
    ∃ t1 t2, sleep_block_mode H (I2C_EM_BLOCK H) t = .ok t1 ∧
      sleep_unblock_mode H (I2C_EM_BLOCK H) t1 = .ok t2 := by
  unfold holdPasses at h
  cases hb : sleep_block_mode H (I2C_EM_BLOCK H) t with
  | error t1 => simp [hb] at h
  | ok t1 =>
    cases hu : sleep_unblock_mode H (I2C_EM_BLOCK H) t1 with
    | error t2 => simp [hb, hu] at h
    | ok t2 => exact ⟨t1, t2, rfl, hu⟩

theorem shl32_one (x : Nat) : shl32 x 1 = (x <<< 1) % 4294967296 := by
  have h1 : ((1 : Int) % 256).toNat = 1 := by decide
  have h2 : (1 : Nat) < 32 := by decide
  simp only [shl32, h1, h2, if_true]

theorem testBit_one (i : Nat) : Nat.testBit 1 i = decide (i = 0) := by
  cases hb : Nat.testBit 1 i with
  | false =>
    have : ¬ i = 0 := fun h => by
      rw [Nat.testBit_one_eq_true_iff_self_eq_zero.mpr h] at hb
      exact Bool.noConfusion hb
    simp [this]
  | true => simp [Nat.testBit_one_eq_true_iff_self_eq_zero.mp hb]

theorem I2C_ADDR_W_eq (x : Nat) : I2C_ADDR_W x = (2 * x) % 4294967296 := by
  apply Nat.eq_of_testBit_eq
  intro i
  have h2 : (2 * x) = x <<< 1 := by rw [Nat.shiftLeft_eq]; ring
  simp only [I2C_ADDR_W, shl32_one, Nat.testBit_and, testBit_not32, testBit_mod32, h2,
    Nat.testBit_shiftLeft, testBit_one]
  by_cases hi : i = 0
  · subst hi
    simp
  · have h1 : 1 ≤ i := by omega
    simp only [hi, h1, decide_True, decide_False, Bool.not_false, Bool.and_true,
      Bool.true_and]
    cases decide (i < 32) <;> cases x.testBit (i - 1) <;> rfl

/-- C10: `i2c_start` called with the peripheral idle, when its call of
`sleep_block_mode(I2C_EM_BLOCK)` returns, stores every argument in the descriptor (the
read flag is the direction and the write flag its negation), sets busy and the state
`start`, makes that one call of `sleep_block_mode`, and writes the START command and then
the write address, which is `device_address << 1` with bit 0 clear, to the peripheral. -/
theorem C10_i2c_start_effects (H : SleepRoutinesH) (w : World)
    (i2c device_address device_register data : Nat) (bytes : Int) (read : Bool)
    (event : Nat)
    (hidle : (w.STATE i2c &&& I2C_STATE_STATE_MASK) = I2C_STATE_STATE_IDLE)
    (t1 : Nat → Int)
    (hblock : sleep_block_mode H (I2C_EM_BLOCK H) w.lowest_energy_mode = .ok t1) :
    i2c_start H i2c device_address device_register data bytes read event w =
      .ok
        { payload :=
            { state := .start, i2c := i2c, device_address := device_address,
              device_register := device_register, data := data, bytes := bytes,
              busy := true, read := read, write := !read, event := event }
          mem := w.mem
          STATE := w.STATE
          lowest_energy_mode := t1
          event_scheduled := w.event_scheduled
          regs := w.regs ++
            [RegWrite.CMD i2c I2C_CMD.START, RegWrite.TXDATA i2c (I2C_ADDR_W device_address)]
          calls := w.calls ++ [Call.sleep_block_mode (I2C_EM_BLOCK H)] } ∧
    I2C_ADDR_W device_address = (2 * device_address) % 4294967296 ∧
    (I2C_ADDR_W device_address).testBit 0 = false := by
  refine ⟨i2c_start_ok H w i2c device_address device_register data bytes read event hidle
    t1 hblock, I2C_ADDR_W_eq _, ?_⟩
  rw [I2C_ADDR_W_eq, Nat.testBit_zero]
  have : 2 * device_address % 4294967296 % 2 = 0 := by omega
  simp [this]

/-- Witness of C10: the two-byte read of register `0xF3` of device `0x40` started from
the state after initialisation. -/
theorem C10_i2c_start_effects_witness :
    i2c_start specH 0 0x40 0xF3 100 2 true 8 (bootWorld 0 0) =
      .ok
        { payload :=
            { state := .start, i2c := 0, device_address := 0x40,
              device_register := 0xF3, data := 100, bytes := 2,
              busy := true, read := true, write := !true, event := 8 }
          mem := (bootWorld 0 0).mem
          STATE := (bootWorld 0 0).STATE
          lowest_energy_mode := setEntry (sleep_open (fun _ => 0)) 2 1
          event_scheduled := (bootWorld 0 0).event_scheduled
          regs := (bootWorld 0 0).regs ++
            [RegWrite.CMD 0 I2C_CMD.START, RegWrite.TXDATA 0 (I2C_ADDR_W 0x40)]
          calls := (bootWorld 0 0).calls ++ [Call.sleep_block_mode (I2C_EM_BLOCK specH)] } ∧
    I2C_ADDR_W 0x40 = (2 * 0x40) % 4294967296 ∧
    (I2C_ADDR_W 0x40).testBit 0 = false :=
  C10_i2c_start_effects specH (bootWorld 0 0) 0 0x40 0xF3 100 2 true 8 (by decide)
    (setEntry (sleep_open (fun _ => 0)) 2 1) (by rfl)

/-- C4: an interrupt cause that is not a documented transition halts in the fatal
assertion with the state untouched (same phase, same remaining bytes, no register write):
NACK outside `request_data`, RXDATAV outside `handle_data` or in `handle_data` of a
write, ACK in `stop` or in `handle_data` of a read, MSTOP outside `stop`. -/
theorem C4_undocumented_cause_is_fatal (H : SleepRoutinesH) (w : World) (c : Irq)
    (h : (c = Irq.NACK ∧ w.payload.state ≠ .request_data) ∨
         (∃ rx, c = Irq.RXDATAV rx ∧
           (w.payload.state ≠ .handle_data ∨
             (w.payload.write = true ∧ w.payload.read = false))) ∨
         (c = Irq.ACK ∧
           (w.payload.state = .stop ∨
             (w.payload.state = .handle_data ∧
               w.payload.read = true ∧ w.payload.write = false))) ∨
         (c = Irq.MSTOP ∧ w.payload.state ≠ .stop)) :
    irq H c w = .error w := by
  rcases h with ⟨rfl, hs⟩ | ⟨rx, rfl, hs⟩ | ⟨rfl, hs⟩ | ⟨rfl, hs⟩
  · cases hst : w.payload.state <;> simp_all [irq, i2c_nack]
  · cases hst : w.payload.state <;> simp_all [irq, i2c_rxdatav]
  · cases hst : w.payload.state <;> simp_all [irq, i2c_ack]
  · cases hst : w.payload.state <;> simp_all [irq, i2c_mstop]

/-! ## i2c.c: the byte lanes of the data word -/

theorem shl32_small (x : Nat) (s : Int) (k : Nat) (hs : s = k) (hk : k < 32) :
    shl32 x s = (x <<< k) % 4294967296 := by
  have h1 : (s % 256).toNat = k := by omega
  simp only [shl32, h1, hk, if_true]

theorem shr32_small (x : Nat) (s : Int) (k : Nat) (hs : s = k) (hk : k < 32) :
    shr32 x s = (x % 4294967296) >>> k := by
  have h1 : (s % 256).toNat = k := by omega
  simp only [shr32, h1, hk, if_true]

theorem testBit_255 (i : Nat) : Nat.testBit 255 i = decide (i < 8) := by
  have h : (255 : Nat) = 2 ^ 8 - 1 := by norm_num
  rw [h, Nat.testBit_two_pow_sub_one]

theorem testBit_byte_high (rx j : Nat) (hrx : rx < 256) (hj : 8 ≤ j) :
    rx.testBit j = false := by
  apply Nat.testBit_lt_two_pow
  calc rx < 2 ^ 8 := by norm_num; exact hrx
    _ ≤ 2 ^ j := Nat.pow_le_pow_right (by norm_num) hj

/-- The store of `i2c_rxdatav` replaces the byte lane `k` of the data word by the
received byte and keeps every other bit. -/
theorem testBit_rxStore (d rx : Nat) (b : Int) (k i : Nat) (hb : b = k) (hk : k < 4)
    (hd : d < 4294967296) (hrx : rx < 256) :
    (rxStore d b rx).testBit i =
      if 8 * k ≤ i ∧ i < 8 * k + 8 then rx.testBit (i - 8 * k) else d.testBit i := by
  have hw : wrap32s (b * 8) = ((8 * k : Nat) : Int) := by
    rw [wrap32s_of_range _ (by omega) (by omega)]
    omega
  have h32 : 8 * k < 32 := by omega
  simp only [rxStore, hw, shl32_small _ _ (8 * k) rfl h32, Nat.testBit_or, Nat.testBit_and,
    testBit_not32, testBit_mod32, Nat.testBit_shiftLeft, testBit_255]
  by_cases h1 : 8 * k ≤ i
  · by_cases h2 : i < 8 * k + 8
    · have h3 : i < 32 := by omega
      have h4 : i - 8 * k < 8 := by omega
      have h5 : i ≥ 8 * k := h1
      simp [h1, h2, h3, h4]
    · have h4 : ¬ (i - 8 * k < 8) := by omega
      have h5 : rx.testBit (i - 8 * k) = false := testBit_byte_high rx _ hrx (by omega)
      by_cases h3 : i < 32
      · simp [h1, h2, h3, h4, h5]
      · have h6 : d.testBit i = false := testBit_high_of_lt d i hd (by omega)
        simp [h1, h2, h3, h4, h5, h6]
  · have h3 : i < 32 := by omega
    have h5 : ¬ (i ≥ 8 * k) := h1
    simp [h1, h3]

/-- The byte sent by `i2c_ack` is the byte lane `k` of the data word. -/
theorem testBit_txByte (d : Nat) (b : Int) (k i : Nat) (hb : b = k) (hk : k < 4) :
    (txByte d b).testBit i = (decide (i < 8) && d.testBit (8 * k + i)) := by
  have hw : wrap32s (8 * b) = ((8 * k : Nat) : Int) := by
    rw [wrap32s_of_range _ (by omega) (by omega)]
    omega
  have h32 : 8 * k < 32 := by omega
  simp only [txByte, hw, shl32_small _ _ (8 * k) rfl h32, shr32_small _ _ (8 * k) rfl h32,
    Nat.testBit_shiftRight, Nat.testBit_and, testBit_mod32, Nat.testBit_shiftLeft,
    testBit_255]
  have e : 8 * k + i - 8 * k = i := by omega
  have h5 : 8 * k + i ≥ 8 * k := by omega
  rw [e]
  by_cases h1 : i < 8
  · have h3 : 8 * k + i < 32 := by omega
    simp [h1, h3]
  · simp [h1]

theorem txByte_lt (d : Nat) (b : Int) (k : Nat) (hb : b = k) (hk : k < 4) :
    txByte d b < 256 := by
  have h : (256 : Nat) = 2 ^ 8 := by norm_num
  rw [h]
  apply Nat.lt_pow_two_of_testBit
  intro i hi
  rw [testBit_txByte d b k i hb hk]
  have : ¬ i < 8 := by omega
  simp [this]

theorem rxStore_lt (d rx : Nat) (b : Int) : rxStore d b rx < 4294967296 := by
  have h2 : (4294967296 : Nat) = 2 ^ 32 := by norm_num
  unfold rxStore
  rw [h2]
  apply Nat.or_lt_two_pow
  · apply Nat.and_lt_two_pow
    rw [← h2]
    exact not32_lt _
  · unfold shl32
    simp only
    split_ifs
    · rw [← h2]
      exact Nat.mod_lt _ (by norm_num)
    · exact Nat.pos_pow_of_pos 32 (by norm_num)

/-- A two-byte read stores the first received byte in bits 8..15 and the second in bits
0..7 of the data word and keeps bits 16..31. -/
theorem rxStore_two (d r1 r2 : Nat) (hd : d < 4294967296) (h1 : r1 < 256)
    (h2 : r2 < 256) :
    rxStore (rxStore d 1 r1) 0 r2 = ((d >>> 16) <<< 16) ||| ((r1 <<< 8) ||| r2) := by
  apply Nat.eq_of_testBit_eq
  intro i
  rw [testBit_rxStore (rxStore d 1 r1) r2 0 0 i rfl (by decide) (rxStore_lt _ _ _) h2,
    testBit_rxStore d r1 1 1 i rfl (by decide) hd h1]
  simp only [Nat.testBit_or, Nat.testBit_shiftLeft, Nat.testBit_shiftRight]
  by_cases ha : i < 8
  · have hb : ¬ (i ≥ 16) := by omega
    have hc : ¬ (i ≥ 8) := by omega
    simp [ha, hb, hc]
  · by_cases hb : i < 16
    · have hc : ¬ (i ≥ 16) := by omega
      have hd2 : i ≥ 8 := by omega
      have he : r2.testBit i = false := testBit_byte_high r2 i h2 (by omega)
      have hf : 8 * 1 ≤ i ∧ i < 8 * 1 + 8 := by omega
      simp [ha, hc, hd2, he, hf]
    · have hc : i ≥ 16 := by omega
      have hd2 : i ≥ 8 := by omega
      have he : r2.testBit i = false := testBit_byte_high r2 i h2 (by omega)
      have hf : r1.testBit (i - 8) = false := testBit_byte_high r1 _ h1 (by omega)
      have hg : ¬ (8 * 1 ≤ i ∧ i < 8 * 1 + 8) := by omega
      have hh : 16 + (i - 16) = i := by omega
      simp [ha, hc, hd2, he, hf, hg, hh]

theorem high_half_zero (d : Nat) (hd : d < 65536) : (d >>> 16) <<< 16 = 0 := by
  have : d >>> 16 = 0 := by
    rw [Nat.shiftRight_eq_div_pow]
    exact Nat.div_eq_of_lt (by norm_num; exact hd)
  rw [this]
  simp

/-! ## i2c.c: whole transfers -/

theorem wrap32s_zero : wrap32s 0 = 0 := by decide

theorem wrap32s_one : wrap32s 1 = 1 := by decide

theorem txValues_append (a b : List RegWrite) :
    txValues (a ++ b) = txValues a ++ txValues b := by
  induction a with
  | nil => rfl
  | cons x xs ih =>
    cases x with
    | CMD i c => simpa [txValues] using ih
    | TXDATA i v => simpa [txValues] using ih

/-- Witness of C4: a NACK in `master_cmd` (the register phase). -/
theorem C4_undocumented_cause_is_fatal_witness :
    irq specH Irq.NACK
        { bootWorld 0 0 with
          payload := { (bootWorld 0 0).payload with state := .master_cmd } } =
      .error
        { bootWorld 0 0 with
          payload := { (bootWorld 0 0).payload with state := .master_cmd } } :=
  C4_undocumented_cause_is_fatal specH
    { bootWorld 0 0 with payload := { (bootWorld 0 0).payload with state := .master_cmd } }
    Irq.NACK (Or.inl ⟨rfl, by decide⟩)

/-- C1 as stated fails: started with the data word `0x10000`, the end-to-end read of the
bytes `0x66`, `0x1A` ends without a fatal assertion and with the data word `0x1661A`,
not `0x661A`. -/
theorem C1_counterexample :
    ∃ w1,
      transfer specH 0 0x40 0xF3 100 2 true 8
        [Irq.ACK, Irq.ACK, Irq.ACK, Irq.RXDATAV 0x66, Irq.RXDATAV 0x1A, Irq.MSTOP]
        (bootWorld 0x10000 0) = .ok w1 ∧
      w1.mem 100 = 0x1661A ∧ w1.mem 100 ≠ 0x661A :=
  ⟨_, rfl, by decide, by decide⟩

/-- C1, amended: for every initial data word and every pending set, with the peripheral
idle and the hold on `I2C_EM_BLOCK` passing the assertions of the sleep routines,
`i2c_start(bus, 0x40, 0xF3, &buf, 2, read, EVT)` followed by ACK, ACK, ACK,
RXDATAV `0x66`, RXDATAV `0x1A`, MSTOP hits no fatal assertion and ends with the low 16 bits
of `buf` equal to `0x661A` and its high 16 bits unchanged (so `buf == 0x661A` when the
high half was zero), EVT ORed into the pending set, and `i2c_busy` false. -/
theorem C1_read_two_bytes (H : SleepRoutinesH) (w : World) (i2c data event : Nat)
    (hidle : (w.STATE i2c &&& I2C_STATE_STATE_MASK) = I2C_STATE_STATE_IDLE)
    (hhold : holdPasses H w.lowest_energy_mode = true)
    (hbuf : w.mem data < 4294967296) (hevt : event < 4294967296) :
    ∃ w1,
      transfer H i2c 0x40 0xF3 data 2 true event
        [Irq.ACK, Irq.ACK, Irq.ACK, Irq.RXDATAV 0x66, Irq.RXDATAV 0x1A, Irq.MSTOP] w
        = .ok w1 ∧
      w1.mem data = ((w.mem data >>> 16) <<< 16) ||| 0x661A ∧
      (w.mem data < 65536 → w1.mem data = 0x661A) ∧
      w1.event_scheduled = add_scheduled_event event w.event_scheduled ∧
      w1.event_scheduled &&& event = event ∧
      i2c_busy i2c w1 = false := by
  obtain ⟨t1, t2, hb, hu⟩ := holdPasses_elim H _ hhold
  have hm : rxStore (rxStore (w.mem data) 1 0x66) 0 0x1A =
      ((w.mem data >>> 16) <<< 16) ||| 0x661A := by
    rw [rxStore_two _ _ _ hbuf (by decide) (by decide)]
    rfl
  have he : add_scheduled_event event w.event_scheduled &&& event = event := by
    apply Nat.eq_of_testBit_eq
    intro i
    simp only [add_scheduled_event, Nat.testBit_and, testBit_mod32, Nat.testBit_or]
    by_cases hi : i < 32
    · simp only [hi, decide_True, Bool.true_and]
      cases w.event_scheduled.testBit i <;> cases event.testBit i <;> rfl
    · rw [testBit_high_of_lt event i hevt (by omega)]
      simp
  simp [transfer, i2c_start_ok H w i2c 0x40 0xF3 data 2 true event hidle t1 hb, irqs,
    irq, i2c_ack, i2c_rxdatav, i2c_mstop, call_sleep_unblock_mode, hu,
    call_add_scheduled_event, writeCMD, writeTXDATA, wrap32s_zero, wrap32s_one, setMem,
    i2c_busy]
  refine ⟨hm, ?_, he⟩
  intro hlow
  rw [hm, high_half_zero _ hlow]
  rfl

/-- Witness of C1: the read into a data word whose high half is `0xABCD`, with event
bit 0 already pending. -/
theorem C1_read_two_bytes_witness :
    ∃ w1,
      transfer specH 0 0x40 0xF3 100 2 true 8
        [Irq.ACK, Irq.ACK, Irq.ACK, Irq.RXDATAV 0x66, Irq.RXDATAV 0x1A, Irq.MSTOP]
        (bootWorld 0xABCD0000 1) = .ok w1 ∧
      w1.mem 100 = (((bootWorld 0xABCD0000 1).mem 100 >>> 16) <<< 16) ||| 0x661A ∧
      ((bootWorld 0xABCD0000 1).mem 100 < 65536 → w1.mem 100 = 0x661A) ∧
      w1.event_scheduled = add_scheduled_event 8 (bootWorld 0xABCD0000 1).event_scheduled ∧
      w1.event_scheduled &&& 8 = 8 ∧
      i2c_busy 0 w1 = false :=
  C1_read_two_bytes specH (bootWorld 0xABCD0000 1) 0 100 8 (by decide) (by rfl)
    (by decide) (by decide)

/-- C2: for every address, register, direction and byte count 1 or 2, with the peripheral
idle and the hold on `I2C_EM_BLOCK` passing the assertions of the sleep routines,
`i2c_start` followed by the interrupts of an always-acknowledging slave hits no fatal
assertion and ends in `stop` with busy clear, having made exactly three calls, in this
order: one `sleep_block_mode(I2C_EM_BLOCK)`, one `sleep_unblock_mode(I2C_EM_BLOCK)` and
one `add_scheduled_event` of the completion event. -/
theorem C2_one_event_one_release (H : SleepRoutinesH) (w : World)
    (i2c device_address device_register data event : Nat) (n : Nat) (read : Bool)
    (rx : List Nat) (hn : n = 1 ∨ n = 2) (hrx : read = true → rx.length = n)
    (hidle : (w.STATE i2c &&& I2C_STATE_STATE_MASK) = I2C_STATE_STATE_IDLE)
    (hhold : holdPasses H w.lowest_energy_mode = true) :
    ∃ w1,
      transfer H i2c device_address device_register data (n : Int) read event
        (ackingSlave read rx n) w = .ok w1 ∧
      w1.payload.state = .stop ∧
      w1.payload.busy = false ∧
      w1.calls = w.calls ++
        [Call.sleep_block_mode (I2C_EM_BLOCK H), Call.sleep_unblock_mode (I2C_EM_BLOCK H),
         Call.add_scheduled_event event] ∧
      (w1.calls.drop w.calls.length).count (Call.add_scheduled_event event) = 1 ∧
      (w1.calls.drop w.calls.length).count (Call.sleep_unblock_mode (I2C_EM_BLOCK H)) = 1 ∧
      (w1.calls.drop w.calls.length).count (Call.sleep_block_mode (I2C_EM_BLOCK H)) = 1 := by
  obtain ⟨t1, t2, hb, hu⟩ := holdPasses_elim H _ hhold
  have h21 : wrap32s (2 - 1) = 1 := by decide
  have h11 : wrap32s (1 - 1) = 0 := by decide
  cases read with
  | false =>
    rcases hn with rfl | rfl <;>
      simp [transfer,
        i2c_start_ok H w i2c device_address device_register data _ _ event hidle t1 hb,
        ackingSlave, irqs, irq, i2c_ack, i2c_mstop, call_sleep_unblock_mode, hu,
        call_add_scheduled_event, writeCMD, writeTXDATA, wrap32s_zero, wrap32s_one, h11, h21,
        List.replicate]
  | true =>
    have hlen := hrx rfl
    rcases hn with rfl | rfl
    · obtain ⟨a, rfl⟩ : ∃ a, rx = [a] := by
        match rx, hlen with
        | [a], _ => exact ⟨a, rfl⟩
      simp [transfer,
        i2c_start_ok H w i2c device_address device_register data _ _ event hidle t1 hb,
        ackingSlave, irqs, irq, i2c_ack, i2c_rxdatav, i2c_mstop, call_sleep_unblock_mode, hu,
        call_add_scheduled_event, writeCMD, writeTXDATA, wrap32s_zero, wrap32s_one, h11]
    · obtain ⟨a, b, rfl⟩ : ∃ a b, rx = [a, b] := by
        match rx, hlen with
        | [a, b], _ => exact ⟨a, b, rfl⟩
      simp [transfer,
        i2c_start_ok H w i2c device_address device_register data _ _ event hidle t1 hb,
        ackingSlave, irqs, irq, i2c_ack, i2c_rxdatav, i2c_mstop, call_sleep_unblock_mode, hu,
        call_add_scheduled_event, writeCMD, writeTXDATA, wrap32s_zero, wrap32s_one, h11, h21]

/-- Witness of C2: a two-byte write to register `0xE6` of device `0x40` from the state
after initialisation. -/
theorem C2_one_event_one_release_witness :
    ∃ w1,
      transfer specH 0 0x40 0xE6 100 ((2 : Nat) : Int) false 8
        (ackingSlave false [] 2) (bootWorld 0xBA 0) = .ok w1 ∧
      w1.payload.state = .stop ∧
      w1.payload.busy = false ∧
      w1.calls = (bootWorld 0xBA 0).calls ++
        [Call.sleep_block_mode (I2C_EM_BLOCK specH),
         Call.sleep_unblock_mode (I2C_EM_BLOCK specH), Call.add_scheduled_event 8] ∧
      (w1.calls.drop (bootWorld 0xBA 0).calls.length).count (Call.add_scheduled_event 8)
        = 1 ∧
      (w1.calls.drop (bootWorld 0xBA 0).calls.length).count
        (Call.sleep_unblock_mode (I2C_EM_BLOCK specH)) = 1 ∧
      (w1.calls.drop (bootWorld 0xBA 0).calls.length).count
        (Call.sleep_block_mode (I2C_EM_BLOCK specH)) = 1 :=
  C2_one_event_one_release specH (bootWorld 0xBA 0) 0 0x40 0xE6 100 8 2 false []
    (Or.inr rfl) (fun h => Bool.noConfusion h) (by decide) (by rfl)

/-- C3: for every 16-bit value `v`, the two-byte write of a data word holding `v`, driven
by acknowledges to `stop`, transmits after the write address and the register two data
bytes `b1`, `b2`; the two-byte read into a zeroed data word that receives `b1` then `b2`
ends with that data word equal to `v`. -/
theorem C3_write_read_round_trip (H : SleepRoutinesH) (w wr : World)
    (i2c device_address device_register data dataR event : Nat) (v : Nat)
    (hv : v < 65536) (hmem : w.mem data = v) (hzero : wr.mem dataR = 0)
    (hidle : (w.STATE i2c &&& I2C_STATE_STATE_MASK) = I2C_STATE_STATE_IDLE)
    (hhold : holdPasses H w.lowest_energy_mode = true)
    (hidleR : (wr.STATE i2c &&& I2C_STATE_STATE_MASK) = I2C_STATE_STATE_IDLE)
    (hholdR : holdPasses H wr.lowest_energy_mode = true) :
    ∃ w1 b1 b2 w2,
      transfer H i2c device_address device_register data 2 false event
        (ackingSlave false [] 2) w = .ok w1 ∧
      w1.payload.state = .stop ∧
      txValues w1.regs =
        txValues w.regs ++ [I2C_ADDR_W device_address, device_register, b1, b2] ∧
      transfer H i2c device_address device_register dataR 2 true event
        (ackingSlave true [b1, b2] 2) wr = .ok w2 ∧
      w2.payload.state = .stop ∧
      w2.mem dataR = v := by
  obtain ⟨t1, t2, hb, hu⟩ := holdPasses_elim H _ hhold
  obtain ⟨s1, s2, hbR, huR⟩ := holdPasses_elim H _ hholdR
  have h21 : wrap32s (2 - 1) = 1 := by decide
  have h11 : wrap32s (1 - 1) = 0 := by decide
  have hround : rxStore (rxStore 0 1 (txByte v 1)) 0 (txByte v 0) = v := by
    rw [rxStore_two 0 _ _ (by decide) (txByte_lt v 1 1 rfl (by decide))
      (txByte_lt v 0 0 rfl (by decide))]
    apply Nat.eq_of_testBit_eq
    intro i
    simp only [Nat.testBit_or, Nat.testBit_shiftLeft, Nat.testBit_shiftRight,
      Nat.zero_testBit, testBit_txByte v 1 1 _ rfl (by decide),
      testBit_txByte v 0 0 _ rfl (by decide)]
    by_cases ha : i < 8
    · have hc : ¬ (i ≥ 8) := by omega
      have hd : ¬ (i ≥ 16) := by omega
      simp [ha, hc, hd]
    · by_cases hb2 : i < 16
      · have hc : i ≥ 8 := by omega
        have hd : ¬ (i ≥ 16) := by omega
        have he : i - 8 < 8 := by omega
        have hf : 8 * 1 + (i - 8) = i := by omega
        simp [ha, hc, hd, he, hf]
      · have hc : i ≥ 8 := by omega
        have he : ¬ (i - 8 < 8) := by omega
        have hf : v.testBit i = false := by
          apply Nat.testBit_lt_two_pow
          calc v < 2 ^ 16 := by norm_num; exact hv
            _ ≤ 2 ^ i := Nat.pow_le_pow_right (by norm_num) (by omega)
        simp [ha, hc, he, hf]
  have hW : ∃ w1,
      transfer H i2c device_address device_register data 2 false event
        (ackingSlave false [] 2) w = .ok w1 ∧
      w1.payload.state = .stop ∧
      txValues w1.regs =
        txValues w.regs ++
          [I2C_ADDR_W device_address, device_register, txByte v 1, txByte v 0] := by
    simp [transfer,
      i2c_start_ok H w i2c device_address device_register data _ _ event hidle t1 hb,
      ackingSlave, irqs, irq, i2c_ack, i2c_mstop, call_sleep_unblock_mode, hu,
      call_add_scheduled_event, writeCMD, writeTXDATA, wrap32s_zero, wrap32s_one, h11, h21,
      List.replicate, txValues_append, txValues, hmem]
  have hR : ∃ w2,
      transfer H i2c device_address device_register dataR 2 true event
        (ackingSlave true [txByte v 1, txByte v 0] 2) wr = .ok w2 ∧
      w2.payload.state = .stop ∧
      w2.mem dataR = v := by
    simp [transfer,
      i2c_start_ok H wr i2c device_address device_register dataR _ _ event hidleR s1 hbR,
      ackingSlave, irqs, irq, i2c_ack, i2c_rxdatav, i2c_mstop, call_sleep_unblock_mode, huR,
      call_add_scheduled_event, writeCMD, writeTXDATA, wrap32s_zero, wrap32s_one, h11, h21,
      setMem, hzero, hround]
  obtain ⟨w1, e1, e2, e3⟩ := hW
  obtain ⟨w2, f1, f2, f3⟩ := hR
  exact ⟨w1, txByte v 1, txByte v 0, w2, e1, e2, e3, f1, f2, f3⟩

/-- Witness of C3: the value `0xBEEF` written from one data word and read back into a
zeroed one, both from the state after initialisation. -/
theorem C3_write_read_round_trip_witness :
    ∃ w1 b1 b2 w2,
      transfer specH 0 0x40 0xE6 100 2 false 8 (ackingSlave false [] 2)
        (bootWorld 0xBEEF 0) = .ok w1 ∧
      w1.payload.state = .stop ∧
      txValues w1.regs =
        txValues (bootWorld 0xBEEF 0).regs ++ [I2C_ADDR_W 0x40, 0xE6, b1, b2] ∧
      transfer specH 0 0x40 0xE6 200 2 true 8 (ackingSlave true [b1, b2] 2)
        (bootWorld 0 0) = .ok w2 ∧
      w2.payload.state = .stop ∧
      w2.mem 200 = 0xBEEF :=
  C3_write_read_round_trip specH (bootWorld 0xBEEF 0) (bootWorld 0 0) 0 0x40 0xE6 100 200 8
    0xBEEF (by decide) (by rfl) (by rfl) (by decide) (by rfl) (by decide) (by rfl)

/-! ## i2c.c: the transition table, one interrupt at a time -/

theorem I2C_ADDR_R_eq (x : Nat) : I2C_ADDR_R x = (2 * x) % 4294967296 + 1 := by
  have h2 : (2 * x) = x <<< 1 := by rw [Nat.shiftLeft_eq]; ring
  have h3 : (2 * x) % 4294967296 = 2 ^ 1 * (x % 2147483648) := by omega
  have h4 := Nat.mul_add_lt_is_or (show 1 < 2 ^ 1 by decide) (x % 2147483648)
  rw [I2C_ADDR_R, shl32_one, ← h2, h3, h4]

/-- C11 as stated fails: after a two-byte read has issued STOP and before its MSTOP
interrupt is serviced the busy flag is still true, and with the STATE register reading
idle a second `i2c_start` passes its assertion and begins a new transfer. -/
theorem C11_counterexample :
    ∃ w1 w2,
      transfer specH 0 0x40 0xF3 100 2 true 8
        [Irq.ACK, Irq.ACK, Irq.ACK, Irq.RXDATAV 0x66, Irq.RXDATAV 0x1A]
        (bootWorld 0 0) = .ok w1 ∧
      w1.payload.busy = true ∧
      i2c_start specH 0 0x40 0xE6 100 1 false 4 w1 = .ok w2 ∧
      w2.regs = w1.regs ++ [RegWrite.CMD 0 I2C_CMD.START, RegWrite.TXDATA 0 0x80] ∧
      w2.calls = w1.calls ++ [Call.sleep_block_mode 2] :=
  ⟨_, _, rfl, rfl, rfl, rfl, rfl⟩

/-- C11, amended: `i2c_start` called while the STATE register of the peripheral does not
read idle always halts in the fatal assertion and begins no transfer: it has stored its
arguments in the descriptor and set busy, but it has made no call of `sleep_block_mode`,
written no register, and left the state field, the hold table and the pending set as they
were. The busy flag of the descriptor is not tested. -/
theorem C11_start_not_idle_is_fatal (H : SleepRoutinesH) (w : World)
    (i2c device_address device_register data : Nat) (bytes : Int) (read : Bool)
    (event : Nat)
    (hbusy : (w.STATE i2c &&& I2C_STATE_STATE_MASK) ≠ I2C_STATE_STATE_IDLE) :
    i2c_start H i2c device_address device_register data bytes read event w =
      .error
        { payload :=
            { state := w.payload.state, i2c := i2c, device_address := device_address,
              device_register := device_register, data := data, bytes := bytes,
              busy := true, read := read, write := !read, event := event }
          mem := w.mem
          STATE := w.STATE
          lowest_energy_mode := w.lowest_energy_mode
          event_scheduled := w.event_scheduled
          regs := w.regs
          calls := w.calls } := by
  cases read <;> simp [i2c_start, hbusy]

/-- Witness of C11: a start on a peripheral whose STATE register reads `0x20`. -/
theorem C11_start_not_idle_is_fatal_witness :
    ((({ bootWorld 0 0 with STATE := fun _ => 0x20 } : World).STATE 0 &&&
        I2C_STATE_STATE_MASK) ≠ I2C_STATE_STATE_IDLE) ∧
    i2c_start specH 0 0x40 0xF3 100 2 true 8
        { bootWorld 0 0 with STATE := fun _ => 0x20 } =
      .error
        { payload :=
            { state := .start, i2c := 0, device_address := 0x40,
              device_register := 0xF3, data := 100, bytes := 2,
              busy := true, read := true, write := !true, event := 8 }
          mem := (bootWorld 0 0).mem
          STATE := fun _ => 0x20
          lowest_energy_mode := (bootWorld 0 0).lowest_energy_mode
          event_scheduled := (bootWorld 0 0).event_scheduled
          regs := (bootWorld 0 0).regs
          calls := (bootWorld 0 0).calls } :=
  ⟨by decide,
    C11_start_not_idle_is_fatal specH { bootWorld 0 0 with STATE := fun _ => 0x20 }
      0 0x40 0xF3 100 2 true 8 (by decide)⟩

/-- C12: the ACK column of the transition table before the data phase. In `start`,
`i2c_ack` moves to `master_cmd` and writes the register byte to TXDATA. In `master_cmd`
of a read it writes the START command and the read address `(addr << 1) | 1` and moves to
`request_data`. In `master_cmd` of a write it moves to `handle_data`, decrements the
remaining bytes by one and writes the first data byte to TXDATA. In `request_data` it
moves to `handle_data` and writes no register. -/
theorem C12_ack_before_data (w : World) :
    (w.payload.state = .start →
      i2c_ack w = .ok
        { w with
          payload := { w.payload with state := .master_cmd }
          regs := w.regs ++ [RegWrite.TXDATA w.payload.i2c w.payload.device_register] }) ∧
    (w.payload.state = .master_cmd → w.payload.read = true →
      i2c_ack w = .ok
        { w with
          payload := { w.payload with state := .request_data }
          regs := w.regs ++
            [RegWrite.CMD w.payload.i2c I2C_CMD.START,
             RegWrite.TXDATA w.payload.i2c (I2C_ADDR_R w.payload.device_address)] } ∧
      I2C_ADDR_R w.payload.device_address =
        (2 * w.payload.device_address) % 4294967296 + 1) ∧
    (w.payload.state = .master_cmd → w.payload.read = false → w.payload.write = true →
      -2147483648 < w.payload.bytes → w.payload.bytes < 2147483648 →
      i2c_ack w = .ok
        { w with
          payload :=
            { w.payload with state := .handle_data, bytes := w.payload.bytes - 1 }
          regs := w.regs ++
            [RegWrite.TXDATA w.payload.i2c
              (txByte (w.mem w.payload.data) (w.payload.bytes - 1))] }) ∧
    (w.payload.state = .request_data →
      i2c_ack w = .ok { w with payload := { w.payload with state := .handle_data } }) := by
  refine ⟨?_, ?_, ?_, ?_⟩
  · intro hs
    simp [i2c_ack, hs, writeTXDATA]
  · intro hs hr
    refine ⟨?_, I2C_ADDR_R_eq _⟩
    simp [i2c_ack, hs, hr, writeTXDATA, writeCMD]
  · intro hs hr hw h1 h2
    have hwr : wrap32s (w.payload.bytes - 1) = w.payload.bytes - 1 :=
      wrap32s_of_range _ (by omega) (by omega)
    simp [i2c_ack, hs, hr, hw, writeTXDATA, hwr]
  · intro hs
    simp [i2c_ack, hs]

/-- Witness of C12: the four cases at the descriptor of a one-byte transfer to register
`0xE6` of device `0x40`. -/
theorem C12_ack_before_data_witness :
    i2c_ack { bootWorld 0 0 with
        payload := { (bootWorld 0 0).payload with
          state := .start, device_address := 0x40, device_register := 0xE6 } } =
      .ok { bootWorld 0 0 with
        payload := { (bootWorld 0 0).payload with
          state := .master_cmd, device_address := 0x40, device_register := 0xE6 }
        regs := [RegWrite.TXDATA 0 0xE6] } ∧
    i2c_ack { bootWorld 0 0 with
        payload := { (bootWorld 0 0).payload with
          state := .master_cmd, device_address := 0x40, read := true } } =
      .ok { bootWorld 0 0 with
        payload := { (bootWorld 0 0).payload with
          state := .request_data, device_address := 0x40, read := true }
        regs := [RegWrite.CMD 0 I2C_CMD.START, RegWrite.TXDATA 0 (I2C_ADDR_R 0x40)] } ∧
    I2C_ADDR_R 0x40 = (2 * 0x40) % 4294967296 + 1 ∧
    i2c_ack { bootWorld 0xBA 0 with
        payload := { (bootWorld 0xBA 0).payload with
          state := .master_cmd, write := true, bytes := 1 } } =
      .ok { bootWorld 0xBA 0 with
        payload := { (bootWorld 0xBA 0).payload with
          state := .handle_data, write := true, bytes := 1 - 1 }
        regs := [RegWrite.TXDATA 0 (txByte 0xBA (1 - 1))] } ∧
    i2c_ack { bootWorld 0 0 with
        payload := { (bootWorld 0 0).payload with state := .request_data } } =
      .ok { bootWorld 0 0 with
        payload := { (bootWorld 0 0).payload with state := .handle_data } } :=
  ⟨(C12_ack_before_data _).1 rfl,
   ((C12_ack_before_data _).2.1 rfl rfl).1,
   ((C12_ack_before_data { bootWorld 0 0 with
        payload := { (bootWorld 0 0).payload with
          state := .master_cmd, device_address := 0x40, read := true } }).2.1 rfl rfl).2,
   (C12_ack_before_data _).2.2.1 rfl rfl rfl (by decide) (by decide),
   (C12_ack_before_data _).2.2.2 rfl⟩

theorem i2c_nack_retry (w : World) (hs : w.payload.state = .request_data) :
    i2c_nack w = .ok
      { w with
        regs := w.regs ++
          [RegWrite.CMD w.payload.i2c I2C_CMD.START,
           RegWrite.TXDATA w.payload.i2c (I2C_ADDR_R w.payload.device_address)] } := by
  obtain ⟨p, m, st, t, e, r, c⟩ := w
  obtain ⟨s, a1, a2, a3, a4, a5, a6, a7, a8, a9⟩ := p
  simp only at hs
  subst hs
  simp [i2c_nack, writeCMD, writeTXDATA]

/-- C13: for every `n`, `n` consecutive NACK interrupts in `request_data` hit no fatal
assertion, each writes the START command and the read address again, and together they
change nothing else: the descriptor (state `request_data`, remaining bytes, busy), the
data word, the hold table and the pending set are as before. No number of NACKs leaves
`request_data`. -/
theorem C13_nack_retries_forever (H : SleepRoutinesH) (w : World) (n : Nat)
    (hs : w.payload.state = .request_data) :
    irqs H (List.replicate n Irq.NACK) w = .ok
      { w with
        regs := w.regs ++
          (List.replicate n
            [RegWrite.CMD w.payload.i2c I2C_CMD.START,
             RegWrite.TXDATA w.payload.i2c (I2C_ADDR_R w.payload.device_address)]).flatten } := by
  induction n generalizing w with
  | zero => simp [irqs]
  | succ n ih =>
    simp only [List.replicate_succ, irqs, irq, i2c_nack_retry w hs]
    rw [ih { w with
      regs := w.regs ++
        [RegWrite.CMD w.payload.i2c I2C_CMD.START,
         RegWrite.TXDATA w.payload.i2c (I2C_ADDR_R w.payload.device_address)] } hs]
    simp [List.append_assoc]

/-- Witness of C13: three NACKs during the read of register `0xF3` of device `0x40`. -/
theorem C13_nack_retries_forever_witness :
    irqs specH (List.replicate 3 Irq.NACK)
        { bootWorld 0 0 with
          payload := { (bootWorld 0 0).payload with
            state := .request_data, device_address := 0x40, read := true, bytes := 2 } } =
      .ok
        { bootWorld 0 0 with
          payload := { (bootWorld 0 0).payload with
            state := .request_data, device_address := 0x40, read := true, bytes := 2 }
          regs := [] ++
            (List.replicate 3
              [RegWrite.CMD 0 I2C_CMD.START, RegWrite.TXDATA 0 (I2C_ADDR_R 0x40)]).flatten } :=
  C13_nack_retries_forever specH _ 3 rfl

/-- C14: ACK in `handle_data` of a write. With remaining bytes above zero the count is
decremented by one and the next data byte is written to TXDATA, the state staying
`handle_data`; with remaining bytes zero the STOP command is written, nothing is written
to TXDATA, the count stays zero and the state becomes `stop`. -/
theorem C14_ack_in_write_data (w : World) (hs : w.payload.state = .handle_data)
    (hw : w.payload.write = true) (hb : w.payload.bytes < 2147483648) :
    (0 < w.payload.bytes →
      i2c_ack w = .ok
        { w with
          payload := { w.payload with bytes := w.payload.bytes - 1 }
          regs := w.regs ++
            [RegWrite.TXDATA w.payload.i2c
              (txByte (w.mem w.payload.data) (w.payload.bytes - 1))] }) ∧
    (w.payload.bytes = 0 →
      i2c_ack w = .ok
        { w with
          payload := { w.payload with state := .stop }
          regs := w.regs ++ [RegWrite.CMD w.payload.i2c I2C_CMD.STOP] }) := by
  constructor
  · intro hpos
    have hwr : wrap32s (w.payload.bytes - 1) = w.payload.bytes - 1 :=
      wrap32s_of_range _ (by omega) (by omega)
    simp [i2c_ack, hs, hw, hpos, writeTXDATA, hwr]
  · intro hz
    simp [i2c_ack, hs, hw, hz, writeCMD]

/-- Witness of C14: the two cases in the second data phase step of a write of `0xBEEF`. -/
theorem C14_ack_in_write_data_witness :
    i2c_ack { bootWorld 0xBEEF 0 with
        payload := { (bootWorld 0xBEEF 0).payload with
          state := .handle_data, write := true, bytes := 1 } } =
      .ok { bootWorld 0xBEEF 0 with
        payload := { (bootWorld 0xBEEF 0).payload with
          state := .handle_data, write := true, bytes := 1 - 1 }
        regs := [] ++ [RegWrite.TXDATA 0 (txByte 0xBEEF (1 - 1))] } ∧
    i2c_ack { bootWorld 0xBEEF 0 with
        payload := { (bootWorld 0xBEEF 0).payload with
          state := .handle_data, write := true, bytes := 0 } } =
      .ok { bootWorld 0xBEEF 0 with
        payload := { (bootWorld 0xBEEF 0).payload with
          state := .stop, write := true, bytes := 0 }
        regs := [] ++ [RegWrite.CMD 0 I2C_CMD.STOP] } :=
  ⟨(C14_ack_in_write_data _ rfl rfl (by decide)).1 (by decide),
   (C14_ack_in_write_data _ rfl rfl (by decide)).2 rfl⟩

theorem txByte_eq (d : Nat) (b : Int) (k : Nat) (hb : b = k) (hk : k < 4) :
    txByte d b = (d >>> (8 * k)) % 256 := by
  have h : (256 : Nat) = 2 ^ 8 := by norm_num
  apply Nat.eq_of_testBit_eq
  intro i
  rw [testBit_txByte d b k i hb hk, h, Nat.testBit_mod_two_pow, Nat.testBit_shiftRight]

theorem rxStore_lane (d rx : Nat) (b : Int) (k : Nat) (hb : b = k) (hk : k < 4)
    (hd : d < 4294967296) (hrx : rx < 256) :
    (rxStore d b rx >>> (8 * k)) % 256 = rx := by
  have h : (256 : Nat) = 2 ^ 8 := by norm_num
  apply Nat.eq_of_testBit_eq
  intro i
  rw [h, Nat.testBit_mod_two_pow, Nat.testBit_shiftRight,
    testBit_rxStore d rx b k (8 * k + i) hb hk hd hrx]
  by_cases hi : i < 8
  · have h1 : 8 * k ≤ 8 * k + i ∧ 8 * k + i < 8 * k + 8 := by omega
    have h2 : 8 * k + i - 8 * k = i := by omega
    simp [hi, h1, h2]
  · have h3 : rx.testBit i = false := testBit_byte_high rx i hrx (by omega)
    simp [hi, h3]

/-- C15 as stated fails: with remaining bytes 5 the received byte `0xFF` is stored in no
byte lane of the data word, which stays zero. -/
theorem C15_counterexample :
    ∃ w1,
      i2c_rxdatav 0xFF
        { bootWorld 0 0 with
          payload := { (bootWorld 0 0).payload with
            state := .handle_data, read := true, bytes := 5, data := 100 } } = .ok w1 ∧
      w1.payload.bytes = 4 ∧
      w1.mem 100 = 0 ∧
      ∀ lane, lane < 4 → (w1.mem 100 >>> (8 * lane)) % 256 ≠ 0xFF :=
  ⟨_, rfl, by decide, by decide, by decide⟩

/-- C15, amended: RXDATAV in `handle_data` of a read with remaining bytes `k`,
`1 ≤ k ≤ 4`, and received byte `b`: the count becomes `k - 1`, the byte lane `k - 1` of
the data word (bits `8(k-1)` to `8(k-1)+7`) is replaced by `b`, every other bit of the
data word and every other word of memory keeps its value; if `k - 1 > 0` only the ACK
command is written and the state stays `handle_data`; if `k - 1 = 0` the NACK command and
then the STOP command are written and the state becomes `stop`. -/
theorem C15_rxdatav_in_read_data (w : World) (k b : Nat)
    (hs : w.payload.state = .handle_data) (hr : w.payload.read = true)
    (hk : w.payload.bytes = k) (hk1 : 1 ≤ k) (hk4 : k ≤ 4) (hb : b < 256)
    (hd : w.mem w.payload.data < 4294967296) :
    ∃ w1,
      i2c_rxdatav b w = .ok w1 ∧
      w1.payload.bytes = (k : Int) - 1 ∧
      (∀ i, (w1.mem w.payload.data).testBit i =
        if 8 * (k - 1) ≤ i ∧ i < 8 * (k - 1) + 8 then b.testBit (i - 8 * (k - 1))
        else (w.mem w.payload.data).testBit i) ∧
      (∀ q, q ≠ w.payload.data → w1.mem q = w.mem q) ∧
      (1 < k →
        w1.regs = w.regs ++ [RegWrite.CMD w.payload.i2c I2C_CMD.ACK] ∧
        w1.payload.state = .handle_data) ∧
      (k = 1 →
        w1.regs = w.regs ++
          [RegWrite.CMD w.payload.i2c I2C_CMD.NACK,
           RegWrite.CMD w.payload.i2c I2C_CMD.STOP] ∧
        w1.payload.state = .stop) := by
  have hb1 : w.payload.bytes - 1 = ((k - 1 : Nat) : Int) := by omega
  have hwr : wrap32s (w.payload.bytes - 1) = ((k - 1 : Nat) : Int) := by
    rw [wrap32s_of_range _ (by omega) (by omega)]
    exact hb1
  have hbits := fun i =>
    testBit_rxStore (w.mem w.payload.data) b ((k - 1 : Nat) : Int) (k - 1) i rfl
      (by omega) hd hb
  have hother : ∀ q, q ≠ w.payload.data →
      setMem w.mem w.payload.data
        (rxStore (w.mem w.payload.data) ((k - 1 : Nat) : Int) b) q = w.mem q := by
    intro q hq
    simp [setMem, hq]
  by_cases h1 : k = 1
  · have hz : ¬ (((k - 1 : Nat) : Int) > 0) := by omega
    have hz2 : ((k - 1 : Nat) : Int) = 0 := by omega
    refine ⟨{ w with
        payload := { w.payload with bytes := ((k - 1 : Nat) : Int), state := .stop }
        mem := setMem w.mem w.payload.data
          (rxStore (w.mem w.payload.data) ((k - 1 : Nat) : Int) b)
        regs := w.regs ++
          [RegWrite.CMD w.payload.i2c I2C_CMD.NACK,
           RegWrite.CMD w.payload.i2c I2C_CMD.STOP] }, ?_, ?_, ?_, hother, ?_, ?_⟩
    · simp [i2c_rxdatav, hs, hr, hwr, hz2, writeCMD]
    · show ((k - 1 : Nat) : Int) = (k : Int) - 1
      omega
    · intro i
      have := hbits i
      simpa [setMem] using this
    · intro hlt
      omega
    · intro _
      exact ⟨rfl, rfl⟩
  · have hpos : ((k - 1 : Nat) : Int) > 0 := by omega
    refine ⟨{ w with
        payload := { w.payload with bytes := ((k - 1 : Nat) : Int) }
        mem := setMem w.mem w.payload.data
          (rxStore (w.mem w.payload.data) ((k - 1 : Nat) : Int) b)
        regs := w.regs ++ [RegWrite.CMD w.payload.i2c I2C_CMD.ACK] }, ?_, ?_, ?_, hother,
        ?_, ?_⟩
    · simp [i2c_rxdatav, hs, hr, hwr, hpos, writeCMD]
    · show ((k - 1 : Nat) : Int) = (k : Int) - 1
      omega
    · intro i
      have := hbits i
      simpa [setMem] using this
    · intro _
      exact ⟨rfl, hs⟩
    · intro h
      exact absurd h h1

/-- Witness of C15: the first byte `0xAB` of a two-byte read into `0x12345678`. -/
theorem C15_rxdatav_in_read_data_witness :
    ∃ w1,
      i2c_rxdatav 0xAB (dataPhaseWorld 0x12345678 true 2) = .ok w1 ∧
      w1.payload.bytes = ((2 : Nat) : Int) - 1 ∧
      (∀ i, (w1.mem (dataPhaseWorld 0x12345678 true 2).payload.data).testBit i =
        if 8 * (2 - 1) ≤ i ∧ i < 8 * (2 - 1) + 8 then Nat.testBit 0xAB (i - 8 * (2 - 1))
        else ((dataPhaseWorld 0x12345678 true 2).mem
          (dataPhaseWorld 0x12345678 true 2).payload.data).testBit i) ∧
      (∀ q, q ≠ (dataPhaseWorld 0x12345678 true 2).payload.data →
        w1.mem q = (dataPhaseWorld 0x12345678 true 2).mem q) ∧
      (1 < 2 →
        w1.regs = (dataPhaseWorld 0x12345678 true 2).regs ++
          [RegWrite.CMD (dataPhaseWorld 0x12345678 true 2).payload.i2c I2C_CMD.ACK] ∧
        w1.payload.state = .handle_data) ∧
      (2 = 1 →
        w1.regs = (dataPhaseWorld 0x12345678 true 2).regs ++
          [RegWrite.CMD (dataPhaseWorld 0x12345678 true 2).payload.i2c I2C_CMD.NACK,
           RegWrite.CMD (dataPhaseWorld 0x12345678 true 2).payload.i2c I2C_CMD.STOP] ∧
        w1.payload.state = .stop) :=
  C15_rxdatav_in_read_data (dataPhaseWorld 0x12345678 true 2) 2 0xAB rfl rfl rfl
    (by decide) (by decide) (by decide) (by decide)

/-! ## i2c.c: what no interrupt changes -/

theorem irq_frame (H : SleepRoutinesH) (c : Irq) (w w1 : World)
    (h : irq H c w = .ok w1) :
    w1.payload.i2c = w.payload.i2c ∧
    w1.payload.device_address = w.payload.device_address ∧
    w1.payload.device_register = w.payload.device_register ∧
    w1.payload.data = w.payload.data ∧
    w1.payload.event = w.payload.event ∧
    w1.payload.read = w.payload.read ∧
    w1.payload.write = w.payload.write := by
  cases c with
  | ACK =>
    simp only [irq, i2c_ack] at h
    split at h <;> (try split_ifs at h) <;> (try cases h) <;> simp [writeTXDATA, writeCMD]
  | NACK =>
    simp only [irq, i2c_nack] at h
    split at h <;> (try cases h)
    simp [writeTXDATA, writeCMD]
  | RXDATAV rx =>
    simp only [irq, i2c_rxdatav] at h
    split at h <;> (try split_ifs at h) <;> (try cases h) <;> simp [writeTXDATA, writeCMD]
  | MSTOP =>
    simp only [irq, i2c_mstop, call_sleep_unblock_mode] at h
    split at h <;> (try cases h)
    split at h <;> (try cases h)
    rename_i heq
    split at heq <;> cases heq
    simp [call_add_scheduled_event]

theorem irqs_frame (H : SleepRoutinesH) (is : List Irq) (w w1 : World)
    (h : irqs H is w = .ok w1) :
    w1.payload.i2c = w.payload.i2c ∧
    w1.payload.device_address = w.payload.device_address ∧
    w1.payload.device_register = w.payload.device_register ∧
    w1.payload.data = w.payload.data ∧
    w1.payload.event = w.payload.event ∧
    w1.payload.read = w.payload.read ∧
    w1.payload.write = w.payload.write := by
  induction is generalizing w with
  | nil =>
    simp only [irqs] at h
    cases h
    simp
  | cons c cs ih =>
    simp only [irqs] at h
    cases hc : irq H c w with
    | error e => rw [hc] at h; cases h
    | ok w2 =>
      rw [hc] at h
      have h1 := irq_frame H c w w2 hc
      have h2 := ih w2 h
      refine ⟨?_, ?_, ?_, ?_, ?_, ?_, ?_⟩
      · exact h2.1.trans h1.1
      · exact h2.2.1.trans h1.2.1
      · exact h2.2.2.1.trans h1.2.2.1
      · exact h2.2.2.2.1.trans h1.2.2.2.1
      · exact h2.2.2.2.2.1.trans h1.2.2.2.2.1
      · exact h2.2.2.2.2.2.1.trans h1.2.2.2.2.2.1
      · exact h2.2.2.2.2.2.2.trans h1.2.2.2.2.2.2

theorem i2c_start_payload (H : SleepRoutinesH) (w w1 : World)
    (i2c device_address device_register data : Nat) (bytes : Int) (read : Bool)
    (event : Nat)
    (h : i2c_start H i2c device_address device_register data bytes read event w = .ok w1) :
    w1.payload =
      { state := .start, i2c := i2c, device_address := device_address,
        device_register := device_register, data := data, bytes := bytes,
        busy := true, read := read, write := !read, event := event } := by
  by_cases hidle : (w.STATE i2c &&& I2C_STATE_STATE_MASK) = I2C_STATE_STATE_IDLE
  · cases hb : sleep_block_mode H (I2C_EM_BLOCK H) w.lowest_energy_mode with
    | error t => cases read <;> simp [i2c_start, hidle, call_sleep_block_mode, hb] at h
    | ok t =>
      rw [i2c_start_ok H w i2c device_address device_register data bytes read event hidle t
        hb] at h
      cases h
      rfl
  · cases read <;> simp [i2c_start, hidle] at h

theorem transfer_elim (H : SleepRoutinesH) (w w1 : World)
    (i2c device_address device_register data : Nat) (bytes : Int) (read : Bool)
    (event : Nat) (is : List Irq)
    (h : transfer H i2c device_address device_register data bytes read event is w = .ok w1) :
    ∃ ws, i2c_start H i2c device_address device_register data bytes read event w = .ok ws ∧
      irqs H is ws = .ok w1 := by
  unfold transfer at h
  cases hs : i2c_start H i2c device_address device_register data bytes read event w with
  | error e => rw [hs] at h; cases h
  | ok ws =>
    rw [hs] at h
    exact ⟨ws, rfl, h⟩

/-- C16: MSTOP in `stop`, at the end of any run of interrupts after
`i2c_start(.., event)`, when its call of `sleep_unblock_mode(I2C_EM_BLOCK)` returns: it
makes that one call and then one call of `add_scheduled_event` with the event passed to
`i2c_start`, so that the pending set becomes `pending | event` (a bit outside `event`
keeps its value), clears busy, leaves the state `stop`, and writes no register. -/
theorem C16_mstop_in_stop (H : SleepRoutinesH) (w0 w : World)
    (i2c device_address device_register data : Nat) (bytes : Int) (read : Bool)
    (event : Nat) (pre : List Irq)
    (hrun : transfer H i2c device_address device_register data bytes read event pre w0
      = .ok w)
    (hs : w.payload.state = .stop) (t2 : Nat → Int)
    (hun : sleep_unblock_mode H (I2C_EM_BLOCK H) w.lowest_energy_mode = .ok t2)
    (hp : w.event_scheduled < 4294967296) (he : event < 4294967296) :
    i2c_mstop H w =
      .ok
        { payload := { w.payload with busy := false, state := .stop }
          mem := w.mem
          STATE := w.STATE
          lowest_energy_mode := t2
          event_scheduled := w.event_scheduled ||| event
          regs := w.regs
          calls := w.calls ++
            [Call.sleep_unblock_mode (I2C_EM_BLOCK H), Call.add_scheduled_event event] } ∧
    (∀ i, event.testBit i = false →
      (w.event_scheduled ||| event).testBit i = w.event_scheduled.testBit i) := by
  obtain ⟨ws, hstart, hirqs⟩ := transfer_elim H w0 w _ _ _ _ _ _ _ _ hrun
  have hev : w.payload.event = event := by
    rw [(irqs_frame H pre ws w hirqs).2.2.2.2.1,
      i2c_start_payload H w0 ws _ _ _ _ _ _ _ hstart]
  have hor : add_scheduled_event event w.event_scheduled = w.event_scheduled ||| event := by
    unfold add_scheduled_event
    apply Nat.mod_eq_of_lt
    have h2 : (4294967296 : Nat) = 2 ^ 32 := by norm_num
    rw [h2] at hp he ⊢
    exact Nat.or_lt_two_pow hp he
  constructor
  · rw [i2c_mstop_ok H w hs t2 hun, hev, hor]
  · intro i hi
    simp [hi]

/-- Witness of C16: the MSTOP that ends the two-byte read of register `0xF3`. -/
theorem C16_mstop_in_stop_witness :
    i2c_mstop specH
        (finalWorld (transfer specH 0 0x40 0xF3 100 2 true 8
          [Irq.ACK, Irq.ACK, Irq.ACK, Irq.RXDATAV 0x66, Irq.RXDATAV 0x1A] (bootWorld 0 1))) =
      .ok
        { payload :=
            { (finalWorld (transfer specH 0 0x40 0xF3 100 2 true 8
                [Irq.ACK, Irq.ACK, Irq.ACK, Irq.RXDATAV 0x66, Irq.RXDATAV 0x1A]
                (bootWorld 0 1))).payload with busy := false, state := .stop }
          mem := (finalWorld (transfer specH 0 0x40 0xF3 100 2 true 8
            [Irq.ACK, Irq.ACK, Irq.ACK, Irq.RXDATAV 0x66, Irq.RXDATAV 0x1A]
            (bootWorld 0 1))).mem
          STATE := (finalWorld (transfer specH 0 0x40 0xF3 100 2 true 8
            [Irq.ACK, Irq.ACK, Irq.ACK, Irq.RXDATAV 0x66, Irq.RXDATAV 0x1A]
            (bootWorld 0 1))).STATE
          lowest_energy_mode := sleep_open (fun _ => 0)
          event_scheduled := 1 ||| 8
          regs := (finalWorld (transfer specH 0 0x40 0xF3 100 2 true 8
            [Irq.ACK, Irq.ACK, Irq.ACK, Irq.RXDATAV 0x66, Irq.RXDATAV 0x1A]
            (bootWorld 0 1))).regs
          calls :=
            [Call.sleep_block_mode 2] ++
              [Call.sleep_unblock_mode (I2C_EM_BLOCK specH), Call.add_scheduled_event 8] } ∧
    (∀ i, Nat.testBit 8 i = false → Nat.testBit (1 ||| 8) i = Nat.testBit 1 i) := by
  have h := C16_mstop_in_stop specH (bootWorld 0 1)
    (finalWorld (transfer specH 0 0x40 0xF3 100 2 true 8
      [Irq.ACK, Irq.ACK, Irq.ACK, Irq.RXDATAV 0x66, Irq.RXDATAV 0x1A] (bootWorld 0 1)))
    0 0x40 0xF3 100 2 true 8
    [Irq.ACK, Irq.ACK, Irq.ACK, Irq.RXDATAV 0x66, Irq.RXDATAV 0x1A] rfl rfl
    (setEntry (setEntry (sleep_open (fun _ => 0)) 2 1) 2 0) rfl (by decide) (by decide)
  refine ⟨?_, h.2⟩
  rw [h.1]
  have ht : setEntry (setEntry (sleep_open (fun _ => 0)) 2 1) 2 0 =
      sleep_open (fun _ => 0) := by
    funext j
    simp only [setEntry, sleep_open_apply]
    split_ifs <;> rfl
  rw [ht]
  rfl

/-! ## i2c.c: byte order -/

theorem i2c_rxdatav_mem (w : World) (k b : Nat) (hs : w.payload.state = .handle_data)
    (hr : w.payload.read = true) (hk : w.payload.bytes = k) (hk1 : 1 ≤ k)
    (hk4 : k ≤ 4) :
    ∃ w1, i2c_rxdatav b w = .ok w1 ∧
      w1.mem w.payload.data = rxStore (w.mem w.payload.data) ((k - 1 : Nat) : Int) b := by
  have hb1 : w.payload.bytes - 1 = ((k - 1 : Nat) : Int) := by omega
  have hwr : wrap32s (w.payload.bytes - 1) = ((k - 1 : Nat) : Int) := by
    rw [wrap32s_of_range _ (by omega) (by omega)]
    exact hb1
  by_cases h1 : k = 1
  · have hz2 : ((k - 1 : Nat) : Int) = 0 := by omega
    simp [i2c_rxdatav, hs, hr, hwr, hz2, writeCMD, setMem]
  · have hpos : ((k - 1 : Nat) : Int) > 0 := by omega
    simp [i2c_rxdatav, hs, hr, hwr, hpos, writeCMD, setMem]

/-- C17 as stated fails: with one remaining byte before the decrement, the write sends
bits 0..7 of the data word `0xAB00` (the byte `0x00`), not bits 8..15 (`0xAB`), and the
read stores the received byte `0xAB` into bits 0..7 of the data word, bits 8..15 staying
zero. -/
theorem C17_counterexample :
    ∃ w1 w2,
      i2c_ack (dataPhaseWorld 0xAB00 false 1) = .ok w1 ∧
      w1.regs = [RegWrite.TXDATA 0 0x00] ∧
      ((dataPhaseWorld 0xAB00 false 1).mem 100 >>> (8 * 1)) % 256 = 0xAB ∧
      i2c_rxdatav 0xAB (dataPhaseWorld 0 true 1) = .ok w2 ∧
      w2.mem 100 = 0xAB ∧
      (w2.mem 100 >>> (8 * 1)) % 256 = 0x00 :=
  ⟨_, _, rfl, by decide, by decide, rfl, by decide, by decide⟩

/-- C17, amended: in every data byte step with remaining bytes `k`, `1 ≤ k ≤ 4`, before
the decrement of the step, the byte written to TXDATA by a write (the ACK in `master_cmd`
and the ACK in `handle_data`) is bits `8(k-1)` to `8(k-1)+7` of the data word, and the
byte received by a read (RXDATAV in `handle_data`) is stored into bits `8(k-1)` to
`8(k-1)+7` of the data word. -/
theorem C17_byte_lane (w : World) (k : Nat) (hk : w.payload.bytes = k) (hk1 : 1 ≤ k)
    (hk4 : k ≤ 4) :
    (w.payload.state = .master_cmd → w.payload.read = false → w.payload.write = true →
      ∃ w1, i2c_ack w = .ok w1 ∧
        w1.regs = w.regs ++
          [RegWrite.TXDATA w.payload.i2c
            ((w.mem w.payload.data >>> (8 * (k - 1))) % 256)]) ∧
    (w.payload.state = .handle_data → w.payload.write = true →
      ∃ w1, i2c_ack w = .ok w1 ∧
        w1.regs = w.regs ++
          [RegWrite.TXDATA w.payload.i2c
            ((w.mem w.payload.data >>> (8 * (k - 1))) % 256)]) ∧
    (∀ b, w.payload.state = .handle_data → w.payload.read = true → b < 256 →
      w.mem w.payload.data < 4294967296 →
      ∃ w1, i2c_rxdatav b w = .ok w1 ∧
        (w1.mem w.payload.data >>> (8 * (k - 1))) % 256 = b) := by
  have hb1 : w.payload.bytes - 1 = ((k - 1 : Nat) : Int) := by omega
  have hwr : wrap32s (w.payload.bytes - 1) = ((k - 1 : Nat) : Int) := by
    rw [wrap32s_of_range _ (by omega) (by omega)]
    exact hb1
  have htx := txByte_eq (w.mem w.payload.data) ((k - 1 : Nat) : Int) (k - 1) rfl (by omega)
  have hpos : w.payload.bytes > 0 := by omega
  refine ⟨?_, ?_, ?_⟩
  · intro hs hr hw
    simp [i2c_ack, hs, hr, hw, writeTXDATA, hwr, htx]
  · intro hs hw
    simp [i2c_ack, hs, hw, hpos, writeTXDATA, hwr, htx]
  · intro b hs hr hb hd
    obtain ⟨w1, h1, h3⟩ := i2c_rxdatav_mem w k b hs hr hk hk1 hk4
    refine ⟨w1, h1, ?_⟩
    rw [h3]
    exact rxStore_lane _ _ _ (k - 1) rfl (by omega) hd hb

/-- Witness of C17: the first and the second data byte of a two-byte write of `0xBEEF`,
and the first byte of a two-byte read. -/
theorem C17_byte_lane_witness :
    (∃ w1,
      i2c_ack { dataPhaseWorld 0xBEEF false 2 with
          payload := { (dataPhaseWorld 0xBEEF false 2).payload with state := .master_cmd } }
        = .ok w1 ∧
      w1.regs = [] ++ [RegWrite.TXDATA 0 ((0xBEEF >>> (8 * (2 - 1))) % 256)]) ∧
    (∃ w1,
      i2c_ack (dataPhaseWorld 0xBEEF false 1) = .ok w1 ∧
      w1.regs = [] ++ [RegWrite.TXDATA 0 ((0xBEEF >>> (8 * (1 - 1))) % 256)]) ∧
    (∃ w1,
      i2c_rxdatav 0x66 (dataPhaseWorld 0 true 2) = .ok w1 ∧
      (w1.mem 100 >>> (8 * (2 - 1))) % 256 = 0x66) :=
  ⟨(C17_byte_lane
      { dataPhaseWorld 0xBEEF false 2 with
        payload := { (dataPhaseWorld 0xBEEF false 2).payload with state := .master_cmd } }
      2 rfl (by decide) (by decide)).1 rfl rfl rfl,
   (C17_byte_lane (dataPhaseWorld 0xBEEF false 1) 1 rfl (by decide) (by decide)).2.1
      rfl rfl,
   (C17_byte_lane (dataPhaseWorld 0 true 2) 2 rfl (by decide) (by decide)).2.2
      0x66 rfl rfl (by decide) (by decide)⟩

theorem wrap32s_two : wrap32s 2 = 2 := by decide

theorem wrap32s_three : wrap32s 3 = 3 := by decide

/-- C18: for every byte count `n` from 1 to 4 and every data word `d`, with the
peripheral idle and the call of `sleep_block_mode` returning, a write driven by `n + 2`
ACK interrupts ends in `stop` having written to the peripheral, in this order, START, the
write address, the register, the `n` data bytes and STOP, the `i`-th data byte
(`i = 0 .. n-1`) being bits `8(n-1-i)` to `8(n-i)-1` of `d`; memory is unchanged. -/
theorem C18_write_msb_first (H : SleepRoutinesH) (w : World)
    (i2c device_address device_register data event : Nat) (n : Nat)
    (hn1 : 1 ≤ n) (hn4 : n ≤ 4)
    (hidle : (w.STATE i2c &&& I2C_STATE_STATE_MASK) = I2C_STATE_STATE_IDLE)
    (t1 : Nat → Int)
    (hblock : sleep_block_mode H (I2C_EM_BLOCK H) w.lowest_energy_mode = .ok t1) :
    ∃ w1,
      transfer H i2c device_address device_register data (n : Int) false event
        (List.replicate (n + 2) Irq.ACK) w = .ok w1 ∧
      w1.payload.state = .stop ∧
      w1.payload.bytes = 0 ∧
      w1.regs = w.regs ++
        [RegWrite.CMD i2c I2C_CMD.START, RegWrite.TXDATA i2c (I2C_ADDR_W device_address),
         RegWrite.TXDATA i2c device_register] ++
        (List.range n).map
          (fun i => RegWrite.TXDATA i2c ((w.mem data >>> (8 * (n - 1 - i))) % 256)) ++
        [RegWrite.CMD i2c I2C_CMD.STOP] ∧
      w1.mem = w.mem := by
  have e0 : txByte (w.mem data) 0 = (w.mem data >>> (8 * 0)) % 256 :=
    txByte_eq _ 0 0 rfl (by decide)
  have e1 : txByte (w.mem data) 1 = (w.mem data >>> (8 * 1)) % 256 :=
    txByte_eq _ 1 1 rfl (by decide)
  have e2 : txByte (w.mem data) 2 = (w.mem data >>> (8 * 2)) % 256 :=
    txByte_eq _ 2 2 rfl (by decide)
  have e3 : txByte (w.mem data) 3 = (w.mem data >>> (8 * 3)) % 256 :=
    txByte_eq _ 3 3 rfl (by decide)
  have r1 : List.range 1 = [0] := by decide
  have r2 : List.range 2 = [0, 1] := by decide
  have r3 : List.range 3 = [0, 1, 2] := by decide
  have r4 : List.range 4 = [0, 1, 2, 3] := by decide
  have hcases : n = 1 ∨ n = 2 ∨ n = 3 ∨ n = 4 := by omega
  rcases hcases with rfl | rfl | rfl | rfl
  · simp [transfer,
      i2c_start_ok H w i2c device_address device_register data _ _ event hidle t1 hblock,
      irqs, irq, i2c_ack, writeCMD, writeTXDATA, wrap32s_zero, wrap32s_one, wrap32s_two,
      wrap32s_three, List.replicate, e0, e1, e2, e3, r1]
  · simp [transfer,
      i2c_start_ok H w i2c device_address device_register data _ _ event hidle t1 hblock,
      irqs, irq, i2c_ack, writeCMD, writeTXDATA, wrap32s_zero, wrap32s_one, wrap32s_two,
      wrap32s_three, List.replicate, e0, e1, e2, e3, r2]
  · simp [transfer,
      i2c_start_ok H w i2c device_address device_register data _ _ event hidle t1 hblock,
      irqs, irq, i2c_ack, writeCMD, writeTXDATA, wrap32s_zero, wrap32s_one, wrap32s_two,
      wrap32s_three, List.replicate, e0, e1, e2, e3, r3]
  · simp [transfer,
      i2c_start_ok H w i2c device_address device_register data _ _ event hidle t1 hblock,
      irqs, irq, i2c_ack, writeCMD, writeTXDATA, wrap32s_zero, wrap32s_one, wrap32s_two,
      wrap32s_three, List.replicate, e0, e1, e2, e3, r4]

/-- Witness of C18: the four-byte write of `0x12345678` from the state after
initialisation. -/
theorem C18_write_msb_first_witness :
    ∃ w1,
      transfer specH 0 0x40 0xE6 100 ((4 : Nat) : Int) false 8
        (List.replicate (4 + 2) Irq.ACK) (bootWorld 0x12345678 0) = .ok w1 ∧
      w1.payload.state = .stop ∧
      w1.payload.bytes = 0 ∧
      w1.regs = (bootWorld 0x12345678 0).regs ++
        [RegWrite.CMD 0 I2C_CMD.START, RegWrite.TXDATA 0 (I2C_ADDR_W 0x40),
         RegWrite.TXDATA 0 0xE6] ++
        (List.range 4).map
          (fun i => RegWrite.TXDATA 0
            (((bootWorld 0x12345678 0).mem 100 >>> (8 * (4 - 1 - i))) % 256)) ++
        [RegWrite.CMD 0 I2C_CMD.STOP] ∧
      w1.mem = (bootWorld 0x12345678 0).mem :=
  C18_write_msb_first specH (bootWorld 0x12345678 0) 0 0x40 0xE6 100 8 4 (by decide)
    (by decide) (by decide) (setEntry (sleep_open (fun _ => 0)) 2 1) (by rfl)

/-- C19: a transfer of one byte needs exactly one interrupt in the data phase. On a read,
after the three ACKs the state is `handle_data`, and the first RXDATAV stores the byte in
bits 0..7 of the data word, writes the NACK command and then the STOP command, and
enters `stop` with no remaining byte. On a write, after the two ACKs the state is
`handle_data` with no remaining byte, and the first ACK there writes the STOP command
and nothing to TXDATA, and enters `stop` with no remaining byte. -/
theorem C19_single_byte (H : SleepRoutinesH) (w : World)
    (i2c device_address device_register data event b : Nat)
    (hidle : (w.STATE i2c &&& I2C_STATE_STATE_MASK) = I2C_STATE_STATE_IDLE)
    (t1 : Nat → Int)
    (hblock : sleep_block_mode H (I2C_EM_BLOCK H) w.lowest_energy_mode = .ok t1) :
    (∃ w1,
      transfer H i2c device_address device_register data 1 true event
        [Irq.ACK, Irq.ACK, Irq.ACK] w = .ok w1 ∧
      w1.payload.state = .handle_data ∧
      w1.payload.bytes = 1 ∧
      ∃ w2,
        i2c_rxdatav b w1 = .ok w2 ∧
        w2.payload.state = .stop ∧
        w2.payload.bytes = 0 ∧
        w2.regs = w1.regs ++
          [RegWrite.CMD i2c I2C_CMD.NACK, RegWrite.CMD i2c I2C_CMD.STOP] ∧
        w2.mem data = rxStore (w.mem data) 0 b ∧
        (b < 256 → w.mem data < 4294967296 → w2.mem data % 256 = b)) ∧
    (∃ w1,
      transfer H i2c device_address device_register data 1 false event
        [Irq.ACK, Irq.ACK] w = .ok w1 ∧
      w1.payload.state = .handle_data ∧
      w1.payload.bytes = 0 ∧
      ∃ w2,
        i2c_ack w1 = .ok w2 ∧
        w2.payload.state = .stop ∧
        w2.payload.bytes = 0 ∧
        w2.regs = w1.regs ++ [RegWrite.CMD i2c I2C_CMD.STOP]) := by
  have h11 : wrap32s (1 - 1) = 0 := by decide
  have hlow : b < 256 → w.mem data < 4294967296 → rxStore (w.mem data) 0 b % 256 = b := by
    intro hb hd
    have := rxStore_lane (w.mem data) b 0 0 rfl (by decide) hd hb
    simpa using this
  constructor
  · simp [transfer,
      i2c_start_ok H w i2c device_address device_register data _ _ event hidle t1 hblock,
      irqs, irq, i2c_ack, i2c_rxdatav, writeCMD, writeTXDATA, wrap32s_zero, wrap32s_one,
      h11, setMem]
    exact hlow
  · simp [transfer,
      i2c_start_ok H w i2c device_address device_register data _ _ event hidle t1 hblock,
      irqs, irq, i2c_ack, writeCMD, writeTXDATA, wrap32s_zero, wrap32s_one, h11]

/-- Witness of C19: one byte read from and written to register `0xE7` of device `0x40`
from the state after initialisation. -/
theorem C19_single_byte_witness :
    (∃ w1,
      transfer specH 0 0x40 0xE7 100 1 true 8 [Irq.ACK, Irq.ACK, Irq.ACK] (bootWorld 0 0)
        = .ok w1 ∧
      w1.payload.state = .handle_data ∧
      w1.payload.bytes = 1 ∧
      ∃ w2,
        i2c_rxdatav 0x3A w1 = .ok w2 ∧
        w2.payload.state = .stop ∧
        w2.payload.bytes = 0 ∧
        w2.regs = w1.regs ++ [RegWrite.CMD 0 I2C_CMD.NACK, RegWrite.CMD 0 I2C_CMD.STOP] ∧
        w2.mem 100 = rxStore ((bootWorld 0 0).mem 100) 0 0x3A ∧
        (0x3A < 256 → (bootWorld 0 0).mem 100 < 4294967296 → w2.mem 100 % 256 = 0x3A)) ∧
    (∃ w1,
      transfer specH 0 0x40 0xE7 100 1 false 8 [Irq.ACK, Irq.ACK] (bootWorld 0 0) = .ok w1 ∧
      w1.payload.state = .handle_data ∧
      w1.payload.bytes = 0 ∧
      ∃ w2,
        i2c_ack w1 = .ok w2 ∧
        w2.payload.state = .stop ∧
        w2.payload.bytes = 0 ∧
        w2.regs = w1.regs ++ [RegWrite.CMD 0 I2C_CMD.STOP]) :=
  C19_single_byte specH (bootWorld 0 0) 0 0x40 0xE7 100 8 0x3A (by decide)
    (setEntry (sleep_open (fun _ => 0)) 2 1) (by rfl)

/-! ## i2c.c: the remaining byte count -/

theorem wrap32s_pred (b : Int) (h0 : 0 ≤ b) (h1 : b < 2147483648) (hpos : 1 ≤ b) :
    wrap32s (b - 1) = b - 1 := wrap32s_of_range _ (by omega) (by omega)

theorem irq_bytes_step (H : SleepRoutinesH) (c : Irq) (w w1 : World)
    (hinv : bytesInv w.payload) (h : irq H c w = .ok w1) :
    bytesInv w1.payload ∧
    (w1.payload.bytes = w.payload.bytes ∨ w1.payload.bytes = w.payload.bytes - 1) := by
  obtain ⟨h0, h31, hrw, hm⟩ := hinv
  cases c with
  | ACK =>
    simp only [irq, i2c_ack] at h
    split at h
    · rename_i hs
      rw [hs] at hm
      cases h
      simp [bytesInv, writeTXDATA, h0, h31, hrw]
      exact hm
    · rename_i hs
      rw [hs] at hm
      simp only at hm
      have hw := wrap32s_pred _ h0 h31 hm
      split_ifs at h with hr hwt
      · cases h
        simp [bytesInv, writeTXDATA, writeCMD, h0, h31, hrw]
        exact hm
      · cases h
        simp [bytesInv, writeTXDATA, hw, hrw, hr]
        omega
    · rename_i hs
      rw [hs] at hm
      cases h
      simp [bytesInv, h0, h31, hrw]
      intro _
      exact hm
    · rename_i hs
      rw [hs] at hm
      simp only at hm
      split_ifs at h with hwt hpos
      · have hw := wrap32s_pred _ h0 h31 (by omega)
        have hr : w.payload.read = false := by
          rw [hwt] at hrw
          cases hrd : w.payload.read
          · rfl
          · rw [hrd] at hrw; cases hrw
        cases h
        simp [bytesInv, writeTXDATA, hw, hrw, hr, hs]
        omega
      · cases h
        simp [bytesInv, writeCMD, h0, h31, hrw]
    · cases h
  | NACK =>
    simp only [irq, i2c_nack] at h
    split at h <;> (try cases h)
    rename_i hs
    rw [hs] at hm
    simp [bytesInv, writeTXDATA, writeCMD, h0, h31, hrw]
    exact hm
  | RXDATAV rx =>
    simp only [irq, i2c_rxdatav] at h
    split at h <;> (try cases h)
    rename_i hs
    rw [hs] at hm
    simp only at hm
    split_ifs at h with hr hpos hz
    · have hm1 := hm hr
      have hw := wrap32s_pred _ h0 h31 hm1
      rw [hw] at hpos
      cases h
      simp [bytesInv, writeCMD, hw, hrw, hs]
      omega
    · have hm1 := hm hr
      have hw := wrap32s_pred _ h0 h31 hm1
      rw [hw] at hz
      cases h
      simp [bytesInv, writeCMD, hw, hrw]
      omega
    · have hm1 := hm hr
      have hw := wrap32s_pred _ h0 h31 hm1
      rw [hw] at hpos hz
      omega
  | MSTOP =>
    simp only [irq, i2c_mstop, call_sleep_unblock_mode] at h
    split at h <;> (try cases h)
    split at h <;> (try cases h)
    rename_i heq
    split at heq <;> cases heq
    simp [bytesInv, call_add_scheduled_event, h0, h31, hrw]

theorem irq_bytes_changed (H : SleepRoutinesH) (c : Irq) (w w1 : World)
    (h : irq H c w = .ok w1) (hne : w1.payload.bytes ≠ w.payload.bytes) :
    (c = Irq.ACK ∧ ∃ v, w1.regs = w.regs ++ [RegWrite.TXDATA w.payload.i2c v]) ∨
    (∃ rx, c = Irq.RXDATAV rx ∧
      w1.mem w.payload.data = rxStore (w.mem w.payload.data) w1.payload.bytes rx) := by
  cases c with
  | ACK =>
    left
    simp only [irq, i2c_ack] at h
    split at h <;> (try split_ifs at h) <;> (try cases h) <;>
      first
      | exact absurd rfl hne
      | exact ⟨rfl, _, rfl⟩
  | NACK =>
    simp only [irq, i2c_nack] at h
    split at h <;> (try cases h)
    exact absurd rfl hne
  | RXDATAV rx =>
    right
    simp only [irq, i2c_rxdatav] at h
    split at h <;> (try split_ifs at h) <;> (try cases h) <;>
      exact ⟨rx, rfl, by simp [writeCMD, setMem]⟩
  | MSTOP =>
    simp only [irq, i2c_mstop, call_sleep_unblock_mode] at h
    split at h <;> (try cases h)
    split at h <;> (try cases h)
    rename_i heq
    split at heq <;> cases heq
    exact absurd rfl hne

theorem irqs_bytesInv (H : SleepRoutinesH) (is : List Irq) (w w1 : World)
    (hinv : bytesInv w.payload) (h : irqs H is w = .ok w1) :
    bytesInv w1.payload ∧ w1.payload.bytes ≤ w.payload.bytes := by
  induction is generalizing w with
  | nil =>
    simp only [irqs] at h
    cases h
    exact ⟨hinv, le_refl _⟩
  | cons c cs ih =>
    simp only [irqs] at h
    cases hc : irq H c w with
    | error e => rw [hc] at h; cases h
    | ok w2 =>
      rw [hc] at h
      have h1 := irq_bytes_step H c w w2 hinv hc
      have h2 := ih w2 h1.1 h
      refine ⟨h2.1, ?_⟩
      rcases h1.2 with e | e <;> omega

theorem i2c_start_bytesInv (H : SleepRoutinesH) (w w1 : World)
    (i2c device_address device_register data : Nat) (bytes : Int) (read : Bool)
    (event : Nat) (h1 : 1 ≤ bytes) (h31 : bytes < 2147483648)
    (h : i2c_start H i2c device_address device_register data bytes read event w = .ok w1) :
    bytesInv w1.payload ∧ w1.payload.bytes = bytes := by
  rw [i2c_start_payload H w w1 _ _ _ _ _ _ _ h]
  refine ⟨⟨?_, h31, rfl, h1⟩, rfl⟩
  show 0 ≤ bytes
  omega

/-- C20: after `i2c_start` with a byte count of at least one, the state reached by any
run of interrupts that hits no fatal assertion has a remaining byte count that is not
negative and not above the byte count passed to `i2c_start`, and any further interrupt
that hits no fatal assertion leaves the count unchanged or decreases it by exactly one,
again to a non-negative value; the count changes only in a step that transfers a data
byte (an ACK that writes a byte to TXDATA, or an RXDATAV that stores the received byte
in the data word). -/
theorem C20_remaining_bytes (H : SleepRoutinesH) (w0 w1 w2 : World)
    (i2c device_address device_register data : Nat) (bytes : Int) (read : Bool)
    (event : Nat) (pre : List Irq) (c : Irq)
    (hn1 : 1 ≤ bytes) (hn31 : bytes < 2147483648)
    (hrun : transfer H i2c device_address device_register data bytes read event pre w0
      = .ok w1)
    (hstep : irq H c w1 = .ok w2) :
    0 ≤ w1.payload.bytes ∧ w1.payload.bytes ≤ bytes ∧
    (w2.payload.bytes = w1.payload.bytes ∨ w2.payload.bytes = w1.payload.bytes - 1) ∧
    0 ≤ w2.payload.bytes ∧
    (w2.payload.bytes ≠ w1.payload.bytes →
      (c = Irq.ACK ∧ ∃ v, w2.regs = w1.regs ++ [RegWrite.TXDATA w1.payload.i2c v]) ∨
      (∃ rx, c = Irq.RXDATAV rx ∧
        w2.mem w1.payload.data =
          rxStore (w1.mem w1.payload.data) w2.payload.bytes rx)) := by
  obtain ⟨ws, hstart, hirqs⟩ := transfer_elim H w0 w1 _ _ _ _ _ _ _ _ hrun
  have hs := i2c_start_bytesInv H w0 ws _ _ _ _ _ _ _ hn1 hn31 hstart
  have h1 := irqs_bytesInv H pre ws w1 hs.1 hirqs
  have h2 := irq_bytes_step H c w1 w2 h1.1 hstep
  refine ⟨h1.1.1, ?_, h2.2, h2.1.1, irq_bytes_changed H c w1 w2 hstep⟩
  rw [← hs.2]
  exact h1.2

/-- Witness of C20: the second received byte of the two-byte read of register `0xF3`. -/
theorem C20_remaining_bytes_witness :
    0 ≤ (dataPhaseWorldAfter 1).payload.bytes ∧
    (dataPhaseWorldAfter 1).payload.bytes ≤ 2 ∧
    ((dataPhaseWorldAfter 2).payload.bytes = (dataPhaseWorldAfter 1).payload.bytes ∨
      (dataPhaseWorldAfter 2).payload.bytes = (dataPhaseWorldAfter 1).payload.bytes - 1) ∧
    0 ≤ (dataPhaseWorldAfter 2).payload.bytes ∧
    ((dataPhaseWorldAfter 2).payload.bytes ≠ (dataPhaseWorldAfter 1).payload.bytes →
      (Irq.RXDATAV 0x1A = Irq.ACK ∧
        ∃ v, (dataPhaseWorldAfter 2).regs =
          (dataPhaseWorldAfter 1).regs ++
            [RegWrite.TXDATA (dataPhaseWorldAfter 1).payload.i2c v]) ∨
      (∃ rx, Irq.RXDATAV 0x1A = Irq.RXDATAV rx ∧
        (dataPhaseWorldAfter 2).mem (dataPhaseWorldAfter 1).payload.data =
          rxStore ((dataPhaseWorldAfter 1).mem (dataPhaseWorldAfter 1).payload.data)
            (dataPhaseWorldAfter 2).payload.bytes rx)) :=
  C20_remaining_bytes specH (bootWorld 0 0) (dataPhaseWorldAfter 1) (dataPhaseWorldAfter 2)
    0 0x40 0xF3 100 2 true 8 [Irq.ACK, Irq.ACK, Irq.ACK, Irq.RXDATAV 0x66]
    (Irq.RXDATAV 0x1A) (by decide) (by decide) rfl rfl

/-! ## i2c.c: the order of the phases and the busy flag -/

theorem wrap32s_pred_ne (b : Int) : wrap32s (b - 1) ≠ b := by
  unfold wrap32s
  omega

theorem irq_phase_step (H : SleepRoutinesH) (c : Irq) (w w1 : World)
    (h : irq H c w = .ok w1) :
    phaseRank w.payload.state ≤ phaseRank w1.payload.state ∧
    (w1.payload.state = w.payload.state → w1.payload.bytes = w.payload.bytes →
      w1.regs ≠ w.regs →
      c = Irq.NACK ∧ w.payload.state = .request_data ∧
      w1.regs = w.regs ++
        [RegWrite.CMD w.payload.i2c I2C_CMD.START,
         RegWrite.TXDATA w.payload.i2c (I2C_ADDR_R w.payload.device_address)]) := by
  cases c with
  | ACK =>
    simp only [irq, i2c_ack] at h
    split at h
    · rename_i hs
      cases h
      simp [hs, phaseRank, writeTXDATA]
    · rename_i hs
      split_ifs at h
      · cases h
        simp [hs, phaseRank, writeTXDATA, writeCMD]
      · cases h
        simp [hs, phaseRank, writeTXDATA]
    · rename_i hs
      cases h
      simp [hs, phaseRank]
    · rename_i hs
      split_ifs at h
      · cases h
        refine ⟨by simp [writeTXDATA], ?_⟩
        intro _ hb
        exact absurd hb (by simpa [writeTXDATA] using wrap32s_pred_ne _)
      · cases h
        simp [hs, phaseRank, writeCMD]
    · cases h
  | NACK =>
    simp only [irq, i2c_nack] at h
    split at h <;> (try cases h)
    rename_i hs
    simp [hs, phaseRank, writeTXDATA, writeCMD]
  | RXDATAV rx =>
    simp only [irq, i2c_rxdatav] at h
    split at h <;> (try cases h)
    rename_i hs
    split_ifs at h
    · cases h
      refine ⟨by simp [writeCMD], ?_⟩
      intro _ hb
      exact absurd hb (by simpa [writeCMD] using wrap32s_pred_ne _)
    · cases h
      simp [hs, phaseRank, writeCMD]
    · cases h
      refine ⟨by simp, ?_⟩
      intro _ hb
      exact absurd hb (by simpa using wrap32s_pred_ne _)
  | MSTOP =>
    simp only [irq, i2c_mstop, call_sleep_unblock_mode] at h
    split at h <;> (try cases h)
    rename_i hs
    split at h <;> (try cases h)
    rename_i heq
    split at heq <;> cases heq
    simp [hs, phaseRank, call_add_scheduled_event]

/-- C21: with the phases ordered as in `eI2C_States` (`start`, `master_cmd`,
`request_data`, `handle_data`, `stop`), every interrupt that hits no fatal assertion
leaves the phase unchanged or moves it to a later one; and an interrupt that leaves both
the phase and the remaining byte count unchanged while writing to the peripheral is the
NACK in `request_data`, which writes the START command and the read address again. -/
theorem C21_phases_only_advance (H : SleepRoutinesH) (c : Irq) (w w1 : World)
    (h : irq H c w = .ok w1) :
    (w1.payload.state = w.payload.state ∨
      phaseRank w.payload.state < phaseRank w1.payload.state) ∧
    (w1.payload.state = w.payload.state → w1.payload.bytes = w.payload.bytes →
      w1.regs ≠ w.regs →
      c = Irq.NACK ∧ w.payload.state = .request_data ∧
      w1.regs = w.regs ++
        [RegWrite.CMD w.payload.i2c I2C_CMD.START,
         RegWrite.TXDATA w.payload.i2c (I2C_ADDR_R w.payload.device_address)]) := by
  have hstep := irq_phase_step H c w w1 h
  refine ⟨?_, hstep.2⟩
  rcases Nat.lt_or_ge (phaseRank w.payload.state) (phaseRank w1.payload.state) with hlt | hge
  · exact Or.inr hlt
  · left
    have heq : phaseRank w1.payload.state = phaseRank w.payload.state :=
      Nat.le_antisymm hge hstep.1
    revert heq
    cases w1.payload.state <;> cases w.payload.state <;> simp [phaseRank]

/-- Witness of C21: the ACK that moves the two-byte read from `request_data` to
`handle_data`. -/
theorem C21_phases_only_advance_witness :
    (({ dataPhaseWorld 0 true 2 with regs := [] } : World).payload.state =
        ({ dataPhaseWorld 0 true 2 with
          payload := { (dataPhaseWorld 0 true 2).payload with state := .request_data } }
          : World).payload.state ∨
      phaseRank ({ dataPhaseWorld 0 true 2 with
          payload := { (dataPhaseWorld 0 true 2).payload with state := .request_data } }
          : World).payload.state <
        phaseRank ({ dataPhaseWorld 0 true 2 with regs := [] } : World).payload.state) ∧
    (({ dataPhaseWorld 0 true 2 with regs := [] } : World).payload.state =
        ({ dataPhaseWorld 0 true 2 with
          payload := { (dataPhaseWorld 0 true 2).payload with state := .request_data } }
          : World).payload.state →
      ({ dataPhaseWorld 0 true 2 with regs := [] } : World).payload.bytes =
        ({ dataPhaseWorld 0 true 2 with
          payload := { (dataPhaseWorld 0 true 2).payload with state := .request_data } }
          : World).payload.bytes →
      ({ dataPhaseWorld 0 true 2 with regs := [] } : World).regs ≠
        ({ dataPhaseWorld 0 true 2 with
          payload := { (dataPhaseWorld 0 true 2).payload with state := .request_data } }
          : World).regs →
      Irq.ACK = Irq.NACK ∧
      ({ dataPhaseWorld 0 true 2 with
          payload := { (dataPhaseWorld 0 true 2).payload with state := .request_data } }
          : World).payload.state = .request_data ∧
      ({ dataPhaseWorld 0 true 2 with regs := [] } : World).regs =
        ({ dataPhaseWorld 0 true 2 with
          payload := { (dataPhaseWorld 0 true 2).payload with state := .request_data } }
          : World).regs ++
        [RegWrite.CMD 0 I2C_CMD.START, RegWrite.TXDATA 0 (I2C_ADDR_R 0x40)]) :=
  C21_phases_only_advance specH Irq.ACK
    { dataPhaseWorld 0 true 2 with
      payload := { (dataPhaseWorld 0 true 2).payload with state := .request_data } }
    { dataPhaseWorld 0 true 2 with regs := [] } rfl

theorem irq_busy_keep (H : SleepRoutinesH) (c : Irq) (w : World) (hc : c ≠ Irq.MSTOP) :
    (finalWorld (irq H c w)).payload.busy = w.payload.busy := by
  cases c with
  | ACK =>
    simp only [irq, i2c_ack]
    split <;> (try split_ifs) <;> simp [finalWorld, writeTXDATA, writeCMD]
  | NACK =>
    simp only [irq, i2c_nack]
    split <;> simp [finalWorld, writeTXDATA, writeCMD]
  | RXDATAV rx =>
    simp only [irq, i2c_rxdatav]
    split <;> (try split_ifs) <;> simp [finalWorld, writeTXDATA, writeCMD]
  | MSTOP => exact absurd rfl hc

theorem irqs_busy_keep (H : SleepRoutinesH) (is : List Irq) (w : World)
    (hno : ∀ c ∈ is, c ≠ Irq.MSTOP) :
    (finalWorld (irqs H is w)).payload.busy = w.payload.busy := by
  induction is generalizing w with
  | nil => rfl
  | cons c cs ih =>
    have hc := irq_busy_keep H c w (hno c (List.mem_cons_self _ _))
    simp only [irqs]
    cases hr : irq H c w with
    | error e =>
      rw [hr] at hc
      exact hc
    | ok w2 =>
      rw [hr] at hc
      simp only
      rw [ih w2 (fun d hd => hno d (List.mem_cons_of_mem _ hd))]
      exact hc

theorem i2c_start_busy (H : SleepRoutinesH) (w : World)
    (i2c device_address device_register data : Nat) (bytes : Int) (read : Bool)
    (event : Nat) :
    (finalWorld
      (i2c_start H i2c device_address device_register data bytes read event w)).payload.busy
      = true := by
  by_cases hidle : (w.STATE i2c &&& I2C_STATE_STATE_MASK) = I2C_STATE_STATE_IDLE
  · cases hb : sleep_block_mode H (I2C_EM_BLOCK H) w.lowest_energy_mode with
    | error t =>
      cases read <;>
        simp [i2c_start, hidle, call_sleep_block_mode, hb, finalWorld]
    | ok t =>
      rw [i2c_start_ok H w i2c device_address device_register data bytes read event hidle t
        hb]
      rfl
  · cases read <;> simp [i2c_start, hidle, finalWorld]

theorem transfer_busy (H : SleepRoutinesH) (w : World)
    (i2c device_address device_register data : Nat) (bytes : Int) (read : Bool)
    (event : Nat) (is : List Irq) (hno : ∀ c ∈ is, c ≠ Irq.MSTOP) :
    (finalWorld
      (transfer H i2c device_address device_register data bytes read event is w)).payload.busy
      = true := by
  have hs := i2c_start_busy H w i2c device_address device_register data bytes read event
  unfold transfer
  cases hr : i2c_start H i2c device_address device_register data bytes read event w with
  | error e =>
    rw [hr] at hs
    exact hs
  | ok w1 =>
    rw [hr] at hs
    simp only
    rw [irqs_busy_keep H is w1 hno]
    exact hs

theorem irq_busy_cleared (H : SleepRoutinesH) (c : Irq) (w w1 : World)
    (h : irq H c w = .ok w1) (hb : w.payload.busy = true) (hb1 : w1.payload.busy = false) :
    c = Irq.MSTOP ∧ w.payload.state = .stop := by
  by_cases hc : c = Irq.MSTOP
  · subst hc
    refine ⟨rfl, ?_⟩
    simp only [irq, i2c_mstop] at h
    split at h <;> first | cases h | assumption
  · have hk := irq_busy_keep H c w hc
    rw [h] at hk
    simp only [finalWorld] at hk
    rw [hk, hb] at hb1
    cases hb1

/-- C22: after `i2c_start`, whatever its outcome, the busy flag is true at the end of
every run of ACK, NACK and RXDATAV interrupts, returned or halted in an assertion; an
interrupt that returns with busy cleared is the MSTOP serviced in `stop`; and the MSTOP
serviced in `stop`, when it returns, leaves busy false. -/
theorem C22_busy_until_mstop (H : SleepRoutinesH) (w0 : World)
    (i2c device_address device_register data : Nat) (bytes : Int) (read : Bool)
    (event : Nat) (is : List Irq) (hno : ∀ c ∈ is, c ≠ Irq.MSTOP) :
    (finalWorld
      (transfer H i2c device_address device_register data bytes read event is
        w0)).payload.busy = true ∧
    (∀ c w w1, irq H c w = .ok w1 → w.payload.busy = true → w1.payload.busy = false →
      c = Irq.MSTOP ∧ w.payload.state = .stop) ∧
    (∀ w w1, w.payload.state = .stop → irq H Irq.MSTOP w = .ok w1 →
      w1.payload.busy = false) := by
  refine ⟨transfer_busy H w0 _ _ _ _ _ _ _ is hno, irq_busy_cleared H, ?_⟩
  intro w w1 hs h
  simp only [irq, i2c_mstop, call_sleep_unblock_mode, hs] at h
  split at h <;> (try cases h)
  rfl

/-- Witness of C22: the two-byte read up to its last received byte. -/
theorem C22_busy_until_mstop_witness :
    (finalWorld
      (transfer specH 0 0x40 0xF3 100 2 true 8
        [Irq.ACK, Irq.ACK, Irq.NACK, Irq.ACK, Irq.RXDATAV 0x66, Irq.RXDATAV 0x1A]
        (bootWorld 0 0))).payload.busy = true ∧
    (∀ c w w1, irq specH c w = .ok w1 → w.payload.busy = true → w1.payload.busy = false →
      c = Irq.MSTOP ∧ w.payload.state = .stop) ∧
    (∀ w w1, w.payload.state = .stop → irq specH Irq.MSTOP w = .ok w1 →
      w1.payload.busy = false) :=
  C22_busy_until_mstop specH (bootWorld 0 0) 0 0x40 0xF3 100 2 true 8
    [Irq.ACK, Irq.ACK, Irq.NACK, Irq.ACK, Irq.RXDATAV 0x66, Irq.RXDATAV 0x1A]
    (by decide)

/-- C23 as stated fails: with a transfer started on `I2C0` in flight and none ever
started on `I2C1`, `i2c_busy(I2C1)` is true. -/
theorem C23_counterexample :
    ∃ w1,
      i2c_start specH I2C0 0x40 0xF3 100 2 true 8 (bootWorld 0 0) = .ok w1 ∧
      w1.payload.i2c = I2C0 ∧ I2C1 ≠ I2C0 ∧
      i2c_busy I2C1 w1 = true :=
  ⟨_, rfl, rfl, by decide, rfl⟩

/-- C23, amended: `i2c_busy(p)` is a query of the one static descriptor: it returns its
busy flag whatever the peripheral `p` is, so that it answers the same for every
peripheral; in particular it is true for every `p`, `I2C1` included, at the end of every
run of ACK, NACK and RXDATAV interrupts of a transfer started on any peripheral. -/
theorem C23_busy_ignores_peripheral (H : SleepRoutinesH) (w0 : World)
    (i2c device_address device_register data : Nat) (bytes : Int) (read : Bool)
    (event : Nat) (is : List Irq) (hno : ∀ c ∈ is, c ≠ Irq.MSTOP) (p : Nat) :
    (∀ w q, i2c_busy q w = w.payload.busy) ∧
    (∀ w q, i2c_busy q w = i2c_busy p w) ∧
    i2c_busy p
      (finalWorld
        (transfer H i2c device_address device_register data bytes read event is w0))
      = true :=
  ⟨fun _ _ => rfl, fun _ _ => rfl, transfer_busy H w0 _ _ _ _ _ _ _ is hno⟩

/-- Witness of C23: `i2c_busy(I2C1)` during a read started on `I2C0`. -/
theorem C23_busy_ignores_peripheral_witness :
    (∀ w q, i2c_busy q w = w.payload.busy) ∧
    (∀ w q, i2c_busy q w = i2c_busy I2C1 w) ∧
    i2c_busy I2C1
      (finalWorld
        (transfer specH I2C0 0x40 0xF3 100 2 true 8 [Irq.ACK, Irq.ACK] (bootWorld 0 0)))
      = true :=
  C23_busy_ignores_peripheral specH (bootWorld 0 0) I2C0 0x40 0xF3 100 2 true 8
    [Irq.ACK, Irq.ACK] (by decide) I2C1

/-- C24: at the end of every run of interrupts after `i2c_start` that hits no fatal
assertion, the peripheral handle, device address, register, data pointer, completion
event and direction flags of the descriptor are the arguments of that `i2c_start`;
exactly one of the read and write flags is true, so that in `master_cmd` the ACK handler
returns without reaching its assertion; and a further interrupt that returns changes none
of these fields. -/
theorem C24_descriptor_frame (H : SleepRoutinesH) (w0 w1 : World)
    (i2c device_address device_register data : Nat) (bytes : Int) (read : Bool)
    (event : Nat) (is : List Irq)
    (hrun : transfer H i2c device_address device_register data bytes read event is w0
      = .ok w1) :
    w1.payload.i2c = i2c ∧
    w1.payload.device_address = device_address ∧
    w1.payload.device_register = device_register ∧
    w1.payload.data = data ∧
    w1.payload.event = event ∧
    w1.payload.read = read ∧
    w1.payload.write = !read ∧
    ((w1.payload.read = true ∧ w1.payload.write = false) ∨
      (w1.payload.read = false ∧ w1.payload.write = true)) ∧
    (w1.payload.state = .master_cmd → ∃ w2, i2c_ack w1 = .ok w2) ∧
    (∀ c w2, irq H c w1 = .ok w2 →
      w2.payload.i2c = w1.payload.i2c ∧
      w2.payload.device_address = w1.payload.device_address ∧
      w2.payload.device_register = w1.payload.device_register ∧
      w2.payload.data = w1.payload.data ∧
      w2.payload.event = w1.payload.event ∧
      w2.payload.read = w1.payload.read ∧
      w2.payload.write = w1.payload.write) := by
  obtain ⟨ws, hstart, hirqs⟩ := transfer_elim H w0 w1 _ _ _ _ _ _ _ _ hrun
  have hp := i2c_start_payload H w0 ws _ _ _ _ _ _ _ hstart
  have hf := irqs_frame H is ws w1 hirqs
  rw [hp] at hf
  simp only at hf
  obtain ⟨f1, f2, f3, f4, f5, f6, f7⟩ := hf
  refine ⟨f1, f2, f3, f4, f5, f6, f7, ?_, ?_, fun c w2 h => irq_frame H c w1 w2 h⟩
  · rw [f6, f7]
    cases read <;> simp
  · intro hs
    cases hr : read with
    | true =>
      rw [hr] at f6
      simp [i2c_ack, hs, f6]
    | false =>
      rw [hr] at f6 f7
      simp [i2c_ack, hs, f6, f7]

/-- Witness of C24: the two-byte read of register `0xF3` after its register phase. -/
theorem C24_descriptor_frame_witness :
    (dataPhaseWorldAfter 0).payload.i2c = 0 ∧
    (dataPhaseWorldAfter 0).payload.device_address = 0x40 ∧
    (dataPhaseWorldAfter 0).payload.device_register = 0xF3 ∧
    (dataPhaseWorldAfter 0).payload.data = 100 ∧
    (dataPhaseWorldAfter 0).payload.event = 8 ∧
    (dataPhaseWorldAfter 0).payload.read = true ∧
    (dataPhaseWorldAfter 0).payload.write = !true ∧
    (((dataPhaseWorldAfter 0).payload.read = true ∧
        (dataPhaseWorldAfter 0).payload.write = false) ∨
      ((dataPhaseWorldAfter 0).payload.read = false ∧
        (dataPhaseWorldAfter 0).payload.write = true)) ∧
    ((dataPhaseWorldAfter 0).payload.state = .master_cmd →
      ∃ w2, i2c_ack (dataPhaseWorldAfter 0) = .ok w2) ∧
    (∀ c w2, irq specH c (dataPhaseWorldAfter 0) = .ok w2 →
      w2.payload.i2c = (dataPhaseWorldAfter 0).payload.i2c ∧
      w2.payload.device_address = (dataPhaseWorldAfter 0).payload.device_address ∧
      w2.payload.device_register = (dataPhaseWorldAfter 0).payload.device_register ∧
      w2.payload.data = (dataPhaseWorldAfter 0).payload.data ∧
      w2.payload.event = (dataPhaseWorldAfter 0).payload.event ∧
      w2.payload.read = (dataPhaseWorldAfter 0).payload.read ∧
      w2.payload.write = (dataPhaseWorldAfter 0).payload.write) :=
  C24_descriptor_frame specH (bootWorld 0 0) (dataPhaseWorldAfter 0) 0 0x40 0xF3 100 2 true
    8 [Irq.ACK, Irq.ACK, Irq.ACK] rfl

/-! ## sleep_routines.c: the scan of the hold table and the choice of the sleep mode -/

theorem current_block_energy_mode_loop_spec (H : SleepRoutinesH) (t : Nat → Int) :
    ∀ fuel i, H.MAX_ENERGY_MODES ≤ i + fuel →
      (current_block_energy_mode_loop H t fuel i < H.MAX_ENERGY_MODES ∧
        i ≤ current_block_energy_mode_loop H t fuel i ∧
        t (current_block_energy_mode_loop H t fuel i) ≠ 0 ∧
        ∀ j, i ≤ j → j < current_block_energy_mode_loop H t fuel i → t j = 0) ∨
      ((∀ j, i ≤ j → j < H.MAX_ENERGY_MODES → t j = 0) ∧
        current_block_energy_mode_loop H t fuel i = H.MAX_ENERGY_MODES - 1) := by
  intro fuel
  induction fuel with
  | zero =>
    intro i hi
    right
    refine ⟨?_, rfl⟩
    intro j h1 h2
    omega
  | succ n ih =>
    intro i hi
    simp only [current_block_energy_mode_loop]
    by_cases hlt : i < H.MAX_ENERGY_MODES
    · by_cases hti : t i ≠ 0
      · left
        rw [if_pos hlt, if_pos hti]
        refine ⟨hlt, le_refl _, hti, ?_⟩
        intro j h1 h2
        omega
      · have hz : t i = 0 := by
          by_contra hne
          exact hti hne
        rw [if_pos hlt, if_neg hti]
        rcases ih (i + 1) (by omega) with ⟨a, b, c, d⟩ | ⟨a, b⟩
        · left
          refine ⟨a, by omega, c, ?_⟩
          intro j h1 h2
          by_cases hj : j = i
          · rw [hj]; exact hz
          · exact d j (by omega) h2
        · right
          refine ⟨?_, b⟩
          intro j h1 h2
          by_cases hj : j = i
          · rw [hj]; exact hz
          · exact a j (by omega) h2
    · right
      rw [if_neg hlt]
      refine ⟨?_, rfl⟩
      intro j h1 h2
      omega

theorem current_block_energy_mode_spec (H : SleepRoutinesH) (t : Nat → Int) :
    (current_block_energy_mode H t < H.MAX_ENERGY_MODES ∧
      t (current_block_energy_mode H t) ≠ 0 ∧
      ∀ j, j < current_block_energy_mode H t → t j = 0) ∨
    ((∀ j, j < H.MAX_ENERGY_MODES → t j = 0) ∧
      current_block_energy_mode H t = H.MAX_ENERGY_MODES - 1) := by
  rcases current_block_energy_mode_loop_spec H t H.MAX_ENERGY_MODES 0 (by omega) with
    ⟨a, _, c, d⟩ | ⟨a, b⟩
  · left
    exact ⟨a, c, fun j hj => d j (Nat.zero_le _) hj⟩
  · right
    exact ⟨fun j hj => a j (Nat.zero_le _) hj, b⟩

/-- C25 as stated fails: on the table left by `sleep_open`, where the counter of the
shallowest level is zero, `current_block_energy_mode` returns the deepest level 4; and
with one hold on level 0 alone it returns level 0, whose counter is not zero. -/
theorem C25_counterexample :
    sleep_open (fun _ => 0) 0 = 0 ∧
    current_block_energy_mode specH (sleep_open (fun _ => 0)) = 4 ∧
    setEntry (sleep_open (fun _ => 0)) 0 1 0 ≠ 0 ∧
    setEntry (sleep_open (fun _ => 0)) 0 1 1 = 0 ∧
    current_block_energy_mode specH (setEntry (sleep_open (fun _ => 0)) 0 1) = 0 := by
  refine ⟨by decide, by decide, by decide, by decide, by decide⟩

/-- C25, amended: `current_block_energy_mode` scans the hold table from the shallowest
level to the deepest and returns the first level whose hold counter is not zero: the
level `k` below `MAX_ENERGY_MODES` with a non-zero counter and only zero counters before
it. If every counter below `MAX_ENERGY_MODES` is zero it returns the deepest level,
`MAX_ENERGY_MODES - 1`. -/
theorem C25_first_held_level (H : SleepRoutinesH) (t : Nat → Int) :
    (∀ k, k < H.MAX_ENERGY_MODES → t k ≠ 0 → (∀ j, j < k → t j = 0) →
      current_block_energy_mode H t = k) ∧
    ((∀ j, j < H.MAX_ENERGY_MODES → t j = 0) →
      current_block_energy_mode H t = H.MAX_ENERGY_MODES - 1) := by
  constructor
  · intro k hk hne hbefore
    rcases current_block_energy_mode_spec H t with ⟨a, c, d⟩ | ⟨a, _⟩
    · rcases Nat.lt_trichotomy (current_block_energy_mode H t) k with h | h | h
      · exact absurd (hbefore _ h) c
      · exact h
      · exact absurd (d k h) hne
    · exact absurd (a k hk) hne
  · intro hall
    rcases current_block_energy_mode_spec H t with ⟨a, c, _⟩ | ⟨_, b⟩
    · exact absurd (hall _ a) c
    · exact b

/-- Witness of C25: two holds on EM2 and one on EM3, and the table left by
`sleep_open`. -/
theorem C25_first_held_level_witness :
    current_block_energy_mode specH
        (setEntry (setEntry (sleep_open (fun _ => 0)) 2 2) 3 1) = 2 ∧
    current_block_energy_mode specH (sleep_open (fun _ => 0)) =
      specH.MAX_ENERGY_MODES - 1 :=
  ⟨(C25_first_held_level specH (setEntry (setEntry (sleep_open (fun _ => 0)) 2 2) 3 1)).1
      2 (by decide) (by decide) (by decide),
   (C25_first_held_level specH (sleep_open (fun _ => 0))).2 (by decide)⟩

/-- C26: when some entry of the hold table below `MAX_ENERGY_MODES` is not zero,
`current_block_energy_mode` returns the smallest index with a non-zero entry; when every
entry is zero it returns `MAX_ENERGY_MODES - 1`. It is a function of the table alone and
returns nothing but the index. -/
theorem C26_smallest_nonzero_index (H : SleepRoutinesH) (t : Nat → Int) :
    ((∃ i, i < H.MAX_ENERGY_MODES ∧ t i ≠ 0) →
      current_block_energy_mode H t < H.MAX_ENERGY_MODES ∧
      t (current_block_energy_mode H t) ≠ 0 ∧
      ∀ i, i < H.MAX_ENERGY_MODES → t i ≠ 0 → current_block_energy_mode H t ≤ i) ∧
    ((∀ i, i < H.MAX_ENERGY_MODES → t i = 0) →
      current_block_energy_mode H t = H.MAX_ENERGY_MODES - 1) := by
  constructor
  · rintro ⟨i, hi, hne⟩
    rcases current_block_energy_mode_spec H t with ⟨a, c, d⟩ | ⟨a, _⟩
    · refine ⟨a, c, ?_⟩
      intro j _ hj
      by_contra hlt
      exact hj (d j (by omega))
    · exact absurd (a i hi) hne
  · intro hall
    rcases current_block_energy_mode_spec H t with ⟨a, c, _⟩ | ⟨_, b⟩
    · exact absurd (hall _ a) c
    · exact b

/-- Witness of C26: holds on EM3 and EM1, and the table left by `sleep_open`. -/
theorem C26_smallest_nonzero_index_witness :
    (current_block_energy_mode specH
        (setEntry (setEntry (sleep_open (fun _ => 0)) 3 1) 1 1) < specH.MAX_ENERGY_MODES ∧
      setEntry (setEntry (sleep_open (fun _ => 0)) 3 1) 1 1
        (current_block_energy_mode specH
          (setEntry (setEntry (sleep_open (fun _ => 0)) 3 1) 1 1)) ≠ 0 ∧
      ∀ i, i < specH.MAX_ENERGY_MODES →
        setEntry (setEntry (sleep_open (fun _ => 0)) 3 1) 1 1 i ≠ 0 →
        current_block_energy_mode specH
          (setEntry (setEntry (sleep_open (fun _ => 0)) 3 1) 1 1) ≤ i) ∧
    current_block_energy_mode specH (sleep_open (fun _ => 0)) =
      specH.MAX_ENERGY_MODES - 1 :=
  ⟨(C26_smallest_nonzero_index specH
      (setEntry (setEntry (sleep_open (fun _ => 0)) 3 1) 1 1)).1 ⟨1, by decide, by decide⟩,
   (C26_smallest_nonzero_index specH (sleep_open (fun _ => 0))).2 (by decide)⟩

/-- C27: for a hold table without negative entries, `enter_sleep` enters no sleep mode
when EM0 or EM1 is held, EM1 when EM2 is the shallowest held mode, EM2 when EM3 is the
shallowest held mode, and EM3 otherwise; so it enters EMk only when the entries of EM0
to EMk are all zero, and then EMk is the deepest such mode short of EM4. -/
theorem C27_enter_sleep_mode (H : SleepRoutinesH) (t : Nat → Int)
    (hnn : ∀ i, 0 ≤ t i) :
    enter_sleep H t =
      (if t H.EM0 ≠ 0 ∨ t H.EM1 ≠ 0 then EMU_Call.stay
       else if t H.EM2 ≠ 0 then EMU_Call.EnterEM1
       else if t H.EM3 ≠ 0 then EMU_Call.EnterEM2
       else EMU_Call.EnterEM3) ∧
    (enter_sleep H t = EMU_Call.EnterEM1 →
      t H.EM0 = 0 ∧ t H.EM1 = 0 ∧ t H.EM2 ≠ 0) ∧
    (enter_sleep H t = EMU_Call.EnterEM2 →
      t H.EM0 = 0 ∧ t H.EM1 = 0 ∧ t H.EM2 = 0 ∧ t H.EM3 ≠ 0) ∧
    (enter_sleep H t = EMU_Call.EnterEM3 →
      t H.EM0 = 0 ∧ t H.EM1 = 0 ∧ t H.EM2 = 0 ∧ t H.EM3 = 0) := by
  have h0 := hnn H.EM0
  have h1 := hnn H.EM1
  have h2 := hnn H.EM2
  have h3 := hnn H.EM3
  have e0 : t H.EM0 > 0 ↔ t H.EM0 ≠ 0 := by omega
  have e1 : t H.EM1 > 0 ↔ t H.EM1 ≠ 0 := by omega
  have e2 : t H.EM2 > 0 ↔ t H.EM2 ≠ 0 := by omega
  have e3 : t H.EM3 > 0 ↔ t H.EM3 ≠ 0 := by omega
  simp only [enter_sleep, e0, e1, e2, e3]
  by_cases a0 : t H.EM0 = 0 <;> by_cases a1 : t H.EM1 = 0 <;>
    by_cases a2 : t H.EM2 = 0 <;> by_cases a3 : t H.EM3 = 0 <;>
    simp [a0, a1, a2, a3]

/-- Witness of C27: one hold on EM2 and two on EM4. -/
theorem C27_enter_sleep_mode_witness :
    enter_sleep specH (setEntry (setEntry (sleep_open (fun _ => 0)) 2 1) 4 2) =
      EMU_Call.EnterEM1 :=
  (C27_enter_sleep_mode specH (setEntry (setEntry (sleep_open (fun _ => 0)) 2 1) 4 2)
    (by
      intro i
      simp only [setEntry, sleep_open_apply]
      split_ifs <;> decide)).1.trans (by decide)

/-! ## ble.c: the circular buffer as a queue of strings -/

theorem and_63 (x : Nat) : x &&& 63 = x % 64 := by
  have h := Nat.and_pow_two_sub_one_eq_mod x 6
  norm_num at h
  exact h

theorem byteAt_append_left (l l' : List Nat) (n : Nat) (h : n < l.length) :
    byteAt (l ++ l') n = byteAt l n := by
  induction l generalizing n with
  | nil => simp at h
  | cons x xs ih =>
    cases n with
    | zero => rfl
    | succ k =>
      show byteAt (xs ++ l') k = byteAt xs k
      exact ih k (by simpa using h)

theorem byteAt_append_right (l l' : List Nat) (n : Nat) (h : l.length ≤ n) :
    byteAt (l ++ l') n = byteAt l' (n - l.length) := by
  induction l generalizing n with
  | nil => simp
  | cons x xs ih =>
    cases n with
    | zero => simp at h
    | succ k =>
      have e : k + 1 - (x :: xs).length = k - xs.length := by
        simp only [List.length_cons]
        omega
      rw [e]
      show byteAt (xs ++ l') k = byteAt l' (k - xs.length)
      exact ih k (by simpa using h)

theorem wire_append (q : List (List Nat)) (x : List Nat) :
    wire (q ++ [x]) = wire q ++ ((x.length + 1) :: x) := by
  induction q with
  | nil => simp [wire]
  | cons y ys ih => simp [wire, ih]

theorem wire_length (q : List (List Nat)) :
    (wire q).length = (q.map (fun x => x.length + 1)).sum := by
  induction q with
  | nil => rfl
  | cons y ys ih =>
    simp only [wire, List.length_cons, List.length_append, List.map_cons, List.sum_cons, ih]
    omega

theorem ble_circ_space_of_holds (b : BLE_CIRCULAR_BUF) (q : List (List Nat))
    (h : Holds b q) : ble_circ_space b = 64 - (wire q).length := by
  obtain ⟨hs, hm, hr, hl, hw, _⟩ := h
  simp only [ble_circ_space, sub32, hs, hm, hw, and_63]
  omega

theorem ble_circ_push_loop_spec (l : List Nat) :
    ∀ b : BLE_CIRCULAR_BUF, b.size_mask = 63 → b.write_ptr < 64 → l.length ≤ 64 →
      (ble_circ_push_loop b l).size_mask = 63 ∧
      (ble_circ_push_loop b l).size = b.size ∧
      (ble_circ_push_loop b l).read_ptr = b.read_ptr ∧
      (ble_circ_push_loop b l).write_ptr = (b.write_ptr + l.length) % 64 ∧
      (∀ j, j < l.length →
        (ble_circ_push_loop b l).cbuf ((b.write_ptr + j) % 64) = byteAt l j) ∧
      (∀ x, (∀ j, j < l.length → x ≠ (b.write_ptr + j) % 64) →
        (ble_circ_push_loop b l).cbuf x = b.cbuf x) := by
  induction l with
  | nil =>
    intro b hm hw _
    refine ⟨hm, rfl, rfl, ?_, ?_, ?_⟩
    · simp only [ble_circ_push_loop, List.length_nil]
      omega
    · intro j hj
      simp at hj
    · intro x _
      rfl
  | cons c cs ih =>
    intro b hm hw hlen
    simp only [List.length_cons] at hlen
    have hwp1 : (update_circ_wrtindex
        { b with cbuf := setByte b.cbuf b.write_ptr c } 1).write_ptr
        = (b.write_ptr + 1) % 64 := by
      simp only [update_circ_wrtindex, hm, and_63]
      omega
    obtain ⟨i1, i2, i3, i4, i5, i6⟩ :=
      ih (update_circ_wrtindex { b with cbuf := setByte b.cbuf b.write_ptr c } 1)
        hm (by rw [hwp1]; omega) (by omega)
    rw [hwp1] at i4 i5 i6
    simp only [ble_circ_push_loop, List.length_cons]
    refine ⟨i1, i2, i3, ?_, ?_, ?_⟩
    · rw [i4]
      omega
    · intro j hj
      cases j with
      | zero =>
        have hx : ∀ k, k < cs.length → b.write_ptr ≠ ((b.write_ptr + 1) % 64 + k) % 64 := by
          intro k hk
          omega
        have e : (b.write_ptr + 0) % 64 = b.write_ptr := by omega
        rw [e, i6 b.write_ptr hx]
        simp [update_circ_wrtindex, setByte, byteAt]
      | succ k =>
        have e : (b.write_ptr + (k + 1)) % 64 = ((b.write_ptr + 1) % 64 + k) % 64 := by
          omega
        rw [e, i5 k (by omega)]
        rfl
    · intro x hx
      have hx0 : x ≠ b.write_ptr := by
        have := hx 0 (by omega)
        omega
      rw [i6 x (by
        intro k hk
        have := hx (k + 1) (by omega)
        omega)]
      simp [update_circ_wrtindex, setByte, hx0]

theorem ble_circ_push_eq (s : BleState) (q : List (List Nat)) (x : List Nat)
    (h : Holds s.ble_cbuf q) (hfit : (wire q).length + x.length + 1 ≤ 64) :
    ble_circ_push x s =
      .ok { s with ble_cbuf := ble_circ_push_loop s.ble_cbuf ((x.length + 1) :: x) } := by
  have hsp := ble_circ_space_of_holds s.ble_cbuf q h
  have hw1 : wrap32s (x.length : Int) = x.length := wrap32s_of_range _ (by omega) (by omega)
  have hw2 : wrap32s ((x.length : Int) + 1) = (x.length : Int) + 1 :=
    wrap32s_of_range _ (by omega) (by omega)
  have hsp2 : ((ble_circ_space s.ble_cbuf : Nat) : Int) = 64 - ((wire q).length : Int) := by
    rw [hsp]
    omega
  have hnot : ¬ ((x.length : Int) + 1 > 64 - ((wire q).length : Int)) := by omega
  have hhdr : (((x.length : Int) + 1) % 256).toNat = x.length + 1 := by omega
  simp only [ble_circ_push, hw1, hw2, hsp2, hnot, if_false, hhdr, ble_circ_push_loop]

theorem ble_circ_push_holds (s : BleState) (q : List (List Nat)) (x : List Nat)
    (h : Holds s.ble_cbuf q) (hfit : (wire q).length + x.length + 1 < 64) :
    Holds (ble_circ_push_loop s.ble_cbuf ((x.length + 1) :: x)) (q ++ [x]) := by
  obtain ⟨hs, hm, hr, hl, hw, hd⟩ := h
  have hwlt : s.ble_cbuf.write_ptr < 64 := by rw [hw]; omega
  obtain ⟨i1, i2, i3, i4, i5, i6⟩ :=
    ble_circ_push_loop_spec ((x.length + 1) :: x) s.ble_cbuf hm hwlt
      (by simp only [List.length_cons]; omega)
  simp only [List.length_cons] at i4 i5 i6
  have hlen : (wire (q ++ [x])).length = (wire q).length + (x.length + 1) := by
    rw [wire_append, List.length_append, List.length_cons]
  refine ⟨by rw [i2, hs], i1, by rw [i3]; exact hr, by rw [hlen]; omega, ?_, ?_⟩
  · rw [i4, i3, hlen, hw]
    omega
  · intro j hj
    rw [hlen] at hj
    rw [i3, wire_append]
    by_cases hjl : j < (wire q).length
    · rw [byteAt_append_left _ _ _ hjl, ← hd j hjl]
      apply i6
      intro k hk
      rw [hw]
      omega
    · have e : (s.ble_cbuf.read_ptr + j) % 64 =
          (s.ble_cbuf.write_ptr + (j - (wire q).length)) % 64 := by
        rw [hw]
        omega
      rw [byteAt_append_right _ _ _ (by omega), e]
      exact i5 _ (by omega)

theorem ble_circ_pop_loop_spec (n : Nat) :
    ∀ (i : Nat) (s : BleState), s.ble_cbuf.size_mask = 63 → s.ble_cbuf.read_ptr < 64 →
      (ble_circ_pop_loop n i s).ble_cbuf.cbuf = s.ble_cbuf.cbuf ∧
      (ble_circ_pop_loop n i s).ble_cbuf.size_mask = 63 ∧
      (ble_circ_pop_loop n i s).ble_cbuf.size = s.ble_cbuf.size ∧
      (ble_circ_pop_loop n i s).ble_cbuf.write_ptr = s.ble_cbuf.write_ptr ∧
      (ble_circ_pop_loop n i s).ble_cbuf.read_ptr = (s.ble_cbuf.read_ptr + n) % 64 ∧
      (ble_circ_pop_loop n i s).leuart_busy = s.leuart_busy ∧
      (ble_circ_pop_loop n i s).leuart_started = s.leuart_started ∧
      (∀ k, k < n →
        (ble_circ_pop_loop n i s).result_str ((i + k : Nat) : Int) =
          s.ble_cbuf.cbuf ((s.ble_cbuf.read_ptr + k) % 64)) ∧
      (∀ z : Int, (∀ k, k < n → z ≠ ((i + k : Nat) : Int)) →
        (ble_circ_pop_loop n i s).result_str z = s.result_str z) := by
  induction n with
  | zero =>
    intro i s hm hr
    refine ⟨rfl, hm, rfl, rfl, ?_, rfl, rfl, ?_, ?_⟩
    · simp only [ble_circ_pop_loop]
      omega
    · intro k hk
      omega
    · intro z _
      rfl
  | succ n ih =>
    intro i s hm hr
    have hrp1 : (update_circ_readindex s.ble_cbuf 1).read_ptr
        = (s.ble_cbuf.read_ptr + 1) % 64 := by
      simp only [update_circ_readindex, hm, and_63]
      omega
    obtain ⟨j1, j2, j3, j4, j5, j6, j7, j8, j9⟩ :=
      ih (i + 1)
        { s with
          result_str := setChar s.result_str i (s.ble_cbuf.cbuf s.ble_cbuf.read_ptr)
          ble_cbuf := update_circ_readindex s.ble_cbuf 1 }
        hm (by rw [hrp1]; omega)
    simp only [hrp1] at j5 j8
    simp only [ble_circ_pop_loop]
    refine ⟨j1, j2, j3, j4, ?_, j6, j7, ?_, ?_⟩
    · rw [j5]
      omega
    · intro k hk
      cases k with
      | zero =>
        have e : (s.ble_cbuf.read_ptr + 0) % 64 = s.ble_cbuf.read_ptr := by omega
        rw [e, j9 ((i + 0 : Nat) : Int) (by intro k _; omega)]
        simp [setChar]
      | succ m =>
        have e1 : ((i + (m + 1) : Nat) : Int) = ((i + 1 + m : Nat) : Int) := by omega
        have e2 : (s.ble_cbuf.read_ptr + (m + 1)) % 64 =
            ((s.ble_cbuf.read_ptr + 1) % 64 + m) % 64 := by omega
        rw [e1, e2, j8 m (by omega)]
        rfl
    · intro z hz
      have hz0 : z ≠ (i : Int) := by
        have := hz 0 (by omega)
        simpa using this
      rw [j9 z (by
        intro k hk
        have := hz (k + 1) (by omega)
        intro hc
        apply this
        rw [hc]
        omega)]
      simp [setChar, hz0]

theorem ble_circ_pop_eq (test : Bool) (s : BleState) (n : Nat)
    (hsp : ble_circ_space s.ble_cbuf ≠ CSIZE) (hb : s.leuart_busy = false)
    (hhdr : s.ble_cbuf.cbuf s.ble_cbuf.read_ptr = n + 1) :
    ble_circ_pop test s =
      (false,
        if test then
          { ble_circ_pop_loop n 0
              { s with ble_cbuf := update_circ_readindex s.ble_cbuf 1 } with
            result_str :=
              setChar
                (ble_circ_pop_loop n 0
                  { s with ble_cbuf := update_circ_readindex s.ble_cbuf 1 }).result_str
                n 0 }
        else
          { ble_circ_pop_loop n 0
              { s with ble_cbuf := update_circ_readindex s.ble_cbuf 1 } with
            result_str :=
              setChar
                (ble_circ_pop_loop n 0
                  { s with ble_cbuf := update_circ_readindex s.ble_cbuf 1 }).result_str
                n 0
            leuart_busy := true
            leuart_started :=
              (ble_circ_pop_loop n 0
                { s with ble_cbuf := update_circ_readindex s.ble_cbuf 1 }).leuart_started ++
              [c_str
                (setChar
                  (ble_circ_pop_loop n 0
                    { s with ble_cbuf := update_circ_readindex s.ble_cbuf 1 }).result_str
                  n 0) 64 0] }) := by
  have hlen : (((n + 1 : Nat) : Int) - 1) = (n : Int) := by omega
  have hnat : (((n + 1 : Nat) : Int) - 1).toNat = n := by omega
  cases test <;>
    simp [ble_circ_pop, hsp, hb, hhdr, hlen, hnat]

theorem wire_cons_length (x : List Nat) (q : List (List Nat)) :
    (wire (x :: q)).length = x.length + 1 + (wire q).length := by
  simp only [wire, List.length_cons, List.length_append]
  omega

theorem ble_circ_pop_holds (test : Bool) (s : BleState) (x : List Nat)
    (rest : List (List Nat)) (h : Holds s.ble_cbuf (x :: rest))
    (hb : s.leuart_busy = false) :
    (ble_circ_pop test s).1 = false ∧
    Holds (ble_circ_pop test s).2.ble_cbuf rest ∧
    (∀ k, k < x.length → (ble_circ_pop test s).2.result_str ((k : Nat) : Int) = byteAt x k) ∧
    (ble_circ_pop test s).2.result_str ((x.length : Nat) : Int) = 0 ∧
    (ble_circ_pop test s).2.ble_cbuf.cbuf = s.ble_cbuf.cbuf ∧
    (ble_circ_pop test s).2.ble_cbuf.write_ptr = s.ble_cbuf.write_ptr ∧
    (ble_circ_pop test s).2.ble_cbuf.read_ptr =
      (s.ble_cbuf.read_ptr + (x.length + 1)) % 64 ∧
    (test = true →
      (ble_circ_pop test s).2.leuart_busy = false ∧
      (ble_circ_pop test s).2.leuart_started = s.leuart_started) ∧
    (test = false →
      (ble_circ_pop test s).2.leuart_busy = true ∧
      (ble_circ_pop test s).2.leuart_started =
        s.leuart_started ++ [c_str (ble_circ_pop test s).2.result_str 64 0]) := by
  have hsp := ble_circ_space_of_holds s.ble_cbuf _ h
  obtain ⟨hs, hm, hr, hl, hw, hd⟩ := h
  have hwl := wire_cons_length x rest
  rw [hwl] at hl hw hsp
  have hspne : ble_circ_space s.ble_cbuf ≠ CSIZE := by
    rw [hsp]
    simp only [CSIZE]
    omega
  have hhdr : s.ble_cbuf.cbuf s.ble_cbuf.read_ptr = x.length + 1 := by
    have := hd 0 (by rw [hwl]; omega)
    have e : (s.ble_cbuf.read_ptr + 0) % 64 = s.ble_cbuf.read_ptr := by omega
    rw [e] at this
    rw [this]
    rfl
  have hrp1 : (update_circ_readindex s.ble_cbuf 1).read_ptr
      = (s.ble_cbuf.read_ptr + 1) % 64 := by
    simp only [update_circ_readindex, hm, and_63]
    omega
  obtain ⟨j1, j2, j3, j4, j5, j6, j7, j8, j9⟩ :=
    ble_circ_pop_loop_spec x.length 0
      { s with ble_cbuf := update_circ_readindex s.ble_cbuf 1 } hm (by rw [hrp1]; omega)
  simp only [hrp1] at j5 j8
  have hdata : ∀ k, k < x.length →
      setChar
        (ble_circ_pop_loop x.length 0
          { s with ble_cbuf := update_circ_readindex s.ble_cbuf 1 }).result_str
        ((x.length : Nat) : Int) 0 ((k : Nat) : Int) = byteAt x k := by
    intro k hk
    have hne : ((k : Nat) : Int) ≠ ((x.length : Nat) : Int) := by omega
    have e1 : ((s.ble_cbuf.read_ptr + 1) % 64 + k) % 64 =
        (s.ble_cbuf.read_ptr + (k + 1)) % 64 := by omega
    have e0 : ((k : Nat) : Int) = ((0 + k : Nat) : Int) := by omega
    simp only [setChar, hne, if_false]
    rw [e0, j8 k hk]
    show s.ble_cbuf.cbuf (((s.ble_cbuf.read_ptr + 1) % 64 + k) % 64) = byteAt x k
    rw [e1, hd (k + 1) (by rw [hwl]; omega)]
    show byteAt (x ++ wire rest) k = byteAt x k
    exact byteAt_append_left _ _ _ hk
  have hzero :
      setChar
        (ble_circ_pop_loop x.length 0
          { s with ble_cbuf := update_circ_readindex s.ble_cbuf 1 }).result_str
        ((x.length : Nat) : Int) 0 ((x.length : Nat) : Int) = 0 := by
    simp [setChar]
  have hholds : Holds
      (ble_circ_pop_loop x.length 0
        { s with ble_cbuf := update_circ_readindex s.ble_cbuf 1 }).ble_cbuf rest := by
    refine ⟨by rw [j3]; exact hs, j2, by rw [j5]; omega, by omega, ?_, ?_⟩
    · rw [j4, j5]
      show s.ble_cbuf.write_ptr = _
      rw [hw]
      omega
    · intro j hj
      rw [j1, j5]
      have e : (((s.ble_cbuf.read_ptr + 1) % 64 + x.length) % 64 + j) % 64 =
          (s.ble_cbuf.read_ptr + (x.length + 1 + j)) % 64 := by omega
      have e2 : x.length + 1 + j = (x.length + j) + 1 := by omega
      show s.ble_cbuf.cbuf _ = _
      rw [e, hd (x.length + 1 + j) (by rw [hwl]; omega), e2]
      show byteAt (x ++ wire rest) (x.length + j) = byteAt (wire rest) j
      rw [byteAt_append_right _ _ _ (by omega)]
      congr 1
      omega
  have hrp : (ble_circ_pop_loop x.length 0
      { s with ble_cbuf := update_circ_readindex s.ble_cbuf 1 }).ble_cbuf.read_ptr =
      (s.ble_cbuf.read_ptr + (x.length + 1)) % 64 := by
    rw [j5]
    omega
  rw [ble_circ_pop_eq test s x.length hspne hb hhdr]
  cases test with
  | true =>
    refine ⟨rfl, hholds, hdata, hzero, j1, j4, hrp, ?_, ?_⟩
    · intro _
      exact ⟨j6.trans hb, j7⟩
    · intro hc
      cases hc
  | false =>
    refine ⟨rfl, hholds, hdata, hzero, j1, j4, hrp, ?_, ?_⟩
    · intro hc
      cases hc
    · intro _
      refine ⟨rfl, ?_⟩
      show _ ++ _ = _ ++ _
      rw [j7]
      rfl

theorem c_str_spec (m : Int → Nat) (x : List Nat) :
    ∀ (fuel i : Nat), x.length < fuel → (∀ c ∈ x, c ≠ 0) →
      (∀ k, k < x.length → m ((i + k : Nat) : Int) = byteAt x k) →
      m ((i + x.length : Nat) : Int) = 0 → c_str m fuel i = x := by
  induction x with
  | nil =>
    intro fuel i hf _ _ h0
    cases fuel with
    | zero => simp at hf
    | succ f =>
      simp only [List.length_nil, Nat.add_zero] at h0
      simp [c_str, h0]
  | cons c cs ih =>
    intro fuel i hf hz hd h0
    cases fuel with
    | zero => simp at hf
    | succ f =>
      have hc : m ((i : Nat) : Int) = c := by
        have := hd 0 (by simp)
        simpa [byteAt] using this
      have hcne : c ≠ 0 := hz c (List.mem_cons_self _ _)
      have hrest := ih f (i + 1) (by simpa using hf)
        (fun d hd' => hz d (List.mem_cons_of_mem _ hd'))
        (by
          intro k hk
          have := hd (k + 1) (by simpa using hk)
          have e : ((i + 1 + k : Nat) : Int) = ((i + (k + 1) : Nat) : Int) := by omega
          rw [e, this]
          rfl)
        (by
          have e : ((i + 1 + cs.length : Nat) : Int) =
              ((i + (c :: cs).length : Nat) : Int) := by
            simp only [List.length_cons]
            omega
          rw [e]
          exact h0)
      simp only [c_str, hc, hcne, if_false, hrest]

theorem holds_init (b : BLE_CIRCULAR_BUF) : Holds (ble_circ_init b) [] := by
  refine ⟨rfl, rfl, Nat.zero_lt_succ _, Nat.zero_lt_succ _, rfl, ?_⟩
  intro j hj
  exact absurd hj (Nat.not_lt_zero j)

theorem pushAll_cons_ok (x : List Nat) (xs : List (List Nat)) (s s1 : BleState)
    (h : ble_circ_push x s = .ok s1) : pushAll (x :: xs) s = pushAll xs s1 := by
  have e : pushAll (x :: xs) s = (ble_circ_push x s).bind (pushAll xs) := rfl
  rw [e, h]
  rfl

theorem pushAll_holds (strs : List (List Nat)) :
    ∀ (s : BleState) (q : List (List Nat)), Holds s.ble_cbuf q →
      (wire q).length + (wire strs).length < 64 →
      ∃ s1, pushAll strs s = .ok s1 ∧ Holds s1.ble_cbuf (q ++ strs) ∧
        s1.leuart_busy = s.leuart_busy := by
  induction strs with
  | nil =>
    intro s q h _
    exact ⟨s, rfl, by simpa using h, rfl⟩
  | cons x xs ih =>
    intro s q h hfit
    rw [wire_cons_length] at hfit
    have hpush := ble_circ_push_eq s q x h (by omega)
    have hh := ble_circ_push_holds s q x h (by omega)
    have hlen : (wire (q ++ [x])).length = (wire q).length + (x.length + 1) := by
      rw [wire_append, List.length_append, List.length_cons]
    obtain ⟨s1, e1, e2, e3⟩ :=
      ih { s with ble_cbuf := ble_circ_push_loop s.ble_cbuf ((x.length + 1) :: x) }
        (q ++ [x]) hh (by rw [hlen]; omega)
    refine ⟨s1, ?_, ?_, e3⟩
    · rw [pushAll_cons_ok x xs s _ hpush]
      exact e1
    · have e : q ++ x :: xs = q ++ [x] ++ xs := by simp
      rw [e]
      exact e2

theorem popAll_holds (strs : List (List Nat)) :
    ∀ (s : BleState), Holds s.ble_cbuf strs → s.leuart_busy = false →
      (∀ x ∈ strs, ∀ c ∈ x, c ≠ 0) →
      (popAll true strs.length s).1 = strs.map (fun x => (false, x)) ∧
      Holds (popAll true strs.length s).2.ble_cbuf [] := by
  induction strs with
  | nil =>
    intro s h _ _
    exact ⟨rfl, h⟩
  | cons x xs ih =>
    intro s h hb hz
    have hxlen : x.length < 64 := by
      have := h.2.2.2.1
      rw [wire_cons_length] at this
      omega
    obtain ⟨p1, p2, p3, p4, _, _, _, p8, _⟩ := ble_circ_pop_holds true s x xs h hb
    have hstr : c_str (ble_circ_pop true s).2.result_str 64 0 = x :=
      c_str_spec _ x 64 0 hxlen (hz x (List.mem_cons_self _ _))
        (by
          intro k hk
          have e : ((0 + k : Nat) : Int) = ((k : Nat) : Int) := by omega
          rw [e]
          exact p3 k hk)
        (by
          have e : ((0 + x.length : Nat) : Int) = ((x.length : Nat) : Int) := by omega
          rw [e]
          exact p4)
    obtain ⟨r1, r2⟩ := ih (ble_circ_pop true s).2 p2 (p8 rfl).1
      (fun y hy => hz y (List.mem_cons_of_mem _ hy))
    simp only [List.length_cons, popAll, List.map_cons]
    refine ⟨?_, r2⟩
    rw [p1, hstr, r1]

/-- C28: for every sequence of zero-free strings whose packet lengths (length plus one)
add up to less than `CSIZE`, the pushes into the buffer left by `ble_circ_init` all
return, and as many calls of `ble_circ_pop(CIRC_TEST)` made with the LEUART not busy each
return false and leave in `result_str` the next pushed string, in push order, unchanged
and followed by a zero; after the last one `ble_circ_space()` is `CSIZE`. -/
theorem C28_push_pop_fifo (strs : List (List Nat)) (s0 : BleState)
    (hz : ∀ x ∈ strs, ∀ c ∈ x, c ≠ 0)
    (hlen : (strs.map (fun x => x.length + 1)).sum < CSIZE)
    (hb : s0.leuart_busy = false) :
    ∃ s1,
      pushAll strs { s0 with ble_cbuf := ble_circ_init s0.ble_cbuf } = .ok s1 ∧
      (popAll CIRC_TEST strs.length s1).1 = strs.map (fun x => (false, x)) ∧
      ble_circ_space (popAll CIRC_TEST strs.length s1).2.ble_cbuf = CSIZE := by
  rw [← wire_length] at hlen
  obtain ⟨s1, e1, e2, e3⟩ :=
    pushAll_holds strs { s0 with ble_cbuf := ble_circ_init s0.ble_cbuf } []
      (holds_init _) (by simpa [wire, CSIZE] using hlen)
  simp only [List.nil_append] at e2
  obtain ⟨r1, r2⟩ := popAll_holds strs s1 e2 (e3.trans hb) hz
  exact ⟨s1, e1, r1, ble_circ_space_of_holds _ [] r2⟩

/-- Witness of C28: the strings `"Hi"` and `"temp"` and the empty string. -/
theorem C28_push_pop_fifo_witness :
    ∃ s1,
      pushAll [[0x48, 0x69], [0x74, 0x65, 0x6D, 0x70], []]
        { bleBoot 0xFF 1000 with ble_cbuf := ble_circ_init (bleBoot 0xFF 1000).ble_cbuf }
        = .ok s1 ∧
      (popAll CIRC_TEST [[0x48, 0x69], [0x74, 0x65, 0x6D, 0x70], []].length s1).1 =
        [[0x48, 0x69], [0x74, 0x65, 0x6D, 0x70], []].map (fun x => (false, x)) ∧
      ble_circ_space
        (popAll CIRC_TEST [[0x48, 0x69], [0x74, 0x65, 0x6D, 0x70], []].length
          s1).2.ble_cbuf = CSIZE :=
  C28_push_pop_fifo [[0x48, 0x69], [0x74, 0x65, 0x6D, 0x70], []] (bleBoot 0xFF 1000)
    (by decide) (by decide) rfl

theorem ble_circ_push_lowers_space (s : BleState) (q : List (List Nat)) (x : List Nat)
    (h : Holds s.ble_cbuf q) (hfit : (wire q).length + x.length + 1 < 64) :
    ∃ s1, ble_circ_push x s = .ok s1 ∧
      ble_circ_space s1.ble_cbuf = ble_circ_space s.ble_cbuf - (x.length + 1) := by
  refine ⟨_, ble_circ_push_eq s q x h (by omega), ?_⟩
  have hh := ble_circ_push_holds s q x h hfit
  rw [ble_circ_space_of_holds _ _ hh, ble_circ_space_of_holds _ _ h, wire_append,
    List.length_append, List.length_cons]
  omega

set_option maxRecDepth 100000 in
/-- C29 at its failing input: the buffer left by `ble_circ_init` reports `CSIZE` free
characters; the push of a string of 63 characters, whose packet length is `CSIZE`, is
accepted; afterwards `ble_circ_space()` is still `CSIZE`, not zero, and `ble_circ_pop`
returns true without popping anything. -/
theorem C29_push_of_full_size_packet :
    ble_circ_space (bleInit 0 0).ble_cbuf = CSIZE ∧
    ∃ s1,
      ble_circ_push (List.replicate 63 0x41) (bleInit 0 0) = .ok s1 ∧
      ble_circ_space s1.ble_cbuf = CSIZE ∧
      s1.ble_cbuf.cbuf 0 = 64 ∧ s1.ble_cbuf.cbuf 63 = 0x41 ∧
      (ble_circ_pop CIRC_TEST s1).1 = true :=
  ⟨by decide, _, rfl, by decide, by decide, by decide, by decide⟩

/-- The value returned by `ble_circ_pop`: true exactly when `ble_circ_space()` is `CSIZE`
or the LEUART transmitter is busy, and the whole state is then as it was. When the buffer
holds a queue of pushed strings of fewer than `CSIZE` characters in all,
`ble_circ_space()` is `CSIZE` exactly when the queue is empty, and a call that returns
false has removed exactly the oldest packet: the read pointer has advanced by its header
and its characters, the write pointer and the buffer contents are unchanged, the rest of
the queue is still held, and the string is in `result_str` followed by a zero. -/
theorem ble_circ_pop_spec (test : Bool) (s : BleState) :
    ((ble_circ_pop test s).1 = true ↔
      (ble_circ_space s.ble_cbuf = CSIZE ∨ s.leuart_busy = true)) ∧
    ((ble_circ_pop test s).1 = true → (ble_circ_pop test s).2 = s) ∧
    (∀ q, Holds s.ble_cbuf q → (ble_circ_space s.ble_cbuf = CSIZE ↔ q = [])) ∧
    (∀ x rest, Holds s.ble_cbuf (x :: rest) → (ble_circ_pop test s).1 = false →
      Holds (ble_circ_pop test s).2.ble_cbuf rest ∧
      (ble_circ_pop test s).2.ble_cbuf.read_ptr =
        (s.ble_cbuf.read_ptr + (x.length + 1)) % 64 ∧
      (ble_circ_pop test s).2.ble_cbuf.write_ptr = s.ble_cbuf.write_ptr ∧
      (ble_circ_pop test s).2.ble_cbuf.cbuf = s.ble_cbuf.cbuf ∧
      (∀ k, k < x.length →
        (ble_circ_pop test s).2.result_str ((k : Nat) : Int) = byteAt x k) ∧
      (ble_circ_pop test s).2.result_str ((x.length : Nat) : Int) = 0) := by
  have hiff : (ble_circ_pop test s).1 = true ↔
      (ble_circ_space s.ble_cbuf = CSIZE ∨ s.leuart_busy = true) := by
    unfold ble_circ_pop
    by_cases h1 : ble_circ_space s.ble_cbuf = CSIZE
    · simp [h1]
    · cases h2 : s.leuart_busy <;> simp [h1]
  refine ⟨hiff, ?_, ?_, ?_⟩
  · intro hret
    unfold ble_circ_pop at hret ⊢
    by_cases h1 : ble_circ_space s.ble_cbuf = CSIZE
    · simp [h1]
    · cases h2 : s.leuart_busy
      · simp [h1, h2] at hret
      · simp [h1, h2]
  · intro q hq
    rw [ble_circ_space_of_holds _ _ hq]
    cases q with
    | nil => simp [wire, CSIZE]
    | cons x rest =>
      have hl := hq.2.2.2.1
      rw [wire_cons_length] at hl ⊢
      simp only [CSIZE]
      constructor
      · intro h
        omega
      · intro h
        cases h
  · intro x rest hq hret
    have hb : s.leuart_busy = false := by
      cases h2 : s.leuart_busy
      · rfl
      · have := hiff.mpr (Or.inr h2)
        rw [this] at hret
        cases hret
    obtain ⟨_, p2, p3, p4, p5, p6, p7, _, _⟩ := ble_circ_pop_holds test s x rest hq hb
    exact ⟨p2, p7, p6, p5, p3, p4⟩

set_option maxRecDepth 100000 in
/-- C30 at its failing input: after `ble_circ_init` and the push of a string of 63
characters the 64 characters of the buffer hold the packet (the header 64 and the 63
characters) and the LEUART is not busy, so that the buffer is not empty and a packet could
be popped; yet `ble_circ_pop` returns true and pops nothing: the read pointer stays at
the header and nothing is handed to the LEUART. -/
theorem C30_pop_on_full_buffer :
    ∃ s1,
      ble_circ_push (List.replicate 63 0x41) (bleInit 0 0) = .ok s1 ∧
      (List.range 64).map s1.ble_cbuf.cbuf = 64 :: List.replicate 63 0x41 ∧
      s1.ble_cbuf.read_ptr = 0 ∧ s1.ble_cbuf.write_ptr = 0 ∧
      s1.leuart_busy = false ∧
      (ble_circ_pop CIRC_OPER s1).1 = true ∧
      (ble_circ_pop CIRC_OPER s1).2.ble_cbuf.read_ptr = 0 ∧
      (ble_circ_pop CIRC_OPER s1).2.leuart_started = [] ∧
      (ble_circ_pop CIRC_OPER s1).2.leuart_busy = false :=
  ⟨_, rfl, by decide, by decide, by decide, by decide, by decide, by decide, by decide,
    by decide⟩

/-- C32: `scheduler_open` leaves the pending set empty, `get_scheduled_event()` returns
`0` after it, whatever the value of `event_scheduled` was before. -/
theorem C32_scheduler_open_clears (event_scheduled : Nat) :
    get_scheduled_event (scheduler_open event_scheduled) = 0 := by
  apply Nat.eq_of_testBit_eq
  intro i
  simp only [get_scheduled_event, scheduler_open, Nat.testBit_and, testBit_not32,
    testBit_mod32, Nat.zero_testBit]
  cases event_scheduled.testBit i <;> simp

theorem testBit_0x81 (i : Nat) : Nat.testBit 0x81 i = decide (i = 0 ∨ i = 7) := by
  rcases Nat.lt_or_ge i 8 with h | h
  · interval_cases i <;> decide
  · rw [Nat.testBit_lt_two_pow (lt_of_lt_of_le (by decide : 0x81 < 2 ^ 8)
      (Nat.pow_le_pow_right (by decide) h))]
    symm
    simp only [decide_eq_false_iff_not]
    omega

theorem testBit_0x80 (i : Nat) : Nat.testBit 0x80 i = decide (i = 7) := by
  rcases Nat.lt_or_ge i 8 with h | h
  · interval_cases i <;> decide
  · rw [Nat.testBit_lt_two_pow (lt_of_lt_of_le (by decide : 0x80 < 2 ^ 8)
      (Nat.pow_le_pow_right (by decide) h))]
    symm
    simp only [decide_eq_false_iff_not]
    omega

theorem testBit_resolution_write_data (read_data i : Nat) :
    (resolution_write_data read_data).testBit i =
      (decide (i = 7) || (decide (i < 32) && decide (i ≠ 0) && read_data.testBit i)) := by
  simp only [resolution_write_data, Si7021_RES_MASK, Si7021_RES_SET, Nat.testBit_or,
    Nat.testBit_and, testBit_not32, testBit_mod32, testBit_0x81, testBit_0x80]
  by_cases h7 : i = 7
  · subst h7
    simp
  · by_cases h0 : i = 0
    · subst h0
      simp
    · by_cases h32 : i < 32 <;> simp [h7, h0, h32]

/-- C36: for every value of the 32-bit `read_data`, the `write_data` computed by
`(read_data & ~Si7021_RES_MASK) | Si7021_RES_SET` has bit 7 set and bit 0 clear and agrees
with `read_data` on every other bit; from `Si7021_U1_DEFAULT` it gives `Si7021_TARGET_U1`;
and computing it again from its own result changes nothing. -/
theorem C36_resolution_update (read_data : Nat) :
    (resolution_write_data read_data).testBit 7 = true ∧
    (resolution_write_data read_data).testBit 0 = false ∧
    (∀ i, i ≠ 7 → i ≠ 0 →
      (resolution_write_data read_data).testBit i =
        (read_data % 4294967296).testBit i) ∧
    resolution_write_data read_data < 4294967296 ∧
    resolution_write_data Si7021_U1_DEFAULT = Si7021_TARGET_U1 ∧
    resolution_write_data (resolution_write_data read_data) =
      resolution_write_data read_data := by
  refine ⟨?_, ?_, ?_, ?_, by decide, ?_⟩
  · rw [testBit_resolution_write_data]
    rfl
  · rw [testBit_resolution_write_data]
    simp
  · intro i h7 h0
    simp [testBit_resolution_write_data, testBit_mod32, h7, h0]
  · have h1 : (read_data % 4294967296) &&& not32 Si7021_RES_MASK < 2 ^ 32 :=
      lt_of_le_of_lt Nat.and_le_right (not32_lt _)
    exact Nat.or_lt_two_pow h1 (by decide)
  · apply Nat.eq_of_testBit_eq
    intro i
    simp only [testBit_resolution_write_data]
    by_cases h7 : i = 7 <;> by_cases h0 : i = 0 <;> by_cases h32 : i < 32 <;>
      simp [h7, h0, h32]

/-- C39: when the packet length `strlen(string) + 1` is greater than `ble_circ_space()`,
`ble_circ_push` halts in its assertion, and the state at the halt is the state before the
call: no character of the buffer has been written and `write_ptr` has not moved. -/
theorem C39_push_without_space_is_fatal (string : List Nat) (s : BleState)
    (hlen : string.length + 1 < 2147483648)
    (hfull : string.length + 1 > ble_circ_space s.ble_cbuf) :
    ble_circ_push string s = .error s := by
  have hw1 : wrap32s (string.length : Int) = string.length :=
    wrap32s_of_range _ (by omega) (by omega)
  have hw2 : wrap32s ((string.length : Int) + 1) = (string.length : Int) + 1 :=
    wrap32s_of_range _ (by omega) (by omega)
  have hgt : ((string.length : Int) + 1 > ((ble_circ_space s.ble_cbuf : Nat) : Int)) := by
    omega
  simp only [ble_circ_push, hw1, hw2]
  rw [if_pos hgt]

/-- Witness of C39: a string of 64 characters, whose packet length is 65, pushed into
the buffer left by `ble_circ_init`, which has 64 free characters. -/
theorem C39_push_without_space_is_fatal_witness :
    ble_circ_space (bleInit 0 0).ble_cbuf = 64 ∧
    ble_circ_push (List.replicate 64 0x42) (bleInit 0 0) = .error (bleInit 0 0) :=
  ⟨by decide, C39_push_without_space_is_fatal _ _ (by decide) (by decide)⟩

theorem ptrInv_init (b : BLE_CIRCULAR_BUF) : PtrInv (ble_circ_init b) :=
  ⟨rfl, Nat.zero_lt_succ _, Nat.zero_lt_succ _⟩

theorem ptrInv_wrtindex (b : BLE_CIRCULAR_BUF) (k : Nat) (h : PtrInv b) :
    PtrInv (update_circ_wrtindex b k) := by
  obtain ⟨hm, hr, _⟩ := h
  have hm1 : b.size_mask = 63 := hm
  refine ⟨hm, hr, ?_⟩
  simp only [update_circ_wrtindex, hm1, CSIZE, and_63]
  omega

theorem ptrInv_readindex (b : BLE_CIRCULAR_BUF) (k : Nat) (h : PtrInv b) :
    PtrInv (update_circ_readindex b k) := by
  obtain ⟨hm, _, hw⟩ := h
  have hm1 : b.size_mask = 63 := hm
  refine ⟨hm, ?_, hw⟩
  simp only [update_circ_readindex, hm1, CSIZE, and_63]
  omega

theorem ptrInv_push_loop (l : List Nat) :
    ∀ b : BLE_CIRCULAR_BUF, PtrInv b →
      PtrInv (ble_circ_push_loop b l) ∧
      ∀ i ∈ ble_circ_push_loop_indices b l, i < CSIZE := by
  induction l with
  | nil =>
    intro b h
    exact ⟨h, fun i hi => absurd hi (List.not_mem_nil i)⟩
  | cons c cs ih =>
    intro b h
    have h1 : PtrInv (update_circ_wrtindex { b with cbuf := setByte b.cbuf b.write_ptr c } 1) :=
      ptrInv_wrtindex _ 1 h
    obtain ⟨a1, a2⟩ := ih _ h1
    refine ⟨a1, ?_⟩
    intro i hi
    simp only [ble_circ_push_loop_indices, List.mem_cons] at hi
    rcases hi with hi | hi
    · rw [hi]
      exact h.2.2
    · exact a2 i hi

theorem ptrInv_pop_loop (n : Nat) :
    ∀ (i : Nat) (s : BleState), PtrInv s.ble_cbuf →
      PtrInv (ble_circ_pop_loop n i s).ble_cbuf ∧
      ∀ j ∈ ble_circ_pop_loop_indices n s.ble_cbuf, j < CSIZE := by
  induction n with
  | zero =>
    intro i s h
    exact ⟨h, fun j hj => absurd hj (List.not_mem_nil j)⟩
  | succ n ih =>
    intro i s h
    obtain ⟨a1, a2⟩ := ih (i + 1)
      { s with
        result_str := setChar s.result_str i (s.ble_cbuf.cbuf s.ble_cbuf.read_ptr)
        ble_cbuf := update_circ_readindex s.ble_cbuf 1 }
      (ptrInv_readindex _ 1 h)
    refine ⟨a1, ?_⟩
    intro j hj
    simp only [ble_circ_pop_loop_indices, List.mem_cons] at hj
    rcases hj with hj | hj
    · rw [hj]
      exact h.2.1
    · exact a2 j hj

theorem ptrInv_push (string : List Nat) (s : BleState) (h : PtrInv s.ble_cbuf) :
    PtrInv (finalBle (ble_circ_push string s)).ble_cbuf ∧
    ∀ i ∈ ble_circ_push_indices string s, i < CSIZE := by
  simp only [ble_circ_push, ble_circ_push_indices]
  split_ifs with hgt
  · exact ⟨h, fun i hi => absurd hi (List.not_mem_nil i)⟩
  · obtain ⟨a1, a2⟩ := ptrInv_push_loop string _
      (ptrInv_wrtindex
        { s.ble_cbuf with
          cbuf := setByte s.ble_cbuf.cbuf s.ble_cbuf.write_ptr
            ((wrap32s (wrap32s (string.length : Int) + 1)) % 256).toNat } 1 h)
    refine ⟨a1, ?_⟩
    intro i hi
    simp only [List.mem_cons] at hi
    rcases hi with hi | hi
    · rw [hi]
      exact h.2.2
    · exact a2 i hi

theorem ptrInv_pop (test : Bool) (s : BleState) (h : PtrInv s.ble_cbuf) :
    PtrInv (ble_circ_pop test s).2.ble_cbuf ∧
    ∀ i ∈ ble_circ_pop_indices s, i < CSIZE := by
  by_cases h1 : ble_circ_space s.ble_cbuf = CSIZE
  · simp only [ble_circ_pop, ble_circ_pop_indices, if_pos h1]
    exact ⟨h, fun i hi => absurd hi (List.not_mem_nil i)⟩
  · cases hb : s.leuart_busy with
    | true =>
      simp only [ble_circ_pop, ble_circ_pop_indices, if_neg h1, hb, Bool.not_true,
        Bool.false_eq_true, if_false]
      exact ⟨h, fun i hi => absurd hi (List.not_mem_nil i)⟩
    | false =>
      simp only [ble_circ_pop, ble_circ_pop_indices, if_neg h1, hb, Bool.not_false, if_true]
      refine ⟨?_, ?_⟩
      · cases test
        · simp only [Bool.not_false, if_true]
          exact (ptrInv_pop_loop _ 0 _ (ptrInv_readindex _ 1 h)).1
        · simp only [Bool.not_true, Bool.false_eq_true, if_false]
          exact (ptrInv_pop_loop _ 0 _ (ptrInv_readindex _ 1 h)).1
      · intro i hi
        simp only [List.mem_cons] at hi
        rcases hi with hi | hi
        · rw [hi]
          exact h.2.1
        · exact (ptrInv_pop_loop _ 0
            { s with ble_cbuf := update_circ_readindex s.ble_cbuf 1 }
            (ptrInv_readindex _ 1 h)).2 i hi

theorem ptrInv_run (ops : List BleOp) :
    ∀ s : BleState, PtrInv s.ble_cbuf → PtrInv (finalBle (runBle ops s)).ble_cbuf := by
  induction ops with
  | nil =>
    intro s h
    exact h
  | cons op ops ih =>
    intro s h
    have e : runBle (op :: ops) s = (op.run s).bind (runBle ops) := rfl
    rw [e]
    cases op with
    | push string =>
      have hp := (ptrInv_push string s h).1
      simp only [BleOp.run]
      cases hr : ble_circ_push string s with
      | error s1 =>
        rw [hr] at hp
        exact hp
      | ok s1 =>
        rw [hr] at hp
        exact ih s1 hp
    | pop test =>
      exact ih _ (ptrInv_pop test s h).1

theorem ptr_distance_lt (b : BLE_CIRCULAR_BUF) (h : PtrInv b) : ptr_distance b < CSIZE := by
  obtain ⟨_, hr, hw⟩ := h
  simp only [CSIZE] at hr hw
  simp only [ptr_distance, sub32, wrap32s, CSIZE]
  omega

/-- C31: in the state reached by any sequence of `ble_circ_push` and `ble_circ_pop` calls
after `ble_circ_init`, returned or halted in the assertion of a push, `read_ptr` and
`write_ptr` are below `CSIZE`, `abs(write_ptr - read_ptr)` is below `CSIZE`, and every
index of `cbuf` that a further push or pop stores to or reads is below `CSIZE`. -/
theorem C31_pointers_in_range (s0 : BleState) (ops : List BleOp) :
    (finalBle (runBle ops
      { s0 with ble_cbuf := ble_circ_init s0.ble_cbuf })).ble_cbuf.read_ptr < CSIZE ∧
    (finalBle (runBle ops
      { s0 with ble_cbuf := ble_circ_init s0.ble_cbuf })).ble_cbuf.write_ptr < CSIZE ∧
    ptr_distance (finalBle (runBle ops
      { s0 with ble_cbuf := ble_circ_init s0.ble_cbuf })).ble_cbuf < CSIZE ∧
    (∀ string, ∀ i ∈ ble_circ_push_indices string (finalBle (runBle ops
      { s0 with ble_cbuf := ble_circ_init s0.ble_cbuf })), i < CSIZE) ∧
    (∀ i ∈ ble_circ_pop_indices (finalBle (runBle ops
      { s0 with ble_cbuf := ble_circ_init s0.ble_cbuf })), i < CSIZE) := by
  have h := ptrInv_run ops { s0 with ble_cbuf := ble_circ_init s0.ble_cbuf }
    (ptrInv_init s0.ble_cbuf)
  exact ⟨h.2.1, h.2.2, ptr_distance_lt _ h, fun string => (ptrInv_push string _ h).2,
    (ptrInv_pop true _ h).2⟩

theorem irqs_append (H : SleepRoutinesH) (a b : List Irq) :
    ∀ w w1 : World, irqs H a w = .ok w1 → irqs H (a ++ b) w = irqs H b w1 := by
  induction a with
  | nil =>
    intro w w1 h
    simp only [irqs, Except.ok.injEq] at h
    rw [← h]
    rfl
  | cons i is ih =>
    intro w w1 h
    simp only [List.cons_append, irqs] at h ⊢
    cases hr : irq H i w with
    | error e =>
      rw [hr] at h
      cases h
    | ok w2 =>
      rw [hr] at h
      simp only at h ⊢
      exact ih w2 w1 h

theorem i2c_rxdatav_last (r : Nat) (w : World) (hs : w.payload.state = .handle_data)
    (hr : w.payload.read = true) (hb : w.payload.bytes = 1) :
    i2c_rxdatav r w =
      .ok
        { w with
          payload := { w.payload with bytes := 0, state := .stop }
          mem := setMem w.mem w.payload.data (rxStore (w.mem w.payload.data) 0 r)
          regs := w.regs ++
            [RegWrite.CMD w.payload.i2c I2C_CMD.NACK,
             RegWrite.CMD w.payload.i2c I2C_CMD.STOP] } := by
  have h11 : wrap32s (1 - 1) = 0 := by decide
  simp [i2c_rxdatav, hs, hr, hb, h11, wrap32s_zero, writeCMD]

theorem i2c_rxdatav_more (r : Nat) (w : World) (hs : w.payload.state = .handle_data)
    (hr : w.payload.read = true) (h2 : 2 ≤ w.payload.bytes)
    (h31 : w.payload.bytes < 2147483648) :
    i2c_rxdatav r w =
      .ok
        { w with
          payload := { w.payload with bytes := w.payload.bytes - 1 }
          mem := setMem w.mem w.payload.data
            (rxStore (w.mem w.payload.data) (w.payload.bytes - 1) r)
          regs := w.regs ++ [RegWrite.CMD w.payload.i2c I2C_CMD.ACK] } := by
  have hw : wrap32s (w.payload.bytes - 1) = w.payload.bytes - 1 :=
    wrap32s_of_range _ (by omega) (by omega)
  have hpos : w.payload.bytes - 1 > 0 := by omega
  simp only [i2c_rxdatav, hs, hr, hw, if_pos hpos, writeCMD, if_true]

theorem i2c_rxdatav_nonpositive (r : Nat) (w : World)
    (hs : w.payload.state = .handle_data) (hr : w.payload.read = true)
    (h0 : w.payload.bytes ≤ 0) (h31 : -2147483648 < w.payload.bytes) :
    i2c_rxdatav r w =
      .ok
        { w with
          payload := { w.payload with bytes := w.payload.bytes - 1 }
          mem := setMem w.mem w.payload.data
            (rxStore (w.mem w.payload.data) (w.payload.bytes - 1) r) } := by
  have hw : wrap32s (w.payload.bytes - 1) = w.payload.bytes - 1 :=
    wrap32s_of_range _ (by omega) (by omega)
  have h1 : ¬ (w.payload.bytes - 1 > 0) := by omega
  have h2 : ¬ (w.payload.bytes - 1 = 0) := by omega
  simp only [i2c_rxdatav, hs, hr, hw, if_neg h1, if_neg h2, if_true]
theorem read_run (H : SleepRoutinesH) (rs : List Nat) :
    ∀ (r : Nat) (w : World), w.payload.state = .handle_data → w.payload.read = true →
      w.payload.bytes = ((rs.length + 1 : Nat) : Int) → rs.length + 1 < 2147483648 →
      ∃ w1, irqs H ((r :: rs).map Irq.RXDATAV) w = .ok w1 ∧
        w1.payload = { w.payload with state := .stop, bytes := 0 } ∧
        w1.mem w.payload.data = rxFold (w.mem w.payload.data) (r :: rs) ∧
        (∀ q, q ≠ w.payload.data → w1.mem q = w.mem q) ∧
        w1.lowest_energy_mode = w.lowest_energy_mode ∧
        w1.event_scheduled = w.event_scheduled ∧ w1.calls = w.calls ∧
        w1.STATE = w.STATE := by
  induction rs with
  | nil =>
    intro r w hs hr hb _
    have hb1 : w.payload.bytes = 1 := by simpa using hb
    refine ⟨{ w with
          payload := { w.payload with bytes := 0, state := .stop }
          mem := setMem w.mem w.payload.data (rxStore (w.mem w.payload.data) 0 r)
          regs := w.regs ++
            [RegWrite.CMD w.payload.i2c I2C_CMD.NACK,
             RegWrite.CMD w.payload.i2c I2C_CMD.STOP] }, ?_, rfl, ?_, ?_, rfl, rfl, rfl, rfl⟩
    · simp only [List.map, irqs, irq, i2c_rxdatav_last r w hs hr hb1]
    · simp [setMem, rxFold]
    · intro q hq
      simp [setMem, hq]
  | cons r2 rs ih =>
    intro r w hs hr hb h31
    have hb2 : w.payload.bytes - 1 = ((rs.length + 1 : Nat) : Int) := by
      rw [hb]
      simp only [List.length_cons]
      omega
    have hstep := i2c_rxdatav_more r w hs hr
      (by rw [hb]; simp only [List.length_cons]; omega)
      (by rw [hb]; simp only [List.length_cons] at h31 ⊢; omega)
    obtain ⟨w1, e1, e2, e3, e4, e5, e6, e7, e8⟩ := ih r2
      { w with
        payload := { w.payload with bytes := w.payload.bytes - 1 }
        mem := setMem w.mem w.payload.data
          (rxStore (w.mem w.payload.data) (w.payload.bytes - 1) r)
        regs := w.regs ++ [RegWrite.CMD w.payload.i2c I2C_CMD.ACK] }
      hs hr hb2 (by simp only [List.length_cons] at h31; omega)
    refine ⟨w1, ?_, ?_, ?_, ?_, e5, e6, e7, e8⟩
    · have e : irqs H ((r :: r2 :: rs).map Irq.RXDATAV) w =
          (match irq H (Irq.RXDATAV r) w with
            | .ok w1 => irqs H ((r2 :: rs).map Irq.RXDATAV) w1
            | .error w1 => .error w1) := rfl
      rw [e]
      simp only [irq, hstep]
      exact e1
    · rw [e2]
    · rw [e3]
      simp only [setMem, if_true, rxFold, List.length_cons, hb2]
    · intro q hq
      rw [e4 q hq]
      simp [setMem, hq]

theorem rxFold_lt (rx : List Nat) : ∀ d, d < 4294967296 → rxFold d rx < 4294967296 := by
  induction rx with
  | nil =>
    intro d hd
    exact hd
  | cons r rs ih =>
    intro d _
    exact ih _ (rxStore_lt _ _ _)

theorem rxFold_high (rx : List Nat) :
    ∀ d, d < 4294967296 → rx.length ≤ 4 → (∀ r ∈ rx, r < 256) →
      ∀ i, 8 * rx.length ≤ i → (rxFold d rx).testBit i = d.testBit i := by
  induction rx with
  | nil =>
    intro d _ _ _ i _
    rfl
  | cons r rs ih =>
    intro d hd hlen hrx i hi
    simp only [List.length_cons] at hlen hi
    have h1 := ih (rxStore d (rs.length : Int) r) (rxStore_lt _ _ _) (by omega)
      (fun x hx => hrx x (List.mem_cons_of_mem _ hx)) i (by omega)
    show (rxFold (rxStore d (rs.length : Int) r) rs).testBit i = d.testBit i
    rw [h1, testBit_rxStore d r _ rs.length i rfl (by omega) hd
      (hrx r (List.mem_cons_self _ _))]
    have : ¬ (8 * rs.length ≤ i ∧ i < 8 * rs.length + 8) := by omega
    rw [if_neg this]

theorem lane_congr (x y k : Nat) (h : ∀ i, 8 * k ≤ i → x.testBit i = y.testBit i) :
    (x >>> (8 * k)) % 256 = (y >>> (8 * k)) % 256 := by
  have h8 : (256 : Nat) = 2 ^ 8 := by norm_num
  apply Nat.eq_of_testBit_eq
  intro i
  rw [h8, Nat.testBit_mod_two_pow, Nat.testBit_mod_two_pow, Nat.testBit_shiftRight,
    Nat.testBit_shiftRight, h (8 * k + i) (by omega)]

theorem rxFold_lane (rx : List Nat) :
    ∀ d, d < 4294967296 → rx.length ≤ 4 → (∀ r ∈ rx, r < 256) →
      ∀ p r, rx[p]? = some r →
        (rxFold d rx >>> (8 * (rx.length - 1 - p))) % 256 = r := by
  induction rx with
  | nil =>
    intro d _ _ _ p r h
    simp at h
  | cons r0 rs ih =>
    intro d hd hlen hrx p r h
    simp only [List.length_cons] at hlen
    have hr0 : r0 < 256 := hrx r0 (List.mem_cons_self _ _)
    have hrs : ∀ x ∈ rs, x < 256 := fun x hx => hrx x (List.mem_cons_of_mem _ hx)
    cases p with
    | zero =>
      simp only [List.getElem?_cons_zero, Option.some.injEq] at h
      subst h
      have e : (r0 :: rs).length - 1 - 0 = rs.length := by simp
      rw [e]
      show (rxFold (rxStore d (rs.length : Int) r0) rs >>> (8 * rs.length)) % 256 = r0
      rw [lane_congr _ (rxStore d (rs.length : Int) r0) rs.length
        (fun i hi => rxFold_high rs _ (rxStore_lt _ _ _) (by omega) hrs i hi)]
      exact rxStore_lane d r0 _ rs.length rfl (by omega) hd hr0
    | succ p =>
      simp only [List.getElem?_cons_succ] at h
      have hp : p < rs.length := by
        rcases Nat.lt_or_ge p rs.length with hlt | hge
        · exact hlt
        · rw [List.getElem?_eq_none hge] at h
          cases h
      have e : (r0 :: rs).length - 1 - (p + 1) = rs.length - 1 - p := by
        simp only [List.length_cons]
        omega
      rw [e]
      exact ih (rxStore d (rs.length : Int) r0) (rxStore_lt _ _ _) (by omega) hrs p r h
theorem transfer_append (H : SleepRoutinesH) (w w1 : World)
    (i2c device_address device_register data : Nat) (bytes : Int) (read : Bool)
    (event : Nat) (a b : List Irq)
    (h : transfer H i2c device_address device_register data bytes read event a w = .ok w1) :
    transfer H i2c device_address device_register data bytes read event (a ++ b) w =
      irqs H b w1 := by
  obtain ⟨ws, hstart, hirqs⟩ := transfer_elim H w w1 _ _ _ _ _ _ _ _ h
  simp only [transfer, hstart]
  exact irqs_append H a b ws w1 hirqs

theorem read_address_phases (H : SleepRoutinesH) (w : World)
    (i2c device_address device_register data : Nat) (bytes : Int) (event : Nat)
    (hidle : (w.STATE i2c &&& I2C_STATE_STATE_MASK) = I2C_STATE_STATE_IDLE)
    (t1 : Nat → Int)
    (hblock : sleep_block_mode H (I2C_EM_BLOCK H) w.lowest_energy_mode = .ok t1) :
    ∃ w0,
      transfer H i2c device_address device_register data bytes true event
        [Irq.ACK, Irq.ACK, Irq.ACK] w = .ok w0 ∧
      w0.payload =
        { state := .handle_data, i2c := i2c, device_address := device_address,
          device_register := device_register, data := data, bytes := bytes,
          busy := true, read := true, write := false, event := event } ∧
      w0.mem = w.mem ∧ w0.STATE = w.STATE ∧ w0.lowest_energy_mode = t1 ∧
      w0.event_scheduled = w.event_scheduled ∧
      w0.regs = w.regs ++
        [RegWrite.CMD i2c I2C_CMD.START, RegWrite.TXDATA i2c (I2C_ADDR_W device_address),
         RegWrite.TXDATA i2c device_register, RegWrite.CMD i2c I2C_CMD.START,
         RegWrite.TXDATA i2c (I2C_ADDR_R device_address)] ∧
      w0.calls = w.calls ++ [Call.sleep_block_mode (I2C_EM_BLOCK H)] := by
  simp [transfer,
    i2c_start_ok H w i2c device_address device_register data bytes true event hidle t1 hblock,
    irqs, irq, i2c_ack, writeCMD, writeTXDATA]

/-- C37: for a byte count `n` from 1 to 4 and every initial 32-bit data word, the read
that receives the bytes `rx` (`n` of them, each below 256) from a slave that acknowledges
completes without a fatal assertion, and then the byte received in position `p` (counted
from 0) is the byte `n - 1 - p` of the data word, so that the first one is the most
significant of the low `n` bytes, and every bit at position `8 * n` or above is the
bit that the data word had before the transfer. -/
theorem C37_read_keeps_high_bytes (H : SleepRoutinesH) (w : World)
    (i2c device_address device_register data event : Nat) (rx : List Nat)
    (hidle : (w.STATE i2c &&& I2C_STATE_STATE_MASK) = I2C_STATE_STATE_IDLE)
    (hhold : holdPasses H w.lowest_energy_mode = true)
    (hn1 : 1 ≤ rx.length) (hn4 : rx.length ≤ 4) (hrx : ∀ r ∈ rx, r < 256)
    (hd : w.mem data < 4294967296) :
    ∃ w1,
      transfer H i2c device_address device_register data (rx.length : Int) true event
        (ackingSlave true rx rx.length) w = .ok w1 ∧
      i2c_busy i2c w1 = false ∧
      (∀ p r, rx[p]? = some r →
        (w1.mem data >>> (8 * (rx.length - 1 - p))) % 256 = r) ∧
      (∀ i, 8 * rx.length ≤ i → (w1.mem data).testBit i = (w.mem data).testBit i) := by
  obtain ⟨t1, t2, hb, hu⟩ := holdPasses_elim H _ hhold
  cases rx with
  | nil => simp at hn1
  | cons r rs =>
    obtain ⟨w0, ha, hp, hmem, _, hl, _, _, _⟩ := read_address_phases H w i2c device_address
      device_register data (((r :: rs).length : Nat) : Int) event hidle t1 hb
    have hdata : w0.payload.data = data := by rw [hp]
    obtain ⟨w1, e1, e2, e3, _, e5, _, _, _⟩ := read_run H rs r w0 (by rw [hp])
      (by rw [hp]) (by rw [hp]; simp only [List.length_cons])
      (by simp only [List.length_cons] at hn4; omega)
    rw [hdata, hmem] at e3
    rw [hl] at e5
    have hs1 : w1.payload.state = .stop := by rw [e2]
    have hm := i2c_mstop_ok H w1 hs1 t2 (by rw [e5]; exact hu)
    have hrun := transfer_append H w w0 i2c device_address device_register data
      (((r :: rs).length : Nat) : Int) true event [Irq.ACK, Irq.ACK, Irq.ACK]
      ((r :: rs).map Irq.RXDATAV) ha
    rw [e1] at hrun
    have hall := transfer_append H w w1 i2c device_address device_register data
      (((r :: rs).length : Nat) : Int) true event
      ([Irq.ACK, Irq.ACK, Irq.ACK] ++ (r :: rs).map Irq.RXDATAV) [Irq.MSTOP] hrun
    have hfin : irqs H [Irq.MSTOP] w1 = i2c_mstop H w1 := by
      simp only [irqs, irq]
      cases i2c_mstop H w1 <;> rfl
    rw [hfin, hm] at hall
    have hack : [Irq.ACK, Irq.ACK, Irq.ACK] ++ (r :: rs).map Irq.RXDATAV ++ [Irq.MSTOP] =
        ackingSlave true (r :: rs) (r :: rs).length := by
      simp only [ackingSlave, if_true]
    rw [hack] at hall
    refine ⟨_, hall, rfl, ?_, ?_⟩
    · intro p r0 hp
      show (w1.mem data >>> _) % 256 = r0
      rw [e3]
      exact rxFold_lane (r :: rs) _ hd hn4 hrx p r0 hp
    · intro i hi
      show (w1.mem data).testBit i = _
      rw [e3]
      exact rxFold_high (r :: rs) _ hd hn4 hrx i hi

/-- Witness of C37: the three-byte read of `0x12`, `0x34`, `0x56` into a data word that
holds `0xAABBCCDD`. -/
theorem C37_read_keeps_high_bytes_witness :
    ∃ w1,
      transfer specH 0 0x40 0xF3 100 (([0x12, 0x34, 0x56] : List Nat).length : Int) true 8
        (ackingSlave true [0x12, 0x34, 0x56] ([0x12, 0x34, 0x56] : List Nat).length)
        (bootWorld 0xAABBCCDD 0) = .ok w1 ∧
      i2c_busy 0 w1 = false ∧
      (∀ p r, ([0x12, 0x34, 0x56] : List Nat)[p]? = some r →
        (w1.mem 100 >>> (8 * (([0x12, 0x34, 0x56] : List Nat).length - 1 - p))) % 256
          = r) ∧
      (∀ i, 8 * ([0x12, 0x34, 0x56] : List Nat).length ≤ i →
        (w1.mem 100).testBit i = ((bootWorld 0xAABBCCDD 0).mem 100).testBit i) :=
  C37_read_keeps_high_bytes specH (bootWorld 0xAABBCCDD 0) 0 0x40 0xF3 100 8
    [0x12, 0x34, 0x56] (by decide) (by decide) (by decide) (by decide) (by decide)
    (by decide)

theorem rxdatav_stuck_step (r : Nat) (w : World) (hs : w.payload.state = .handle_data)
    (hr : w.payload.read = true) (hlo : -2147483648 ≤ w.payload.bytes)
    (hhi : w.payload.bytes < 2147483648) (h1 : w.payload.bytes ≠ 1) :
    ∃ w1, i2c_rxdatav r w = .ok w1 ∧
      w1.payload.state = .handle_data ∧ w1.payload.read = true ∧
      w1.payload.busy = w.payload.busy ∧
      w1.payload.bytes = wrap32s (w.payload.bytes - 1) ∧
      rxdatavToStop w1.payload.bytes = rxdatavToStop w.payload.bytes - 1 ∧
      -2147483648 ≤ w1.payload.bytes ∧ w1.payload.bytes < 2147483648 ∧
      w1.calls = w.calls ∧ w1.event_scheduled = w.event_scheduled ∧
      w1.lowest_energy_mode = w.lowest_energy_mode ∧
      (w.payload.bytes ≤ 0 → -2147483648 < w.payload.bytes → w1.regs = w.regs) := by
  have hd : rxdatavToStop (wrap32s (w.payload.bytes - 1)) =
      rxdatavToStop w.payload.bytes - 1 := by
    simp only [rxdatavToStop, wrap32s]
    split_ifs <;> omega
  have hlo1 : -2147483648 ≤ wrap32s (w.payload.bytes - 1) := by
    simp only [wrap32s]
    omega
  have hhi1 : wrap32s (w.payload.bytes - 1) < 2147483648 := by
    simp only [wrap32s]
    omega
  have hne : wrap32s (w.payload.bytes - 1) ≠ 0 := by
    simp only [wrap32s]
    omega
  simp only [i2c_rxdatav, hs, hr, if_true]
  split_ifs with ha
  · refine ⟨_, rfl, rfl, rfl, rfl, rfl, hd, hlo1, hhi1, rfl, rfl, rfl, ?_⟩
    intro h0 h31
    exfalso
    simp only [wrap32s] at ha
    omega
  · exact ⟨_, rfl, rfl, rfl, rfl, rfl, hd, hlo1, hhi1, rfl, rfl, rfl, fun _ _ => rfl⟩

theorem rxdatav_stuck_run (H : SleepRoutinesH) (rs : List Nat) :
    ∀ w : World, w.payload.state = .handle_data → w.payload.read = true →
      -2147483648 ≤ w.payload.bytes → w.payload.bytes < 2147483648 →
      (rs.length : Int) < rxdatavToStop w.payload.bytes →
      ∃ w1, irqs H (rs.map Irq.RXDATAV) w = .ok w1 ∧
        w1.payload.state = .handle_data ∧ w1.payload.read = true ∧
        w1.payload.busy = w.payload.busy ∧
        rxdatavToStop w1.payload.bytes = rxdatavToStop w.payload.bytes - rs.length ∧
        -2147483648 ≤ w1.payload.bytes ∧ w1.payload.bytes < 2147483648 ∧
        w1.calls = w.calls ∧ w1.event_scheduled = w.event_scheduled ∧
        w1.lowest_energy_mode = w.lowest_energy_mode := by
  induction rs with
  | nil =>
    intro w hs hr hlo hhi _
    exact ⟨w, rfl, hs, hr, rfl, by simp, hlo, hhi, rfl, rfl, rfl⟩
  | cons r rs ih =>
    intro w hs hr hlo hhi hlen
    simp only [List.length_cons, Nat.cast_add, Nat.cast_one] at hlen
    have h1 : w.payload.bytes ≠ 1 := by
      intro h
      rw [h] at hlen
      simp only [rxdatavToStop] at hlen
      norm_num at hlen
      omega
    obtain ⟨w1, a1, a2, a3, a4, _, a6, a7, a8, a9, a10, a11, _⟩ :=
      rxdatav_stuck_step r w hs hr hlo hhi h1
    obtain ⟨w2, b1, b2, b3, b4, b5, b6, b7, b8, b9, b10⟩ :=
      ih w1 a2 a3 a7 a8 (by rw [a6]; omega)
    refine ⟨w2, ?_, b2, b3, b4.trans a4, ?_, b6, b7, b8.trans a9, b9.trans a10,
      b10.trans a11⟩
    · have e : irqs H ((r :: rs).map Irq.RXDATAV) w =
          (match irq H (Irq.RXDATAV r) w with
            | .ok w1 => irqs H (rs.map Irq.RXDATAV) w1
            | .error w1 => .error w1) := rfl
      rw [e]
      simp only [irq, a1]
      exact b1
    · rw [b5, a6]
      simp only [List.length_cons, Nat.cast_add, Nat.cast_one]
      omega
theorem receivable_single (H : SleepRoutinesH) (w : World) (r : Nat) :
    Receivable H w [r] := by
  intro k wk hk _
  simp only [List.length_singleton] at hk
  omega

theorem receivable_two_byte_read :
    Receivable specH (dataPhaseWorld 0 true 2) [0x66, 0x1A] := by
  intro k wk hk hrun
  simp only [List.length_cons, List.length_nil] at hk
  have hk2 : k = 0 ∨ k = 1 := by omega
  rcases hk2 with rfl | rfl
  · omega
  · have e : irqs specH (([0x66, 0x1A] : List Nat).take 1 |>.map Irq.RXDATAV)
        (dataPhaseWorld 0 true 2) = i2c_rxdatav 0x66 (dataPhaseWorld 0 true 2) := by
      show irqs specH [Irq.RXDATAV 0x66] (dataPhaseWorld 0 true 2) = _
      simp only [irqs, irq]
      cases i2c_rxdatav 0x66 (dataPhaseWorld 0 true 2) <;> rfl
    rw [e, i2c_rxdatav_more 0x66 (dataPhaseWorld 0 true 2) rfl rfl (by decide) (by decide)]
      at hrun
    simp only [Except.ok.injEq] at hrun
    rw [← hrun]
    decide

theorem receivable_zero_byte_read (H : SleepRoutinesH) (w0 w1 : World) (r : Nat)
    (rs : List Nat) (h1 : i2c_rxdatav r w0 = .ok w1) (hregs : w1.regs = w0.regs)
    (hrec : Receivable H w0 (r :: rs)) : rs = [] := by
  cases rs with
  | nil => rfl
  | cons r2 rs =>
    exfalso
    have hrun : irqs H (((r :: r2 :: rs).take 1).map Irq.RXDATAV) w0 = .ok w1 := by
      show irqs H [Irq.RXDATAV r] w0 = .ok w1
      simp only [irqs, irq, h1]
    have := hrec 1 w1 (by simp only [List.length_cons]; omega) hrun
    rw [hregs] at this
    omega

/-- C38: for a read started with a byte count of 0, after the three ACKs of the address
phases the state is `handle_data` with no remaining byte; the first RXDATAV there makes
the count `-1`, writes no command (neither ACK nor NACK nor STOP) and leaves the state
`handle_data`. As no ACK is written, a run of RXDATAV interrupts that the peripheral can
deliver ends there; and every run of RXDATAV interrupts that the peripheral can deliver,
as well as every run of fewer than 4294967296 of them whatever the peripheral does,
returns with the state still `handle_data`, busy still true, the pending set unchanged
and no call of `sleep_unblock_mode` or `add_scheduled_event` made. -/
theorem C38_zero_byte_read_hangs (H : SleepRoutinesH) (w : World)
    (i2c device_address device_register data event r : Nat)
    (hidle : (w.STATE i2c &&& I2C_STATE_STATE_MASK) = I2C_STATE_STATE_IDLE)
    (t1 : Nat → Int)
    (hblock : sleep_block_mode H (I2C_EM_BLOCK H) w.lowest_energy_mode = .ok t1) :
    ∃ w0 w1,
      transfer H i2c device_address device_register data 0 true event
        [Irq.ACK, Irq.ACK, Irq.ACK] w = .ok w0 ∧
      w0.payload.state = .handle_data ∧ w0.payload.bytes = 0 ∧
      i2c_rxdatav r w0 = .ok w1 ∧
      w1.payload.bytes = -1 ∧ w1.regs = w0.regs ∧ w1.payload.state = .handle_data ∧
      (∀ rs, Receivable H w0 (r :: rs) → rs = []) ∧
      (∀ rs, (rs.length + 1 < 4294967296 ∨ Receivable H w0 (r :: rs)) →
        ∃ w2,
          transfer H i2c device_address device_register data 0 true event
            ([Irq.ACK, Irq.ACK, Irq.ACK] ++ (r :: rs).map Irq.RXDATAV) w = .ok w2 ∧
          w2.payload.state = .handle_data ∧
          i2c_busy i2c w2 = true ∧
          w2.event_scheduled = w.event_scheduled ∧
          w2.calls = w.calls ++ [Call.sleep_block_mode (I2C_EM_BLOCK H)]) := by
  obtain ⟨w0, ha, hp, _, _, _, he, _, hc⟩ := read_address_phases H w i2c device_address
    device_register data 0 event hidle t1 hblock
  have hs0 : w0.payload.state = .handle_data := by rw [hp]
  have hr0 : w0.payload.read = true := by rw [hp]
  have hb0 : w0.payload.bytes = 0 := by rw [hp]
  have hbusy : w0.payload.busy = true := by rw [hp]
  obtain ⟨w1, a1, a2, _, _, a5, _, _, _, _, _, _, a12⟩ :=
    rxdatav_stuck_step r w0 hs0 hr0 (by rw [hb0]; decide) (by rw [hb0]; decide)
      (by rw [hb0]; decide)
  have hregs : w1.regs = w0.regs := a12 (by rw [hb0]) (by rw [hb0]; decide)
  have hone : ∀ rs, Receivable H w0 (r :: rs) → rs = [] :=
    fun rs hrec => receivable_zero_byte_read H w0 w1 r rs a1 hregs hrec
  refine ⟨w0, w1, ha, hs0, hb0, a1, ?_, hregs, a2, hone, ?_⟩
  · rw [a5, hb0]
    decide
  · intro rs hrs
    have hlen : rs.length + 1 < 4294967296 := by
      rcases hrs with h | h
      · exact h
      · rw [hone rs h]
        decide
    obtain ⟨w2, b1, b2, _, b4, _, _, _, b8, b9, _⟩ :=
      rxdatav_stuck_run H (r :: rs) w0 hs0 hr0 (by rw [hb0]; decide) (by rw [hb0]; decide)
        (by
          rw [hb0]
          simp only [rxdatavToStop, List.length_cons]
          norm_num
          omega)
    have hrun := transfer_append H w w0 i2c device_address device_register data 0 true
      event [Irq.ACK, Irq.ACK, Irq.ACK] ((r :: rs).map Irq.RXDATAV) ha
    rw [b1] at hrun
    refine ⟨w2, hrun, b2, ?_, b9.trans he, b8.trans hc⟩
    show w2.payload.busy = true
    rw [b4, hbusy]

/-- Witness of C38: a read of no byte from register `0xF3` of device `0x40`, started from
the state after initialisation, whose first received byte is `0x66`. -/
theorem C38_zero_byte_read_hangs_witness :
    ∃ w0 w1,
      transfer specH 0 0x40 0xF3 100 0 true 8 [Irq.ACK, Irq.ACK, Irq.ACK] (bootWorld 0 0)
        = .ok w0 ∧
      w0.payload.state = .handle_data ∧ w0.payload.bytes = 0 ∧
      i2c_rxdatav 0x66 w0 = .ok w1 ∧
      w1.payload.bytes = -1 ∧ w1.regs = w0.regs ∧ w1.payload.state = .handle_data ∧
      (∀ rs, Receivable specH w0 (0x66 :: rs) → rs = []) ∧
      (∀ rs, (rs.length + 1 < 4294967296 ∨ Receivable specH w0 (0x66 :: rs)) →
        ∃ w2,
          transfer specH 0 0x40 0xF3 100 0 true 8
            ([Irq.ACK, Irq.ACK, Irq.ACK] ++ (0x66 :: rs).map Irq.RXDATAV) (bootWorld 0 0)
            = .ok w2 ∧
          w2.payload.state = .handle_data ∧
          i2c_busy 0 w2 = true ∧
          w2.event_scheduled = (bootWorld 0 0).event_scheduled ∧
          w2.calls =
            (bootWorld 0 0).calls ++ [Call.sleep_block_mode (I2C_EM_BLOCK specH)]) :=
  C38_zero_byte_read_hangs specH (bootWorld 0 0) 0 0x40 0xF3 100 8 0x66
    (by decide) (setEntry (sleep_open (fun _ => 0)) 2 1) (by rfl)

theorem blocksWith_constant (v : Int) (hv : v ≠ 0) (hv10 : v < 10) :
    blocksWith { specH with BLOCKED := fun _ _ => v, UNBLOCKED := fun _ _ => 0 } v :=
  ⟨rfl, rfl, rfl, hv, hv10, fun _ _ _ => rfl, fun _ _ _ => rfl⟩

theorem leuart_irqs_append (H : SleepRoutinesH) (L : LeuartH) (a b : List LeuartIrq) :
    ∀ w w1 : LeuartWorld, leuart_irqs H L a w = .ok w1 →
      leuart_irqs H L (a ++ b) w = leuart_irqs H L b w1 := by
  induction a with
  | nil =>
    intro w w1 h
    simp only [leuart_irqs, Except.ok.injEq] at h
    rw [← h]
    rfl
  | cons i is ih =>
    intro w w1 h
    have e : ∀ l, leuart_irqs H L (i :: l) w =
        (leuart_irq H L i w).bind (leuart_irqs H L l) := fun _ => rfl
    rw [List.cons_append, e]
    rw [e] at h
    cases hr : leuart_irq H L i w with
    | error x =>
      rw [hr] at h
      cases h
    | ok w2 =>
      rw [hr] at h
      exact ih w2 w1 h

theorem leuart_irqs_single (H : SleepRoutinesH) (L : LeuartH) (i : LeuartIrq)
    (w : LeuartWorld) : leuart_irqs H L [i] w = leuart_irq H L i w := by
  have e : leuart_irqs H L [i] w = (leuart_irq H L i w).bind (leuart_irqs H L []) := rfl
  rw [e]
  cases leuart_irq H L i w <;> rfl

theorem take_succ_getD (l : List Nat) :
    ∀ k, k < l.length → l.take (k + 1) = l.take k ++ [l.getD k 0] := by
  induction l with
  | nil =>
    intro k h
    simp at h
  | cons a l ih =>
    intro k h
    cases k with
    | zero => simp
    | succ k =>
      simp only [List.length_cons, Nat.add_lt_add_iff_right] at h
      simp [ih k h]

theorem strcpy_apply (dst : Nat → Nat) (src : List Nat) (hz : ∀ c ∈ src, c ≠ 0) (i : Nat) :
    strcpy dst src i =
      if i < src.length then src.getD i 0 else if i = src.length then 0 else dst i := by
  have h : src.takeWhile (fun c => decide (c ≠ 0)) = src := by
    rw [List.takeWhile_eq_self_iff]
    intro c hc
    simp [hz c hc]
  simp only [strcpy, h]

theorem leuart_txbl_more (w : LeuartWorld) (hs : w.payload.state = .Transmit_data)
    (hi : w.payload.index + 1 < w.payload.message_length)
    (hml : w.payload.message_length < 4294967296) :
    leuart_txbl w =
      .ok
        { w with
          payload := { w.payload with index := w.payload.index + 1 }
          TXDATA := w.TXDATA ++ [w.payload.message w.payload.index] } := by
  have hlt : w.payload.index < sub32 w.payload.message_length 1 := by
    simp only [sub32]
    omega
  have hmod : (w.payload.index + 1) % 4294967296 = w.payload.index + 1 := by omega
  simp only [leuart_txbl, hs, if_pos hlt, leuart_write_txdata, hmod]

theorem testBit_two (i : Nat) : Nat.testBit 2 i = decide (i = 1) := by
  have h := @Nat.testBit_two_pow 1 i
  simp only [pow_one] at h
  rw [h]
  by_cases hi : i = 1
  · simp [hi]
  · have : ¬ 1 = i := fun e => hi e.symm
    simp [hi, this]

theorem ien_after_last (x : Nat) :
    ((x &&& not32 LEUART_IEN_TXBL) ||| LEUART_IEN_TXC) % 4294967296 &&& LEUART_IEN_TXBL = 0 ∧
    ((x &&& not32 LEUART_IEN_TXBL) ||| LEUART_IEN_TXC) % 4294967296 &&& LEUART_IEN_TXC =
      LEUART_IEN_TXC := by
  constructor
  · apply Nat.eq_of_testBit_eq
    intro i
    simp only [LEUART_IEN_TXBL, LEUART_IEN_TXC, Nat.testBit_and, testBit_mod32,
      Nat.testBit_or, testBit_not32, testBit_two, testBit_one, Nat.zero_testBit]
    by_cases h1 : i = 1
    · subst h1
      simp
    · simp [h1]
  · apply Nat.eq_of_testBit_eq
    intro i
    simp only [LEUART_IEN_TXBL, LEUART_IEN_TXC, Nat.testBit_and, testBit_mod32,
      Nat.testBit_or, testBit_not32, testBit_two, testBit_one]
    by_cases h0 : i = 0
    · subst h0
      simp
    · simp [h0]

theorem leuart_txbl_last (w : LeuartWorld) (hs : w.payload.state = .Transmit_data)
    (hi : w.payload.index + 1 = w.payload.message_length)
    (hml : w.payload.message_length < 4294967296) :
    ∃ w1, leuart_txbl w = .ok w1 ∧
      w1.payload = { w.payload with state := .Wait_finish } ∧
      w1.TXDATA = w.TXDATA ++ [w.payload.message w.payload.index] ∧
      w1.IEN w.payload.leuart &&& LEUART_IEN_TXBL = 0 ∧
      w1.IEN w.payload.leuart &&& LEUART_IEN_TXC = LEUART_IEN_TXC ∧
      w1.calls = w.calls ∧ w1.lowest_energy_mode = w.lowest_energy_mode ∧
      w1.event_scheduled = w.event_scheduled ∧ w1.tx_done_evt = w.tx_done_evt := by
  have hlt : ¬ w.payload.index < sub32 w.payload.message_length 1 := by
    simp only [sub32]
    omega
  have hien := ien_after_last (w.IEN w.payload.leuart)
  simp only [leuart_txbl, hs, if_neg hlt, leuart_write_txdata, LEUART_IntDisable,
    LEUART_IntEnable]
  refine ⟨_, rfl, rfl, rfl, ?_, ?_, rfl, rfl, rfl, rfl⟩
  · simp only [if_true]
    exact hien.1
  · simp only [if_true]
    exact hien.2
theorem leuart_txbl_prefix (H : SleepRoutinesH) (L : LeuartH) (w0 : LeuartWorld)
    (string : List Nat) (hs : w0.payload.state = .Transmit_data)
    (hi : w0.payload.index = 0) (hml : w0.payload.message_length = string.length)
    (hmsg : ∀ i, i < string.length → w0.payload.message i = string.getD i 0)
    (hn32 : string.length < 4294967296) :
    ∀ k, k < string.length →
      ∃ wk, leuart_irqs H L (List.replicate k LeuartIrq.TXBL) w0 = .ok wk ∧
        wk.payload = { w0.payload with index := k } ∧
        wk.TXDATA = w0.TXDATA ++ string.take k ∧
        wk.IEN = w0.IEN ∧ wk.calls = w0.calls ∧
        wk.lowest_energy_mode = w0.lowest_energy_mode ∧
        wk.event_scheduled = w0.event_scheduled ∧ wk.tx_done_evt = w0.tx_done_evt := by
  intro k
  induction k with
  | zero =>
    intro _
    refine ⟨w0, rfl, ?_, by simp, rfl, rfl, rfl, rfl, rfl⟩
    rw [← hi]
  | succ k ih =>
    intro hk
    obtain ⟨wk, a1, a2, a3, a4, a5, a6, a7, a8⟩ := ih (by omega)
    have hsk : wk.payload.state = .Transmit_data := by rw [a2]; exact hs
    have hik : wk.payload.index = k := by rw [a2]
    have hmlk : wk.payload.message_length = string.length := by rw [a2]; exact hml
    have hmk : wk.payload.message k = string.getD k 0 := by
      rw [a2]
      exact hmsg k (by omega)
    have hstep := leuart_txbl_more wk hsk (by rw [hik, hmlk]; exact hk)
      (by rw [hmlk]; exact hn32)
    refine ⟨{ wk with
        payload := { wk.payload with index := wk.payload.index + 1 }
        TXDATA := wk.TXDATA ++ [wk.payload.message wk.payload.index] },
      ?_, ?_, ?_, a4, a5, a6, a7, a8⟩
    · rw [List.replicate_succ', leuart_irqs_append H L _ _ w0 wk a1, leuart_irqs_single]
      exact hstep
    · show ({ wk.payload with index := wk.payload.index + 1 } : LEUART_PAYLOAD) = _
      rw [hik, a2]
    · show wk.TXDATA ++ [wk.payload.message wk.payload.index] = _
      rw [hik, hmk, a3, take_succ_getD string k (by omega), List.append_assoc]

theorem leuart_transmit_run (H : SleepRoutinesH) (L : LeuartH) (w0 : LeuartWorld)
    (string : List Nat) (hs : w0.payload.state = .Transmit_data)
    (hi : w0.payload.index = 0) (hml : w0.payload.message_length = string.length)
    (hmsg : ∀ i, i < string.length → w0.payload.message i = string.getD i 0)
    (hn1 : 1 ≤ string.length) (hn32 : string.length < 4294967296) :
    ∃ wn, leuart_irqs H L (List.replicate string.length LeuartIrq.TXBL) w0 = .ok wn ∧
      wn.payload = { w0.payload with index := string.length - 1, state := .Wait_finish } ∧
      wn.TXDATA = w0.TXDATA ++ string ∧
      wn.IEN w0.payload.leuart &&& LEUART_IEN_TXBL = 0 ∧
      wn.IEN w0.payload.leuart &&& LEUART_IEN_TXC = LEUART_IEN_TXC ∧
      wn.calls = w0.calls ∧
      wn.lowest_energy_mode = w0.lowest_energy_mode ∧
      wn.event_scheduled = w0.event_scheduled ∧ wn.tx_done_evt = w0.tx_done_evt := by
  obtain ⟨wk, a1, a2, a3, _, a5, a6, a7, a8⟩ :=
    leuart_txbl_prefix H L w0 string hs hi hml hmsg hn32 (string.length - 1) (by omega)
  have hsk : wk.payload.state = .Transmit_data := by rw [a2]; exact hs
  have hik : wk.payload.index = string.length - 1 := by rw [a2]
  have hmlk : wk.payload.message_length = string.length := by rw [a2]; exact hml
  have hlk : wk.payload.leuart = w0.payload.leuart := by rw [a2]
  have hmk : wk.payload.message (string.length - 1) = string.getD (string.length - 1) 0 := by
    rw [a2]
    exact hmsg _ (by omega)
  obtain ⟨wn, b1, b2, b3, b4, b5, b6, b7, b8, b9⟩ := leuart_txbl_last wk hsk
    (by rw [hik, hmlk]; omega) (by rw [hmlk]; exact hn32)
  refine ⟨wn, ?_, ?_, ?_, ?_, ?_, b6.trans a5, b7.trans a6, b8.trans a7, b9.trans a8⟩
  · have e : string.length = (string.length - 1) + 1 := by omega
    rw [e, List.replicate_succ', leuart_irqs_append H L _ _ w0 wk a1, leuart_irqs_single]
    exact b1
  · rw [b2, a2]
  · rw [b3, hik, hmk, a3, List.append_assoc, ← take_succ_getD string _ (by omega)]
    have e : string.length - 1 + 1 = string.length := by omega
    rw [e, List.take_length]
  · rw [← hlk]
    exact b4
  · rw [← hlk]
    exact b5

theorem leuart_start_ok (H : SleepRoutinesH) (L : LeuartH) (w : LeuartWorld)
    (leuart : Nat) (string : List Nat) (string_len : Nat) (t1 : Nat → Int)
    (hblock : sleep_block_mode H L.LEUART_TX_EM w.lowest_energy_mode = .ok t1) :
    ∃ w0, leuart_start H L leuart string string_len w = .ok w0 ∧
      w0.payload =
        { busy := true, state := .Transmit_data,
          message_length := string_len % 4294967296,
          message := strcpy w.payload.message string, leuart := leuart, index := 0 } ∧
      w0.TXDATA = w.TXDATA ∧
      w0.calls = w.calls ++ [Call.sleep_block_mode L.LEUART_TX_EM] ∧
      w0.lowest_energy_mode = t1 ∧
      w0.event_scheduled = w.event_scheduled ∧ w0.tx_done_evt = w.tx_done_evt := by
  simp only [leuart_start, hblock]
  exact ⟨_, rfl, rfl, rfl, rfl, rfl, rfl, rfl⟩

theorem leuart_txc_ok (H : SleepRoutinesH) (L : LeuartH) (w : LeuartWorld)
    (t2 : Nat → Int) (hs : w.payload.state = .Wait_finish)
    (hun : sleep_unblock_mode H L.LEUART_TX_EM w.lowest_energy_mode = .ok t2) :
    ∃ wc, leuart_txc H L w = .ok wc ∧
      wc.payload = { w.payload with state := .Transmission_end, busy := false } ∧
      wc.calls = w.calls ++
        [Call.sleep_unblock_mode L.LEUART_TX_EM, Call.add_scheduled_event w.tx_done_evt] ∧
      wc.event_scheduled = add_scheduled_event w.tx_done_evt w.event_scheduled ∧
      wc.lowest_energy_mode = t2 ∧ wc.TXDATA = w.TXDATA := by
  simp only [leuart_txc, hs, LEUART_IntDisable, hun]
  exact ⟨_, rfl, rfl, by simp, rfl, rfl, rfl⟩

/-- C34: for every message without a zero character, of length `n` from 1 on, passed to
`leuart_start` with its length, when the hold on `LEUART_TX_EM` passes the assertions of
the sleep routines: `leuart_start` returns with the transmitter busy; every run of `k < n`
TXBL interrupts returns in `Transmit_data` having written the first `k` characters to
`TXDATA`; the run of `n` TXBL interrupts has written the whole message in order and
ends in `Wait_finish` with TXBL disabled and TXC enabled in `IEN`; a TXC interrupt then
sets `Transmission_end`, clears busy, and the calls made since before `leuart_start` are
one `sleep_block_mode(LEUART_TX_EM)`, one `sleep_unblock_mode(LEUART_TX_EM)` and
`add_scheduled_event(tx_done_evt)`; and TXBL in a state other than `Transmit_data`, or
TXC in a state other than `Wait_finish`, halts in the assertion. -/
theorem C34_leuart_transmit (H : SleepRoutinesH) (L : LeuartH) (w : LeuartWorld)
    (leuart : Nat) (string : List Nat) (t1 t2 : Nat → Int)
    (hz : ∀ c ∈ string, c ≠ 0) (hn1 : 1 ≤ string.length)
    (hn32 : string.length < 4294967296)
    (hblock : sleep_block_mode H L.LEUART_TX_EM w.lowest_energy_mode = .ok t1)
    (hunblock : sleep_unblock_mode H L.LEUART_TX_EM t1 = .ok t2) :
    (∃ w0,
      leuart_start H L leuart string string.length w = .ok w0 ∧
      leuart_tx_busy leuart w0 = true ∧
      (∀ k, k < string.length →
        ∃ wk, leuart_irqs H L (List.replicate k LeuartIrq.TXBL) w0 = .ok wk ∧
          wk.payload.state = .Transmit_data ∧
          wk.TXDATA = w.TXDATA ++ string.take k) ∧
      ∃ wn,
        leuart_irqs H L (List.replicate string.length LeuartIrq.TXBL) w0 = .ok wn ∧
        wn.payload.state = .Wait_finish ∧
        wn.TXDATA = w.TXDATA ++ string ∧
        wn.IEN leuart &&& LEUART_IEN_TXBL = 0 ∧
        wn.IEN leuart &&& LEUART_IEN_TXC = LEUART_IEN_TXC ∧
        ∃ wc,
          leuart_irq H L LeuartIrq.TXC wn = .ok wc ∧
          wc.payload.state = .Transmission_end ∧
          leuart_tx_busy leuart wc = false ∧
          wc.TXDATA = w.TXDATA ++ string ∧
          wc.calls = w.calls ++
            [Call.sleep_block_mode L.LEUART_TX_EM, Call.sleep_unblock_mode L.LEUART_TX_EM,
             Call.add_scheduled_event w.tx_done_evt] ∧
          wc.event_scheduled = add_scheduled_event w.tx_done_evt w.event_scheduled) ∧
    (∀ w0 : LeuartWorld, w0.payload.state ≠ .Transmit_data → leuart_txbl w0 = .error w0) ∧
    (∀ w0 : LeuartWorld, w0.payload.state ≠ .Wait_finish →
      leuart_txc H L w0 = .error w0) := by
  refine ⟨?_, ?_, ?_⟩
  · obtain ⟨w0, s1, s2, s3, s4, s5, s6, s7⟩ :=
      leuart_start_ok H L w leuart string string.length t1 hblock
    have hs : w0.payload.state = .Transmit_data := by rw [s2]
    have hi : w0.payload.index = 0 := by rw [s2]
    have hml : w0.payload.message_length = string.length := by
      rw [s2]
      exact Nat.mod_eq_of_lt hn32
    have hl : w0.payload.leuart = leuart := by rw [s2]
    have hmsg : ∀ i, i < string.length → w0.payload.message i = string.getD i 0 := by
      intro i hi
      rw [s2]
      show strcpy w.payload.message string i = _
      rw [strcpy_apply _ _ hz, if_pos hi]
    refine ⟨w0, s1, by show w0.payload.busy = true; rw [s2], ?_, ?_⟩
    · intro k hk
      obtain ⟨wk, a1, a2, a3, _⟩ := leuart_txbl_prefix H L w0 string hs hi hml hmsg hn32 k hk
      exact ⟨wk, a1, by rw [a2]; exact hs, by rw [a3, s3]⟩
    · obtain ⟨wn, b1, b2, b3, b4, b5, b6, b7, b8, b9⟩ :=
        leuart_transmit_run H L w0 string hs hi hml hmsg hn1 hn32
      rw [hl] at b4 b5
      have hsn : wn.payload.state = .Wait_finish := by rw [b2]
      obtain ⟨wc, c1, c2, c3, c4, _, c6⟩ := leuart_txc_ok H L wn t2 hsn
        (by rw [b7, s5]; exact hunblock)
      refine ⟨wn, b1, hsn, by rw [b3, s3], b4, b5, wc, c1, by rw [c2], ?_, ?_, ?_, ?_⟩
      · show wc.payload.busy = false
        rw [c2]
      · rw [c6, b3, s3]
      · rw [c3, b6, s4, b9, s7, List.append_assoc]
        rfl
      · rw [c4, b9, s7, b8, s6]
  · intro w0 h
    simp only [leuart_txbl]
    cases hs : w0.payload.state <;> first | exact absurd hs h | rfl
  · intro w0 h
    simp only [leuart_txc]
    cases hs : w0.payload.state <;> first | exact absurd hs h | rfl

/-- Witness of C34: the message `"Hi"` sent from the state before any transmission, with
`LEUART_TX_EM` the level 3 and `tx_done_evt` the event `0x20`. -/
theorem C34_leuart_transmit_witness :
    ∃ w0,
      leuart_start specH ⟨3⟩ 0 [0x48, 0x69] ([0x48, 0x69] : List Nat).length
        (leuartBoot 0x20 0) = .ok w0 ∧
      leuart_tx_busy 0 w0 = true ∧
      (∀ k, k < ([0x48, 0x69] : List Nat).length →
        ∃ wk, leuart_irqs specH ⟨3⟩ (List.replicate k LeuartIrq.TXBL) w0 = .ok wk ∧
          wk.payload.state = .Transmit_data ∧
          wk.TXDATA = (leuartBoot 0x20 0).TXDATA ++ ([0x48, 0x69] : List Nat).take k) ∧
      ∃ wn,
        leuart_irqs specH ⟨3⟩
          (List.replicate ([0x48, 0x69] : List Nat).length LeuartIrq.TXBL) w0 = .ok wn ∧
        wn.payload.state = .Wait_finish ∧
        wn.TXDATA = (leuartBoot 0x20 0).TXDATA ++ [0x48, 0x69] ∧
        wn.IEN 0 &&& LEUART_IEN_TXBL = 0 ∧
        wn.IEN 0 &&& LEUART_IEN_TXC = LEUART_IEN_TXC ∧
        ∃ wc,
          leuart_irq specH ⟨3⟩ LeuartIrq.TXC wn = .ok wc ∧
          wc.payload.state = .Transmission_end ∧
          leuart_tx_busy 0 wc = false ∧
          wc.TXDATA = (leuartBoot 0x20 0).TXDATA ++ [0x48, 0x69] ∧
          wc.calls = (leuartBoot 0x20 0).calls ++
            [Call.sleep_block_mode 3, Call.sleep_unblock_mode 3,
             Call.add_scheduled_event (leuartBoot 0x20 0).tx_done_evt] ∧
          wc.event_scheduled =
            add_scheduled_event (leuartBoot 0x20 0).tx_done_evt
              (leuartBoot 0x20 0).event_scheduled :=
  (C34_leuart_transmit specH ⟨3⟩ (leuartBoot 0x20 0) 0 [0x48, 0x69]
    (setEntry (sleep_open (fun _ => 0)) 3 1)
    (setEntry (setEntry (sleep_open (fun _ => 0)) 3 1) 3 0)
    (by decide) (by decide) (by simp) (by rfl) (by rfl)).1

end DDL
